import Mathlib

/-!
Verification development for the installer's package pipeline.

A shallow embedding of the `.deb` unpacking code
(`src/internal/debpkg/debpkg.go`): the scan of the outer `ar` container
(`findDataTarXz`), the tar entry writer (`writeEntry`, `extractAll`) and
`ExtractDeb` with its external-process readers; and of the install pipeline
(`src/internal/installer/installer.go`, `tmpdirs.go`): `selectDebAsset`,
`Install`, `installTree` and the registry of staging directories.

Go strings and byte slices are lists of byte values (`List Nat`).  The Go
standard-library functions the code calls (`strings.TrimRight`,
`strings.TrimSpace`, `strconv.ParseInt`, `io.ReadFull`, `os.File.Seek`,
`io.LimitReader`, `filepath.Clean`, `filepath.Join`, `filepath.Rel`,
`filepath.Dir`, ...) are modelled for a Unix target (separator `/`).  Calls
to the operating system and to functions outside the modelled code are
recorded as a trace, and their outcomes are parameters.
-/

set_option maxRecDepth 100000

namespace Debpkg

/-- A Go string or byte slice: its bytes, in order. -/
abbrev Bytes := List Nat

/-- The bytes of an ASCII string literal. -/
def ascii (s : String) : Bytes := s.data.map Char.toNat

instance instDecidableEqExcept {ε α : Type} [DecidableEq ε] [DecidableEq α] :
    DecidableEq (Except ε α)
  | .ok a, .ok b => if h : a = b then isTrue (by rw [h]) else isFalse (by intro e; cases e; exact h rfl)
  | .error a, .error b => if h : a = b then isTrue (by rw [h]) else isFalse (by intro e; cases e; exact h rfl)
  | .ok _, .error _ => isFalse (by intro e; cases e)
  | .error _, .ok _ => isFalse (by intro e; cases e)

/-! ## Constants of `debpkg.go` -/

def arMagicSize : Nat := 8
def arHeaderSize : Nat := 60
def arNameField : Nat := 16
def arSizeOffset : Nat := 48
def arSizeField : Nat := 10
def defaultDirPerm : Nat := 0o755

/-! ## `strings` and `strconv` -/

/-- Go `strings.TrimRight(s, cutset)` for an ASCII cutset: drop trailing bytes
that belong to the cutset. -/
def trimRight (s cutset : Bytes) : Bytes :=
  (s.reverse.dropWhile (fun b => decide (b ∈ cutset))).reverse

/-- The UTF-8 encodings of the code points for which Go's `unicode.IsSpace`
holds: `\t \n \v \f \r`, space, U+0085, U+00A0, U+1680, U+2000..U+200A,
U+2028, U+2029, U+202F, U+205F, U+3000. -/
def whiteSpace : List Bytes :=
  [[9], [10], [11], [12], [13], [32],
   [0xC2, 0x85], [0xC2, 0xA0], [0xE1, 0x9A, 0x80],
   [0xE2, 0x80, 0x80], [0xE2, 0x80, 0x81], [0xE2, 0x80, 0x82], [0xE2, 0x80, 0x83],
   [0xE2, 0x80, 0x84], [0xE2, 0x80, 0x85], [0xE2, 0x80, 0x86], [0xE2, 0x80, 0x87],
   [0xE2, 0x80, 0x88], [0xE2, 0x80, 0x89], [0xE2, 0x80, 0x8A],
   [0xE2, 0x80, 0xA8], [0xE2, 0x80, 0xA9], [0xE2, 0x80, 0xAF], [0xE2, 0x81, 0x9F],
   [0xE3, 0x80, 0x80]]

/-- Strip, up to `fuel` times, a leading byte sequence that is one of `seqs`. -/
def stripLeading (seqs : List Bytes) : Nat → Bytes → Bytes
  | 0, s => s
  | fuel + 1, s =>
    match seqs.find? (fun w => decide (w <+: s)) with
    | some w => stripLeading seqs fuel (s.drop w.length)
    | none => s

/-- Go `strings.TrimSpace`: drop leading and trailing white space (as UTF-8
encoded code points; a byte that does not decode to a white-space code point
stops the trimming). -/
def trimSpace (s : Bytes) : Bytes :=
  let l := stripLeading whiteSpace s.length s
  (stripLeading (whiteSpace.map List.reverse) l.length l.reverse).reverse

/-- The errors of Go's `strconv` (`ErrSyntax`, `ErrRange`). -/
inductive NumError
  | errSyntax
  | errRange
  deriving DecidableEq, Repr

/-- The digit loop of Go `strconv.ParseUint(s, 10, 64)` after the empty-string
check: `n` is the value read so far. -/
def parseUintLoop : Bytes → Nat → Except NumError Nat
  | [], n => .ok n
  | c :: rest, n =>
    if 48 ≤ c ∧ c ≤ 57 then
      if n ≥ (2 ^ 64 - 1) / 10 + 1 then .error .errRange
      else
        let n1 := n * 10 + (c - 48)
        if n1 > 2 ^ 64 - 1 then .error .errRange else parseUintLoop rest n1
    else .error .errSyntax

/-- Go `strconv.ParseUint(s, 10, 64)`. -/
def parseUint (s : Bytes) : Except NumError Nat :=
  if s = [] then .error .errSyntax else parseUintLoop s 0

/-- Go `strconv.ParseInt(s, 10, 64)`: an optional sign `+` (43) or `-` (45),
then an unsigned decimal number; the result must fit a signed 64-bit
integer. -/
def parseInt (s : Bytes) : Except NumError Int :=
  match s with
  | [] => .error .errSyntax
  | c :: rest =>
    let neg := decide (c = 45)
    let digits := if c = 43 ∨ c = 45 then rest else s
    match parseUint digits with
    | .error e => .error e
    | .ok un =>
      if ¬ neg ∧ un ≥ 2 ^ 63 then .error .errRange
      else if neg ∧ un > 2 ^ 63 then .error .errRange
      else .ok (if neg then - (un : Int) else (un : Int))

/-! ## The byte source: an `*os.File` as an `io.ReadSeeker` -/

/-- An open file: its contents and the current offset. -/
structure File where
  data : Bytes
  pos : Nat
  deriving DecidableEq, Repr

/-- The errors `io.ReadFull` returns at the end of the data. -/
inductive ReadError
  | eof
  | unexpectedEOF
  deriving DecidableEq, Repr

/-- Go `io.ReadFull(r, buf)` with `len(buf) = n` (`n > 0`): `io.EOF` when no
byte is left, `io.ErrUnexpectedEOF` when fewer than `n` are, else the next `n`
bytes, the offset moved past them. -/
def readFull (r : File) (n : Nat) : Except ReadError (Bytes × File) :=
  let avail := r.data.length - r.pos
  if avail = 0 then .error .eof
  else if avail < n then .error .unexpectedEOF
  else .ok ((r.data.drop r.pos).take n, { r with pos := r.pos + n })

/-- Go `r.Seek(off, io.SeekCurrent)` on a file: the new offset may lie past
the end of the data; a negative one is an error and leaves the offset. -/
def seekCurrent (r : File) (off : Int) : Option File :=
  if (r.pos : Int) + off < 0 then none
  else some { r with pos := ((r.pos : Int) + off).toNat }

/-- Go `io.LimitedReader`: the source `R` and the count `N` of bytes that may
still be read. -/
structure LimitedReader where
  R : File
  N : Int
  deriving DecidableEq, Repr

/-- All the bytes a `LimitedReader` yields when read to its end: at most `N`
bytes of the source from its offset on, none when `N ≤ 0`. -/
def LimitedReader.readAll (l : LimitedReader) : Bytes :=
  (l.R.data.drop l.R.pos).take l.N.toNat

/-! ## `findDataTarXz` -/

/-- The errors of `findDataTarXz`, by the `fmt.Errorf` that makes them. -/
inductive ArError
  | readHeader (e : ReadError)
  | parseSize (e : NumError)
  | skipBody
  deriving DecidableEq, Repr

/-- The member name of a header:
`strings.TrimRight(string(buf[:arNameField]), " /")`. -/
def headerName (buf : Bytes) : Bytes :=
  trimRight (buf.take arNameField) (ascii " /")

/-- The size text of a header:
`strings.TrimSpace(string(buf[arSizeOffset : arSizeOffset+arSizeField]))`. -/
def headerSizeText (buf : Bytes) : Bytes :=
  trimSpace ((buf.drop arSizeOffset).take arSizeField)

/-- The loop of `findDataTarXz`; every iteration takes one unit of `fuel`, and
`none` means that the fuel ran out before the loop returned. -/
def findDataTarXz : Nat → File → Option (Except ArError LimitedReader)
  | 0, _ => none
  | fuel + 1, r =>
    match readFull r arHeaderSize with
    | .error e => some (.error (.readHeader e))
    | .ok (buf, r1) =>
      let name := headerName buf
      let sizeText := headerSizeText buf
      match parseInt sizeText with
      | .error e => some (.error (.parseSize e))
      | .ok sz =>
        if name = ascii "data.tar.xz" then some (.ok ⟨r1, sz⟩)
        else
          let skip := if Int.tmod sz 2 ≠ 0 then sz + 1 else sz
          match seekCurrent r1 skip with
          | none => some (.error .skipBody)
          | some r2 => findDataTarXz fuel r2

/-! ## Well-formed `ar` streams -/

/-- A member of an `ar` archive as the format lays it out: the 16-byte name
field, the 32 bytes of the time, owner, group and mode fields, the decimal
digits of the size (the size field is these digits padded with spaces to 10
bytes), the 2-byte end-of-header mark, the body, and the byte used as padding
after an odd-sized body. -/
structure ArMember where
  name : Bytes
  other : Bytes
  sizeDigits : Bytes
  fmag : Bytes
  body : Bytes
  pad : Nat
  deriving DecidableEq, Repr

/-- The 10-byte size field: the digits, then spaces. -/
def ArMember.sizeField (m : ArMember) : Bytes :=
  m.sizeDigits ++ List.replicate (arSizeField - m.sizeDigits.length) 32

/-- The 60-byte header of a member. -/
def ArMember.header (m : ArMember) : Bytes :=
  m.name ++ m.other ++ m.sizeField ++ m.fmag

/-- A member in the stream: header, body, and one pad byte after an odd-sized
body. -/
def ArMember.encode (m : ArMember) : Bytes :=
  m.header ++ m.body ++ (if m.body.length % 2 = 1 then [m.pad] else [])

/-- A member is well formed when its fields have the widths of the format and
its size field is the unsigned decimal number of bytes of its body. -/
def ArMember.WellFormed (m : ArMember) : Prop :=
  m.name.length = 16 ∧ m.other.length = 32 ∧ m.fmag.length = 2 ∧
  m.sizeDigits ≠ [] ∧ m.sizeDigits.length ≤ 10 ∧
  (∀ c ∈ m.sizeDigits, 48 ≤ c ∧ c ≤ 57) ∧
  Nat.ofDigits 10 (m.sizeDigits.reverse.map (fun c => c - 48)) = m.body.length

instance (m : ArMember) : Decidable m.WellFormed := by
  unfold ArMember.WellFormed; infer_instance

/-- The byte stream of an archive after its magic: the members one after the
other. -/
def arStream (ms : List ArMember) : Bytes :=
  (ms.map ArMember.encode).flatten

/-- The offset in `arStream ms` of the first body byte of member `k`. -/
def bodyOffset (ms : List ArMember) (k : Nat) : Nat :=
  (arStream (ms.take k)).length + arHeaderSize

/-! ## Sample archives -/

/-- The global header of an `ar` archive, `!<arch>` and a newline. -/
def arMagic : Bytes := ascii "!<arch>\n"

/-- A member `debian-binary` with an odd-sized body (5 bytes). -/
def sampleOddMember : ArMember :=
  { name := ascii "debian-binary   ", other := List.replicate 32 48, sizeDigits := ascii "5",
    fmag := [96, 10], body := [50, 46, 48, 10, 10], pad := 10 }

/-- A member `data.tar.xz` with a 3-byte body. -/
def sampleDataMember : ArMember :=
  { name := ascii "data.tar.xz/    ", other := List.replicate 32 48, sizeDigits := ascii "3",
    fmag := [96, 10], body := [253, 55, 122], pad := 10 }

/-- A header named `data.tar.xz` whose size field reads `-60`. -/
def negSizeDataHeader : Bytes :=
  ArMember.header { sampleDataMember with sizeDigits := ascii "-60" }

/-- A header named `data.tar.xz` whose size field reads `+7`. -/
def plusSizeDataHeader : Bytes :=
  ArMember.header { sampleDataMember with sizeDigits := ascii "+7" }

/-- A header named `debian-binary` whose size field reads `-60`. -/
def negSizeOtherHeader : Bytes :=
  ArMember.header { sampleOddMember with sizeDigits := ascii "-60" }

/-- A header named `debian-binary` whose size field reads `12x`. -/
def badSizeHeader : Bytes :=
  ArMember.header { sampleOddMember with sizeDigits := ascii "12x" }

/-! ## `strings` and `path/filepath` on paths (Unix, separator `/`, byte 47) -/

/-- Go `strings.HasPrefix(s, p)`. -/
def hasPrefix (s p : Bytes) : Bool := decide (p <+: s)

/-- Go `strings.Contains(s, sub)`. -/
def contains (s sub : Bytes) : Bool := decide (sub <:+: s)

/-- Go `strings.TrimPrefix(s, p)`. -/
def trimPrefix (s p : Bytes) : Bytes := if hasPrefix s p then s.drop p.length else s

/-- Go `filepath.IsAbs(path)` on Unix: the path begins with the separator. -/
def isAbs (path : Bytes) : Bool := hasPrefix path (ascii "/")

/-- The elements of a path: the byte runs between separators (as Go
`strings.Split(s, "/")`; a path with `n` separators has `n + 1` elements, empty
ones included). -/
def splitSep : Bytes → List Bytes
  | [] => [[]]
  | c :: rest =>
    if c = 47 then [] :: splitSep rest
    else (c :: (splitSep rest).headD []) :: (splitSep rest).tail

/-- Go `strings.Join(es, "/")`. -/
def joinSep (es : List Bytes) : Bytes := List.intercalate [47] es

/-- One step of the loop of Go `filepath.Clean` on the path element `e`.  The
state is the output written so far: the number of `..` elements it begins with
(up to the mark `dotdot` of the Go code, past which the loop cannot backtrack)
and the elements after them, last first.  An empty element and `.` are
dropped; `..` removes the last element after the mark when there is one, is
dropped at the root of a rooted path, and is appended (moving the mark)
otherwise; any other element is appended. -/
def cleanStep (rooted : Bool) (st : Nat × List Bytes) (e : Bytes) : Nat × List Bytes :=
  if e = [] ∨ e = ascii "." then st
  else if e = ascii ".." then
    match st.2 with
    | _ :: below => (st.1, below)
    | [] => if rooted then st else (st.1 + 1, [])
  else (st.1, e :: st.2)

/-- Go `filepath.Clean(path)`: the shortest path equivalent to `path` by
lexical processing alone. -/
def Clean (path : Bytes) : Bytes :=
  if path = [] then ascii "."
  else
    let rooted := decide (path.head? = some 47)
    let st := (splitSep path).foldl (cleanStep rooted) (0, [])
    let out := joinSep (List.replicate st.1 (ascii "..") ++ st.2.reverse)
    if rooted then 47 :: out
    else if out = [] then ascii "."
    else out

/-- Go `filepath.Join(a, b)`: the non-empty elements joined by the separator,
then cleaned; empty when both are empty. -/
def Join (a b : Bytes) : Bytes :=
  if a = [] then (if b = [] then [] else Clean b)
  else Clean (a ++ 47 :: b)

/-- Go `filepath.Dir(path)`: the path up to and including its last separator,
cleaned. -/
def Dir (path : Bytes) : Bytes :=
  Clean (path.reverse.dropWhile (fun c => decide (c ≠ 47))).reverse

/-- The loop of Go `filepath.Rel` that skips the leading elements `base` and
`targ` have in common.  The arguments are what is left of both (`base[b0:]`,
`targ[t0:]`); the result is what is left of both when the loop ends, and the
element `base[b0:bi]` it ended on (empty when it ended because one side was
used up). -/
def relLoop : Nat → Bytes → Bytes → Bytes × Bytes × Bytes
  | 0, b, t => (b, t, [])
  | fuel + 1, b, t =>
    if b = [] ∨ t = [] then (b, t, [])
    else
      let be := b.takeWhile (fun c => decide (c ≠ 47))
      let te := t.takeWhile (fun c => decide (c ≠ 47))
      if te ≠ be then (b, t, be)
      else relLoop fuel (b.drop (be.length + 1)) (t.drop (te.length + 1))

/-- Go `filepath.Rel(basepath, targpath)`: a relative path that leads from
`basepath` to `targpath`, or `none` for the error (one path rooted and the
other not, or `..` elements of the base that cannot be undone). -/
def Rel (basepath targpath : Bytes) : Option Bytes :=
  let base := Clean basepath
  let targ := Clean targpath
  if targ = base then some (ascii ".")
  else
    let base := if base = ascii "." then [] else base
    let baseSlashed := decide (base.head? = some 47)
    let targSlashed := decide (targ.head? = some 47)
    if baseSlashed ≠ targSlashed then none
    else
      let r := relLoop (base.length + 1) base targ
      if r.2.2 = ascii ".." then none
      else if r.1 ≠ [] then
        let seps := r.1.count 47
        let ups := ascii ".." ++ (List.replicate seps (ascii "/..")).flatten
        some (if r.2.1 ≠ [] then ups ++ 47 :: r.2.1 else ups)
      else some r.2.1

/-! ## `archive/tar` headers -/

def TypeReg : Nat := 48
def TypeLink : Nat := 49
def TypeSymlink : Nat := 50
def TypeChar : Nat := 51
def TypeBlock : Nat := 52
def TypeDir : Nat := 53
def TypeFifo : Nat := 54

/-- The fields of a Go `tar.Header` that `writeEntry` reads. -/
structure Header where
  Typeflag : Nat
  Name : Bytes
  Linkname : Bytes
  Mode : Int
  deriving DecidableEq, Repr

/-- Go `fs.FileMode(hdr.Mode)`: the conversion of the `int64` to `uint32`. -/
def fileMode (hdr : Header) : Nat := (hdr.Mode % 2 ^ 32).toNat

/-- Go `hdr.FileInfo().Mode()`: the permission bits of the header mode, the
`fs.FileMode` bits for its setuid, setgid and sticky bits, for the file type
its mode names and for the file type of its type flag. -/
def fileInfoMode (hdr : Header) : Nat :=
  let u := fileMode hdr
  let perm := u % 0o1000
  let suid := if (u / 0o4000) % 2 = 1 then 2 ^ 23 else 0
  let sgid := if (u / 0o2000) % 2 = 1 then 2 ^ 22 else 0
  let svtx := if (u / 0o1000) % 2 = 1 then 2 ^ 20 else 0
  let m := u - u % 0o10000
  let byMode :=
    if m = 0o40000 then 2 ^ 31
    else if m = 0o10000 then 2 ^ 25
    else if m = 0o120000 then 2 ^ 27
    else if m = 0o60000 then 2 ^ 26
    else if m = 0o20000 then 2 ^ 26 + 2 ^ 21
    else if m = 0o140000 then 2 ^ 24
    else 0
  let byFlag :=
    if hdr.Typeflag = TypeSymlink then 2 ^ 27
    else if hdr.Typeflag = TypeChar then 2 ^ 26 + 2 ^ 21
    else if hdr.Typeflag = TypeBlock then 2 ^ 26
    else if hdr.Typeflag = TypeDir then 2 ^ 31
    else if hdr.Typeflag = TypeFifo then 2 ^ 25
    else 0
  (perm + suid + sgid + svtx) ||| byMode ||| byFlag

/-! ## Filesystem calls of `writeEntry` -/

/-- A call `writeEntry` makes to the filesystem. -/
inductive FsOp
  /-- Call `os.MkdirAll(path, perm)`. -/
  | mkdirAll (path : Bytes) (perm : Nat)
  /-- Call `os.Symlink(target, path)`. -/
  | symlink (target path : Bytes)
  /-- Call `os.OpenFile(path, os.O_CREATE|os.O_TRUNC|os.O_WRONLY, perm)`. -/
  | openFile (path : Bytes) (perm : Nat)
  /-- Call `io.Copy(out, tr)` for the file opened at `path`: the body bytes of
  the entry are written to it. -/
  | copy (path : Bytes) (data : Bytes)
  /-- Call `out.Close()` for the file opened at `path`. -/
  | close (path : Bytes)
  deriving DecidableEq, Repr

/-- The filesystem path a call acts on. -/
def FsOp.path : FsOp → Bytes
  | .mkdirAll p _ => p
  | .symlink _ p => p
  | .openFile p _ => p
  | .copy p _ => p
  | .close p => p

/-- The errors of `writeEntry` and `extractAll`. -/
inductive ExtractError
  /-- Wraps `ErrPathOutside`, with the entry name. -/
  | pathOutside (name : Bytes)
  /-- The error of `filepath.Rel` (`invalid path ...`). -/
  | invalidPath (fullPath : Bytes)
  /-- Wraps `ErrBadLink`, with the entry name and the link target. -/
  | badLink (name linkname : Bytes)
  /-- The error of a failed filesystem call (returned as it is or wrapped). -/
  | io (op : FsOp)
  /-- The error of `tr.Next()` (`tar next: ...`). -/
  | tarNext
  deriving DecidableEq, Repr

/-! ## `writeEntry` and `extractAll` -/

/-- The function `writeEntry`.  `fails op` tells whether the filesystem call
`op` returns an error; `body` is what the tar reader yields for the entry.  The
result is the list of the filesystem calls made, in order (a failed call is
the last one, apart from the deferred `Close`), and the returned error or
`nil`. -/
def writeEntry (fails : FsOp → Bool) (hdr : Header) (body dest : Bytes) :
    List FsOp × Except ExtractError Unit :=
  let cleanName := Clean hdr.Name
  if cleanName = ascii "." then ([], .ok ())
  else if hasPrefix cleanName (ascii "../") then ([], .error (.pathOutside hdr.Name))
  else
    let fullPath := Join dest cleanName
    match Rel dest fullPath with
    | none => ([], .error (.invalidPath fullPath))
    | some rel =>
      if hasPrefix rel (ascii "..") then ([], .error (.pathOutside hdr.Name))
      else if hdr.Typeflag = TypeDir then
        let mk := FsOp.mkdirAll fullPath (fileInfoMode hdr)
        ([mk], if fails mk then .error (.io mk) else .ok ())
      else if hdr.Typeflag = TypeSymlink then
        if contains hdr.Linkname (ascii "../") then
          ([], .error (.badLink hdr.Name hdr.Linkname))
        else
          let target :=
            if isAbs hdr.Linkname then Join dest (trimPrefix hdr.Linkname (ascii "/"))
            else hdr.Linkname
          let mk := FsOp.mkdirAll (Dir fullPath) defaultDirPerm
          if fails mk then ([mk], .error (.io mk))
          else
            let sl := FsOp.symlink target fullPath
            ([mk, sl], if fails sl then .error (.io sl) else .ok ())
      else if hdr.Typeflag = TypeReg ∨ hdr.Typeflag = TypeLink ∨ hdr.Typeflag = TypeChar
          ∨ hdr.Typeflag = TypeBlock ∨ hdr.Typeflag = TypeFifo then
        let mk := FsOp.mkdirAll (Dir fullPath) defaultDirPerm
        if fails mk then ([mk], .error (.io mk))
        else
          let op := FsOp.openFile fullPath (fileMode hdr)
          if fails op then ([mk, op], .error (.io op))
          else
            let cl := FsOp.close fullPath
            if hdr.Typeflag = TypeReg then
              let cp := FsOp.copy fullPath body
              if fails cp then ([mk, op, cp, cl], .error (.io cp))
              else ([mk, op, cp, cl], if fails cl then .error (.io cl) else .ok ())
            else ([mk, op, cl], if fails cl then .error (.io cl) else .ok ())
      else ([], .ok ())

/-- The function `extractAll` on the results of the successive `tr.Next()`
calls: `some (hdr, body)` is a header with the body of its entry, `none` a
header that fails to parse, and the end of the list is `io.EOF`.  `fails i`
tells which filesystem calls fail while entry `i` is written.  The result is
the list of all filesystem calls made and the returned error or `nil`. -/
def extractAll (fails : Nat → FsOp → Bool) (dest : Bytes) :
    Nat → List (Option (Header × Bytes)) → List FsOp × Except ExtractError Unit
  | _, [] => ([], .ok ())
  | _, none :: _ => ([], .error .tarNext)
  | i, some (hdr, body) :: rest =>
    match writeEntry (fails i) hdr body dest with
    | (ops, .error e) => (ops, .error e)
    | (ops, .ok ()) =>
      let r := extractAll fails dest (i + 1) rest
      (ops ++ r.1, r.2)

/-! ## Lexical containment -/

/-- A path element other than the empty one, `.` and `..`, without a
separator. -/
def NormalElem (x : Bytes) : Prop :=
  x ≠ [] ∧ x ≠ ascii "." ∧ x ≠ ascii ".." ∧ 47 ∉ x

/-- Path `p` lies strictly inside the directory `dest` (an absolute, cleaned
path): `p` is a cleaned path other than `dest` that begins with `dest` followed
by a separator, so `dest` is a proper ancestor of `p`. -/
def StrictlyInside (dest p : Bytes) : Prop :=
  Clean p = p ∧ p ≠ dest ∧ (if dest = ascii "/" then dest else dest ++ ascii "/") <+: p

instance (dest p : Bytes) : Decidable (StrictlyInside dest p) := by
  unfold StrictlyInside; infer_instance

/-- An absolute, cleaned destination root: what `ExtractDeb` passes on as
`absDest`, the result of `filepath.Abs`. -/
def AbsClean (dest : Bytes) : Prop := dest.head? = some 47 ∧ Clean dest = dest

instance (dest : Bytes) : Decidable (AbsClean dest) := by
  unfold AbsClean; infer_instance

/-- Where the operating system looks a path up when `link` is a symbolic link
with target `target`: a path that goes through the link continues from the
target, which is taken from the directory of the link unless it is
absolute. -/
def resolveThrough (link target p : Bytes) : Bytes :=
  if hasPrefix p (link ++ ascii "/") then
    let rest := p.drop (link.length + 1)
    if isAbs target then Join target rest else Join (Join (Dir link) target) rest
  else p

/-! ## Sample entries -/

/-- No filesystem call fails. -/
def noFail : FsOp → Bool := fun _ => false

/-- A regular file `opt/app/bin/app` with mode 0755. -/
def sampleFile : Header :=
  { Typeflag := TypeReg, Name := ascii "opt/app/bin/app", Linkname := [], Mode := 0o755 }

/-- A regular file `opt/app/conf` with mode `0o640` (decimal 416). -/
def sampleModeFile : Header :=
  { Typeflag := TypeReg, Name := ascii "opt/app/conf", Linkname := [], Mode := 0o640 }

/-- A fifo `run/pipe` with mode `0o4700` (decimal 2496). -/
def sampleSetuidFifo : Header :=
  { Typeflag := TypeFifo, Name := ascii "run/pipe", Linkname := [], Mode := 0o4700 }

/-- A regular file `a`, placed directly under the destination root. -/
def sampleTopFile : Header :=
  { Typeflag := TypeReg, Name := ascii "a", Linkname := [], Mode := 0o644 }

/-- A directory entry named `..`. -/
def sampleDotDotDir : Header :=
  { Typeflag := TypeDir, Name := ascii "..", Linkname := [], Mode := 0o755 }

/-- A regular file named `../evil`. -/
def sampleEvilFile : Header :=
  { Typeflag := TypeReg, Name := ascii "../evil", Linkname := [], Mode := 0o644 }

/-- A symlink `x` whose target is `..`. -/
def sampleParentLink : Header :=
  { Typeflag := TypeSymlink, Name := ascii "x", Linkname := ascii "..", Mode := 0o777 }

/-- A symlink `x` whose target is `a/..`. -/
def sampleInnerParentLink : Header :=
  { Typeflag := TypeSymlink, Name := ascii "x", Linkname := ascii "a/..", Mode := 0o777 }

/-- A symlink `x` whose target is the absolute path `/..`. -/
def sampleAbsParentLink : Header :=
  { Typeflag := TypeSymlink, Name := ascii "x", Linkname := ascii "/..", Mode := 0o777 }

/-- A regular file `x/evil`. -/
def sampleThroughLink : Header :=
  { Typeflag := TypeReg, Name := ascii "x/evil", Linkname := [], Mode := 0o644 }

/-- A hard-link entry `usr/bin/tool`. -/
def sampleHardLink : Header :=
  { Typeflag := TypeLink, Name := ascii "usr/bin/tool", Linkname := ascii "usr/bin/app",
    Mode := 0o755 }

/-- A regular file named `/`. -/
def sampleRootFile : Header :=
  { Typeflag := TypeReg, Name := ascii "/", Linkname := [], Mode := 0o644 }

/-- A symlink `usr/bin/tool` whose target is the relative path `bin/tool`. -/
def sampleRelativeLink : Header :=
  { Typeflag := TypeSymlink, Name := ascii "usr/bin/tool", Linkname := ascii "bin/tool",
    Mode := 0o777 }

/-- A symlink `usr/bin/tool` whose target is the absolute path `/opt/app/tool`. -/
def sampleAbsoluteLink : Header :=
  { Typeflag := TypeSymlink, Name := ascii "usr/bin/tool", Linkname := ascii "/opt/app/tool",
    Mode := 0o777 }

/-- A symlink `x` whose target is `../../etc/passwd`. -/
def sampleTraversalLink : Header :=
  { Typeflag := TypeSymlink, Name := ascii "x", Linkname := ascii "../../etc/passwd",
    Mode := 0o777 }

/-- A regular file named `..foo`: one path element, which is not `..`. -/
def sampleDotDotFoo : Header :=
  { Typeflag := TypeReg, Name := ascii "..foo", Linkname := [], Mode := 0o644 }

/-- A regular file named `...`. -/
def sampleThreeDots : Header :=
  { Typeflag := TypeReg, Name := ascii "...", Linkname := [], Mode := 0o644 }

/-- An entry of a kind `writeEntry` does not materialise: a PAX global header
(type flag `g`) named `pax_global_header`. -/
def samplePaxHeader : Header :=
  { Typeflag := 103, Name := ascii "pax_global_header", Linkname := [], Mode := 0o644 }

/-! ## `ExtractDeb` and the external-process readers -/

/-- One run of an external utility: what it writes, chunk by chunk in the
order the writes reach the pipe, each chunk marked as standard error (`true`)
or standard output (`false`), and its exit status. -/
structure ProcRun where
  writes : List (Bool × Bytes)
  exitStatus : Nat
  deriving DecidableEq, Repr

/-- What an `io.Reader` yields when it is read to its end: the bytes, and
whether the end is `io.EOF` (`true`) or an error (`false`). -/
structure Stream where
  data : Bytes
  eof : Bool
  deriving DecidableEq, Repr

/-- The reader that `newSystemArStream` and `newSystemXZReader` return once
the utility has started: the read end of a pipe whose write end is both
`cmd.Stdout` and `cmd.Stderr`, closed with `pw.Close()` after `cmd.Wait()`,
whose result is dropped.  It yields every chunk the utility writes, then
`io.EOF`. -/
def pipeStream (run : ProcRun) : Stream :=
  ⟨(run.writes.map Prod.snd).flatten, true⟩

/-- The outcomes of what `ExtractDeb` calls: `filepath.Abs`, `os.Open` (the
contents of the file, `none` for an error), whether `f.Close()` fails, whether
`cmd.Start()` succeeds for `ar` and for `xz`, the run of `ar p debPath member`,
the run of `xz -d -c` on what it reads from standard input, the stream of
`xz.NewReader` over the member (`none` when it returns an error), the results
of the successive `tr.Next()` of the tar reader over a stream (as for
`extractAll`), and the filesystem calls that fail. -/
structure DebWorld where
  abs : Bytes → Option Bytes
  openDeb : Bytes → Option Bytes
  closeFails : Bool
  arStart : Bool
  ar : Bytes → Bytes → ProcRun
  xzStart : Bool
  xz : Bytes → ProcRun
  goXZ : Bytes → Option Stream
  tar : Stream → List (Option (Header × Bytes))
  fails : Nat → FsOp → Bool

/-- The errors of `ExtractDeb`. -/
inductive DebError
  /-- The error `ErrBadInput`. -/
  | badInput
  /-- The error of `filepath.Abs` (`abs dest`). -/
  | absDest
  /-- The error of `os.Open` (`open .deb`). -/
  | openDeb
  /-- The error of `f.Close()` (`close .deb`). -/
  | closeDeb
  /-- The error of `findDataTarXz`. -/
  | ar (e : ArError)
  /-- Wraps `ErrArNotFound`: `ar` could not be started. -/
  | arNotFound
  /-- The error `xz reader`: wraps `ErrXZNotFound` when `xz` could not be
  started (`true`), the error of `xz.NewReader` otherwise. -/
  | xzReader (notFound : Bool)
  /-- The error of `extractAll`. -/
  | extract (e : ExtractError)
  deriving DecidableEq, Repr

/-- The function `newSystemArStream`: `none` when `ar` cannot be started. -/
def newSystemArStream (w : DebWorld) (debPath member : Bytes) : Option Stream :=
  if w.arStart then some (pipeStream (w.ar debPath member)) else none

/-- The function `newSystemXZReader` on a reader that yields `r`: `none` when
`xz` cannot be started. -/
def newSystemXZReader (w : DebWorld) (r : Stream) : Option Stream :=
  if w.xzStart then some (pipeStream (w.xz r.data)) else none

/-- The function `ExtractDeb`.  `fuel` bounds the iterations of
`findDataTarXz`, and `none` means that the scan did not return.  The result is
the list of filesystem calls `extractAll` made and the returned error or
`nil`. -/
def ExtractDeb (w : DebWorld) (fuel : Nat) (debPath dest : Bytes) (useSystem : Bool) :
    Option (List FsOp × Except DebError Unit) :=
  if trimSpace debPath = [] ∨ trimSpace dest = [] then some ([], .error .badInput)
  else
    match w.abs dest with
    | none => some ([], .error .absDest)
    | some absDest =>
      if useSystem then
        match newSystemArStream w debPath (ascii "data.tar.xz") with
        | none => some ([], .error .arNotFound)
        | some dataStream =>
          match newSystemXZReader w dataStream with
          | none => some ([], .error (.xzReader true))
          | some tarStream =>
            let r := extractAll w.fails absDest 0 (w.tar tarStream)
            some (r.1, r.2.mapError .extract)
      else
        match w.openDeb debPath with
        | none => some ([], .error .openDeb)
        | some data =>
          let closed (r : List FsOp × Except DebError Unit) :
              List FsOp × Except DebError Unit :=
            match r.2 with
            | .ok () => if w.closeFails then (r.1, .error .closeDeb) else r
            | .error _ => r
          match findDataTarXz fuel ⟨data, arMagicSize⟩ with
          | none => none
          | some (.error e) => some (closed ([], .error (.ar e)))
          | some (.ok dataStream) =>
            match w.goXZ dataStream.readAll with
            | none => some (closed ([], .error (.xzReader false)))
            | some tarStream =>
              let r := extractAll w.fails absDest 0 (w.tar tarStream)
              some (closed (r.1, r.2.mapError .extract))

/-! ### Sample runs of the utilities -/

/-- What Go's tar reader answers on a stream shorter than one 512-byte block,
the streams of the samples: `io.EOF` at once when the stream is empty and ends
normally, an error otherwise. -/
def sampleTar (s : Stream) : List (Option (Header × Bytes)) :=
  if s.data = [] ∧ s.eof = true then [] else [none]

/-- A system on which `ar` prints the member and `xz` exits with status 1
without writing anything. -/
def sampleSilentXZFailure : DebWorld :=
  { abs := fun d => some d,
    openDeb := fun _ => none,
    closeFails := false,
    arStart := true,
    ar := fun _ _ => ⟨[(false, [253, 55, 122, 88, 90, 0])], 0⟩,
    xzStart := true,
    xz := fun _ => ⟨[], 1⟩,
    goXZ := fun _ => none,
    tar := sampleTar,
    fails := fun _ _ => false }

/-- A system on which `xz` exits with status 1 after a diagnostic on standard
error. -/
def sampleLoudXZFailure : DebWorld :=
  { sampleSilentXZFailure with
    xz := fun _ => ⟨[(true, ascii "xz: (stdin): File format not recognized\n")], 1⟩ }

end Debpkg

/-! ## `internal/github` and `internal/installer` -/

namespace Installer

open Debpkg

/-- Go `github.Asset`. -/
structure Asset where
  Name : Bytes
  URL : Bytes
  deriving DecidableEq, Repr

/-- Go `github.Release`. -/
structure Release where
  Tag : Bytes
  Assets : List Asset
  deriving DecidableEq, Repr

/-- Go `strings.HasSuffix(s, suffix)`. -/
def hasSuffix (s suffix : Bytes) : Bool := decide (suffix <:+ s)

/-- Go `strings.TrimSuffix(s, suffix)`. -/
def trimSuffix (s suffix : Bytes) : Bytes :=
  if hasSuffix s suffix then s.take (s.length - suffix.length) else s

/-- Go `filepath.Base(path)`: the last element of the path, after trailing
separators are removed; `.` for the empty path and `/` for a path of
separators only. -/
def Base (path : Bytes) : Bytes :=
  if path = [] then ascii "."
  else
    let p := (path.reverse.dropWhile (fun c => decide (c = 47))).reverse
    let last := (p.reverse.takeWhile (fun c => decide (c ≠ 47))).reverse
    if last = [] then ascii "/" else last

/-- The loop of `selectDebAsset` over `rel.Assets`. -/
def selectDebAssetLoop (arch : Bytes) : List Asset → Option Bytes
  | [] => none
  | a :: rest =>
    if contains a.Name (arch ++ ascii ".deb") then some a.URL
    else selectDebAssetLoop arch rest

/-- The function `selectDebAsset`: the URL of the first asset whose name
contains `arch + ".deb"`, or `none` for the error `no .deb for arch`. -/
def selectDebAsset (rel : Release) (arch : Bytes) : Option Bytes :=
  selectDebAssetLoop arch rel.Assets

/-! ### The registry of staging directories (`tmpdirs.go`) -/

/-- The function `RegisterTmpDir` on the registry `tmpDirs`. -/
def RegisterTmpDir (tmpDirs : List Bytes) (dir : Bytes) : List Bytes :=
  tmpDirs ++ [dir]

/-- The function `UnregisterTmpDir` on the registry `tmpDirs`: the first entry
equal to `dir` is removed. -/
def UnregisterTmpDir : List Bytes → Bytes → List Bytes
  | [], _ => []
  | d :: rest, dir => if d = dir then rest else d :: UnregisterTmpDir rest dir

/-! ### `Install` and `installTree` -/

/-- A call that `Install` or `installTree` makes to another function or to the
operating system. -/
inductive Event
  /-- Call `os.MkdirTemp("", "mullvad-")`. -/
  | mkdirTemp
  /-- Call `RegisterTmpDir(dir)`. -/
  | registerTmpDir (dir : Bytes)
  /-- Call `fetchFile(u, url, dest, cfg)`. -/
  | fetchFile (url dest : Bytes)
  /-- Call `verifyPGP(file, sigURL)`. -/
  | verifyPGP (file sigURL : Bytes)
  /-- Call `debpkg.ExtractDeb(debPath, dest, useSystem)`. -/
  | extractDeb (debPath dest : Bytes) (useSystem : Bool)
  /-- Call `installTree(src, dst, cfg)`. -/
  | installTree (src dst : Bytes)
  /-- Call `os.MkdirAll(target, mode)` in `installTree`. -/
  | mkdirAll (target : Bytes) (mode : Nat)
  /-- Call `copyFileWithMode(src, dst, mode)` in `installTree`. -/
  | copyFileWithMode (src dst : Bytes) (mode : Nat)
  /-- Call `os.Open(src)` in `copyFileWithMode`. -/
  | openSrc (src : Bytes)
  /-- Call `os.OpenFile(dst, os.O_CREATE|os.O_WRONLY|os.O_TRUNC, mode)` in
  `copyFileWithMode`. -/
  | openFile (dst : Bytes) (mode : Nat)
  /-- Call `io.Copy(out, in)` in `copyFileWithMode`: the bytes of the file
  opened at `src` are written to the file opened at `dst`. -/
  | copy (src dst : Bytes)
  /-- The deferred call `Close()` in `copyFileWithMode` for the file opened at
  `path`; its error is dropped. -/
  | close (path : Bytes)
  /-- Call `os.RemoveAll(dir)`. -/
  | removeAll (dir : Bytes)
  /-- Call `UnregisterTmpDir(dir)`. -/
  | unregisterTmpDir (dir : Bytes)
  deriving DecidableEq, Repr

/-- The events of the promotion step: the call of `installTree` and its
writes to the final destination. -/
def Event.promotes : Event → Bool
  | .installTree _ _ => true
  | .mkdirAll _ _ => true
  | .copyFileWithMode _ _ _ => true
  | .openSrc _ => true
  | .openFile _ _ => true
  | .copy _ _ => true
  | .close _ => true
  | _ => false

/-- The events that write to the staging extraction directory or to the final
destinations: the call of `ExtractDeb` and the promotion step. -/
def Event.extractsOrPromotes : Event → Bool
  | .extractDeb _ _ _ => true
  | e => e.promotes

/-- The errors of `Install`, by the step that fails. -/
inductive InstallError
  /-- The error of `selectDebAsset`: `no .deb for arch`. -/
  | noAsset (arch : Bytes)
  /-- The error of `os.MkdirTemp`: `make temp dir`. -/
  | makeTempDir
  /-- The error of `fetchFile`. -/
  | fetch
  /-- The wrapped error of `verifyPGP`: `pgp signature verification failed`. -/
  | verify
  /-- The wrapped error of `ExtractDeb`: `extract .deb`. -/
  | extract
  /-- The error `filepath.WalkDir` passes to the callback of `installTree`. -/
  | walk (path : Bytes)
  /-- The error of `d.Info()`. -/
  | info (path : Bytes)
  /-- The error of a failed `os.MkdirAll`, or of the failed call of
  `copyFileWithMode` (`open src`, `open dst`, `copy`). -/
  | io (ev : Event)
  deriving DecidableEq, Repr

/-- One call of the callback by `filepath.WalkDir`: the path, whether the walk
passes an error for it, whether `d.Info()` fails, whether the entry is a
directory, and its mode `info.Mode()`. -/
structure WalkItem where
  path : Bytes
  err : Bool
  infoFails : Bool
  isDir : Bool
  mode : Nat
  deriving DecidableEq, Repr

/-- The outcomes of what `Install` calls: the result of `os.MkdirTemp` (`none`
for an error), whether `fetchFile`, `verifyPGP` and `ExtractDeb` succeed,
the calls `filepath.WalkDir` makes to the callback from a root (as long as the
callback returns `nil`), which calls of `installTree` and of
`copyFileWithMode` fail, and whether
`os.RemoveAll` succeeds. -/
structure World where
  mkdirTemp : Option Bytes
  fetchFile : Bytes → Bytes → Bool
  verifyPGP : Bytes → Bytes → Bool
  extractDeb : Bytes → Bytes → Bool → Bool
  walk : Bytes → List WalkItem
  fails : Event → Bool
  removeAll : Bytes → Bool

/-- The function `copyFileWithMode`.  `fails ev` tells whether the call `ev`
returns an error.  The deferred `out.Close()` and `in.Close()` run when the
function returns, last deferred first.  The result is the list of calls made
and the returned error or `nil`. -/
def copyFileWithMode (fails : Event → Bool) (src dst : Bytes) (mode : Nat) :
    List Event × Except InstallError Unit :=
  let op := Event.openSrc src
  if fails op then ([op], .error (.io op))
  else
    let oo := Event.openFile dst mode
    if fails oo then ([op, oo, Event.close src], .error (.io oo))
    else
      let cp := Event.copy src dst
      ([op, oo, cp, Event.close dst, Event.close src],
        if fails cp then .error (.io cp) else .ok ())

/-- The function `installTree`, as the callback of `filepath.WalkDir` applied
to the calls `walk` of the walk in order; the first error ends the walk.  The
result is the list of calls made and the returned error or `nil`. -/
def installTree (fails : Event → Bool) (src dst : Bytes) (dryRun : Bool) :
    List WalkItem → List Event × Except InstallError Unit
  | [] => ([], .ok ())
  | it :: rest =>
    if it.err then ([], .error (.walk it.path))
    else
      let rel := (Rel src it.path).getD []
      let target := Join dst rel
      if it.infoFails then ([], .error (.info it.path))
      else if it.isDir then
        if dryRun then installTree fails src dst dryRun rest
        else
          let ev := Event.mkdirAll target it.mode
          if fails ev then ([ev], .error (.io ev))
          else
            let r := installTree fails src dst dryRun rest
            (ev :: r.1, r.2)
      else
        if dryRun then installTree fails src dst dryRun rest
        else
          let call := Event.copyFileWithMode it.path target it.mode
          match copyFileWithMode fails it.path target it.mode with
          | (evs, .error e) => (call :: evs, .error e)
          | (evs, .ok ()) =>
            let r := installTree fails src dst dryRun rest
            (call :: evs ++ r.1, r.2)

/-- The signature URL `Install` builds from the release tag and the asset
URL. -/
def sigURL (rel : Release) (assetURL : Bytes) : Bytes :=
  let assetName := Base assetURL
  let version := trimPrefix rel.Tag (ascii "MullvadVPN-")
  let base := trimSuffix assetName (ascii ".deb")
  ascii "https://cdn.mullvad.net/app/desktop/releases/" ++ version ++ ascii "/" ++ base
    ++ ascii ".deb.asc"

/-- The loop of `Install` over the pairs of a staged subtree and its final
destination. -/
def installPairs (w : World) (dryRun : Bool) :
    List (Bytes × Bytes) → List Event × Except InstallError Unit
  | [] => ([], .ok ())
  | (src, dst) :: rest =>
    if dryRun then installPairs w dryRun rest
    else
      match installTree w.fails src dst dryRun (w.walk src) with
      | (evs, .error e) => (Event.installTree src dst :: evs, .error e)
      | (evs, .ok ()) =>
        let r := installPairs w dryRun rest
        (Event.installTree src dst :: evs ++ r.1, r.2)

/-- The body of `Install` after the staging directory is registered and its
removal is deferred. -/
def installSteps (w : World) (rel : Release) (assetURL tmpDir : Bytes)
    (dryRun useSystemXZ : Bool) : List Event × Except InstallError Unit :=
  let debPath := Join tmpDir (ascii "package.deb")
  if dryRun = false ∧ w.fetchFile assetURL debPath = false then
    ([Event.fetchFile assetURL debPath], .error .fetch)
  else
    let t1 := if dryRun then [] else [Event.fetchFile assetURL debPath]
    let sig := sigURL rel assetURL
    if dryRun = false ∧ w.verifyPGP debPath sig = false then
      (t1 ++ [Event.verifyPGP debPath sig], .error .verify)
    else
      let t2 := t1 ++ (if dryRun then [] else [Event.verifyPGP debPath sig])
      let extractDir := Join tmpDir (ascii "ex")
      if dryRun = false ∧ w.extractDeb debPath extractDir useSystemXZ = false then
        (t2 ++ [Event.extractDeb debPath extractDir useSystemXZ], .error .extract)
      else
        let t3 := t2 ++
          (if dryRun then [] else [Event.extractDeb debPath extractDir useSystemXZ])
        let r := installPairs w dryRun
          [(Join extractDir (ascii "opt"), ascii "/opt"),
           (Join extractDir (ascii "usr"), ascii "/usr")]
        (t3 ++ r.1, r.2)

/-- What a run of `Install` leaves: the calls made, in order, the returned
error or `nil`, the registry of staging directories, and the staging
directories the run made that still exist. -/
structure Outcome where
  trace : List Event
  result : Except InstallError Unit
  registry : List Bytes
  leftover : List Bytes
  deriving DecidableEq

/-- The function `Install`, for a release, the architecture `osInfo.Arch`,
`cfg.DryRun`, `useSystemXZ` and the registry `tmpDirs` at the call.  The
deferred function (`os.RemoveAll`, whose error is dropped, then
`UnregisterTmpDir`) runs after the body, whatever the body returns. -/
def Install (w : World) (rel : Release) (arch : Bytes) (dryRun useSystemXZ : Bool)
    (tmpDirs : List Bytes) : Outcome :=
  match selectDebAsset rel arch with
  | none => ⟨[], .error (.noAsset arch), tmpDirs, []⟩
  | some assetURL =>
    match w.mkdirTemp with
    | none => ⟨[Event.mkdirTemp], .error .makeTempDir, tmpDirs, []⟩
    | some tmpDir =>
      let body := installSteps w rel assetURL tmpDir dryRun useSystemXZ
      ⟨[Event.mkdirTemp, Event.registerTmpDir tmpDir] ++ body.1
          ++ [Event.removeAll tmpDir, Event.unregisterTmpDir tmpDir],
        body.2,
        UnregisterTmpDir (RegisterTmpDir tmpDirs tmpDir) tmpDir,
        if w.removeAll tmpDir then [] else [tmpDir]⟩

/-! ### Sample releases and worlds -/

/-- A release whose signature file is listed before the package. -/
def sampleReleaseAscFirst : Release :=
  { Tag := ascii "2025.1",
    Assets := [
      { Name := ascii "MullvadVPN-2025.1_amd64.deb.asc", URL := ascii "https://h/a.deb.asc" },
      { Name := ascii "MullvadVPN-2025.1_amd64.deb", URL := ascii "https://h/a.deb" }] }

/-- A release that has the signature file only. -/
def sampleReleaseAscOnly : Release :=
  { Tag := ascii "2025.1",
    Assets := [
      { Name := ascii "MullvadVPN-2025.1_amd64.deb.asc", URL := ascii "https://h/a.deb.asc" }] }

/-- A release with the package and its signature file. -/
def sampleRelease : Release :=
  { Tag := ascii "2025.1",
    Assets := [
      { Name := ascii "MullvadVPN-2025.1_amd64.deb", URL := ascii "https://h/a.deb" },
      { Name := ascii "MullvadVPN-2025.1_amd64.deb.asc", URL := ascii "https://h/a.deb.asc" }] }

/-- The staged tree of the sample world: `opt/app` (mode 0755) under `ex/opt`,
`usr/icon` (mode 0644) under `ex/usr`, and `etc/conf` under `ex/etc`. -/
def sampleWalk (root : Bytes) : List WalkItem :=
  if root = ascii "/tmp/m/ex/opt" then
    [⟨ascii "/tmp/m/ex/opt", false, false, true, 0o755⟩,
     ⟨ascii "/tmp/m/ex/opt/app", false, false, false, 0o755⟩]
  else if root = ascii "/tmp/m/ex/usr" then
    [⟨ascii "/tmp/m/ex/usr", false, false, true, 0o755⟩,
     ⟨ascii "/tmp/m/ex/usr/icon", false, false, false, 0o644⟩]
  else if root = ascii "/tmp/m/ex/etc" then
    [⟨ascii "/tmp/m/ex/etc", false, false, true, 0o755⟩,
     ⟨ascii "/tmp/m/ex/etc/conf", false, false, false, 0o644⟩]
  else [⟨root, true, false, false, 0⟩]

/-- A world in which every step succeeds and the staging directory is
`/tmp/m`. -/
def sampleWorld : World :=
  { mkdirTemp := some (ascii "/tmp/m"),
    fetchFile := fun _ _ => true,
    verifyPGP := fun _ _ => true,
    extractDeb := fun _ _ _ => true,
    walk := sampleWalk,
    fails := fun _ => false,
    removeAll := fun _ => true }

/-- The sample world with a signature that does not verify. -/
def sampleWorldBadSig : World :=
  { sampleWorld with verifyPGP := fun _ _ => false }

/-- The sample world with an archive that `ExtractDeb` refuses. -/
def sampleWorldBadExtract : World :=
  { sampleWorld with extractDeb := fun _ _ _ => false }

/-- Whether a run of `ExtractDeb` returned `nil`. -/
def extractDebSucceeds : Option (List FsOp × Except DebError Unit) → Bool
  | some (_, .ok ()) => true
  | _ => false

/-- The entries of an archive whose `data.tar` holds, in order: the symlinks
`x`, `x/y` and `x/y/z`, each with the target `..`, the regular file
`x/y/z/opt/evil` with the body `[1, 2, 3]`, and the regular file `../boom`. -/
def sampleEscapeEntries : List (Option (Header × Bytes)) :=
  [some ({ Typeflag := TypeSymlink, Name := ascii "x", Linkname := ascii "..",
           Mode := 0o777 }, []),
   some ({ Typeflag := TypeSymlink, Name := ascii "x/y", Linkname := ascii "..",
           Mode := 0o777 }, []),
   some ({ Typeflag := TypeSymlink, Name := ascii "x/y/z", Linkname := ascii "..",
           Mode := 0o777 }, []),
   some ({ Typeflag := TypeReg, Name := ascii "x/y/z/opt/evil", Linkname := [],
           Mode := 0o755 }, [1, 2, 3]),
   some ({ Typeflag := TypeReg, Name := ascii "../boom", Linkname := [],
           Mode := 0o644 }, [])]

/-- A system on which `ar` and `xz` run without error, no filesystem call
fails, and the tar reader finds the entries `sampleEscapeEntries` in what `xz`
writes. -/
def sampleEscapeDeb : DebWorld :=
  { abs := fun d => some d,
    openDeb := fun _ => none,
    closeFails := false,
    arStart := true,
    ar := fun _ _ => ⟨[(false, [253, 55, 122, 88, 90, 0])], 0⟩,
    xzStart := true,
    xz := fun _ => ⟨[(false, ascii "x")], 0⟩,
    goXZ := fun _ => none,
    tar := fun _ => sampleEscapeEntries,
    fails := fun _ _ => false }

/-- The sample world in which `ExtractDeb` is the run of `Debpkg.ExtractDeb`
on the system `sampleEscapeDeb`. -/
def sampleWorldEscape : World :=
  { sampleWorld with
    extractDeb := fun debPath dest useSystem =>
      extractDebSucceeds (ExtractDeb sampleEscapeDeb 1 debPath dest useSystem) }

end Installer

/-! # Theorems -/

namespace Debpkg

/-! ## Lemmas on the string functions -/

theorem parseUintLoop_digits (ds : Bytes) (n j : Nat)
    (hd : ∀ c ∈ ds, 48 ≤ c ∧ c ≤ 57) (hn : n < 10 ^ j) (hj : ds.length + j ≤ 10) :
    parseUintLoop ds n
      = .ok (n * 10 ^ ds.length + Nat.ofDigits 10 (ds.reverse.map (fun c => c - 48))) := by
  induction ds generalizing n j with
  | nil => simp [parseUintLoop]
  | cons c rest ih =>
    have hc := hd c (List.mem_cons_self _ _)
    have hrest : ∀ c ∈ rest, 48 ≤ c ∧ c ≤ 57 := fun x hx => hd x (List.mem_cons_of_mem _ hx)
    simp only [List.length_cons] at hj
    have hj9 : j ≤ 9 := by omega
    have h10 : (10 : Nat) ^ j ≤ 10 ^ 9 := Nat.pow_le_pow_right (by norm_num) hj9
    have hn9 : n < 10 ^ 9 := lt_of_lt_of_le hn h10
    have hn1 : n * 10 + (c - 48) < 10 ^ (j + 1) := by
      have : n + 1 ≤ 10 ^ j := hn
      have h2 : (n + 1) * 10 ≤ 10 ^ j * 10 := Nat.mul_le_mul_right 10 this
      rw [pow_succ]; omega
    have e1 : ¬ (n ≥ (2 ^ 64 - 1) / 10 + 1) := by norm_num at hn9 ⊢; omega
    have e2 : ¬ (n * 10 + (c - 48) > 2 ^ 64 - 1) := by norm_num at hn9 ⊢; omega
    rw [parseUintLoop, if_pos hc, if_neg e1]
    simp only [e2, if_false]
    rw [ih (n * 10 + (c - 48)) (j + 1) hrest hn1 (by omega)]
    simp only [List.reverse_cons, List.map_append, List.map_cons, List.map_nil,
      Nat.ofDigits_append, Nat.ofDigits_singleton, List.length_map, List.length_reverse,
      List.length_cons, pow_succ]
    congr 1
    ring

theorem parseInt_digits (ds : Bytes) (hne : ds ≠ []) (hlen : ds.length ≤ 10)
    (hd : ∀ c ∈ ds, 48 ≤ c ∧ c ≤ 57) :
    parseInt ds = .ok ((Nat.ofDigits 10 (ds.reverse.map (fun c => c - 48)) : Nat) : Int) := by
  obtain ⟨c, rest, rfl⟩ := List.exists_cons_of_ne_nil hne
  have hc := hd c (List.mem_cons_self _ _)
  have h43 : ¬ (c = 43 ∨ c = 45) := by omega
  have h45 : c ≠ 45 := by omega
  have hp := parseUintLoop_digits (c :: rest) 0 0 hd (by norm_num) (by simpa using hlen)
  have hlt : Nat.ofDigits 10 ((c :: rest).reverse.map (fun c => c - 48)) < 2 ^ 63 := by
    have := Nat.ofDigits_lt_base_pow_length (b := 10) (l := (c :: rest).reverse.map (fun c => c - 48))
      (by norm_num) (by
        intro x hx
        simp only [List.mem_map, List.mem_reverse] at hx
        obtain ⟨y, hy, rfl⟩ := hx
        have := hd y hy
        omega)
    simp only [List.length_map, List.length_reverse] at this
    have h10 : (10 : Nat) ^ (c :: rest).length ≤ 10 ^ 10 := Nat.pow_le_pow_right (by norm_num) hlen
    have : (10 : Nat) ^ 10 < 2 ^ 63 := by norm_num
    omega
  have h43' : c ≠ 43 := by omega
  have hdig : (if c = 43 ∨ c = 45 then rest else c :: rest) = c :: rest := if_neg h43
  have hpu : parseUint (c :: rest)
      = .ok (Nat.ofDigits 10 ((c :: rest).reverse.map (fun c => c - 48))) := by
    rw [parseUint, if_neg (List.cons_ne_nil _ _), hp]; simp
  have hge : ¬ (Nat.ofDigits 10 ((c :: rest).reverse.map (fun c => c - 48)) ≥ 2 ^ 63) := by omega
  simp only [parseInt, hdig, hpu]
  simp only [h45, decide_False, Bool.false_eq_true, not_false_eq_true, true_and, false_and,
    if_false, hge]

theorem find_whiteSpace_digit (c : Nat) (rest : Bytes) (hc : 48 ≤ c ∧ c ≤ 57) :
    whiteSpace.find? (fun w => decide (w <+: c :: rest)) = none := by
  simp only [whiteSpace, List.find?_cons, List.find?_nil, List.cons_prefix_cons]
  have h : ∀ n : Nat, n < 48 ∨ 57 < n → ¬ (n = c) := fun n hn => by omega
  simp [h]

theorem find_whiteSpace_rev_digit (c : Nat) (rest : Bytes) (hc : 48 ≤ c ∧ c ≤ 57) :
    (whiteSpace.map List.reverse).find? (fun w => decide (w <+: c :: rest)) = none := by
  simp only [whiteSpace, List.map_cons, List.map_nil, List.reverse_cons, List.reverse_nil,
    List.nil_append, List.cons_append, List.find?_cons, List.find?_nil, List.cons_prefix_cons]
  have h : ∀ n : Nat, n < 48 ∨ 57 < n → ¬ (n = c) := fun n hn => by omega
  simp [h]

theorem find_whiteSpace_rev_space (t : Bytes) :
    (whiteSpace.map List.reverse).find? (fun w => decide (w <+: 32 :: t)) = some [32] := by
  simp [whiteSpace, List.find?_cons]

theorem stripLeading_digit (fuel : Nat) (c : Nat) (rest : Bytes) (hc : 48 ≤ c ∧ c ≤ 57) :
    stripLeading whiteSpace fuel (c :: rest) = c :: rest := by
  cases fuel with
  | zero => rfl
  | succ n => simp only [stripLeading, find_whiteSpace_digit c rest hc]

theorem stripLeading_rev_spaces (k fuel : Nat) (c : Nat) (rest : Bytes)
    (hc : 48 ≤ c ∧ c ≤ 57) (hf : k ≤ fuel) :
    stripLeading (whiteSpace.map List.reverse) fuel (List.replicate k 32 ++ c :: rest)
      = c :: rest := by
  induction k generalizing fuel with
  | zero =>
    cases fuel with
    | zero => rfl
    | succ n => simp only [stripLeading, List.replicate, List.nil_append,
        find_whiteSpace_rev_digit c rest hc]
  | succ k ih =>
    cases fuel with
    | zero => omega
    | succ n =>
      simp only [List.replicate_succ, List.cons_append, stripLeading, find_whiteSpace_rev_space,
        List.length_singleton, List.drop_succ_cons, List.drop_zero]
      exact ih n (by omega)

theorem trimSpace_digits_spaces (ds : Bytes) (k : Nat) (hne : ds ≠ [])
    (hd : ∀ c ∈ ds, 48 ≤ c ∧ c ≤ 57) :
    trimSpace (ds ++ List.replicate k 32) = ds := by
  obtain ⟨c, rest, rfl⟩ := List.exists_cons_of_ne_nil hne
  have hc := hd c (List.mem_cons_self _ _)
  obtain ⟨l, c', hl⟩ : ∃ l c', c :: rest = l ++ [c'] :=
    ⟨(c :: rest).dropLast, (c :: rest).getLast (List.cons_ne_nil _ _),
      (List.dropLast_append_getLast _).symm⟩
  have hc' : 48 ≤ c' ∧ c' ≤ 57 := hd c' (by rw [hl]; simp)
  simp only [trimSpace, List.cons_append, stripLeading_digit _ c _ hc]
  rw [← List.cons_append, hl]
  simp only [List.reverse_append, List.reverse_replicate, List.reverse_cons, List.reverse_nil,
    List.nil_append, List.singleton_append, List.length_append, List.length_replicate,
    List.length_cons, List.length_nil]
  rw [stripLeading_rev_spaces k _ c' _ hc' (by omega)]
  simp

/-! ## One iteration of the scan on a well-formed member -/

theorem header_length (m : ArMember) (h : m.WellFormed) : m.header.length = 60 := by
  obtain ⟨h1, h2, h3, _, h5, _, _⟩ := h
  simp only [ArMember.header, ArMember.sizeField, List.length_append, List.length_replicate,
    arSizeField, h1, h2, h3]
  omega

theorem headerName_header (m : ArMember) (h : m.WellFormed) :
    headerName m.header = trimRight m.name (ascii " /") := by
  obtain ⟨h1, _⟩ := h
  simp only [headerName, ArMember.header, arNameField, List.append_assoc]
  rw [← h1, List.take_left]

theorem headerSizeText_header (m : ArMember) (h : m.WellFormed) :
    headerSizeText m.header = m.sizeDigits := by
  obtain ⟨h1, h2, h3, h4, h5, h6, _⟩ := h
  have hlen : (m.name ++ m.other).length = arSizeOffset := by
    simp [h1, h2, arSizeOffset]
  have hsz : m.sizeField.length = arSizeField := by
    simp only [ArMember.sizeField, List.length_append, List.length_replicate, arSizeField]
    omega
  have e : m.header = (m.name ++ m.other) ++ (m.sizeField ++ m.fmag) := by
    simp [ArMember.header]
  rw [headerSizeText, e, ← hlen, List.drop_left, ← hsz, List.take_left]
  exact trimSpace_digits_spaces _ _ h4 h6

theorem readFull_at (pre h rest : Bytes) (hh : h.length = 60) :
    readFull ⟨pre ++ h ++ rest, pre.length⟩ arHeaderSize
      = .ok (h, ⟨pre ++ h ++ rest, pre.length + 60⟩) := by
  have e1 : ¬ ((pre ++ h ++ rest).length - pre.length = 0) := by
    simp only [List.length_append, hh]; omega
  have e2 : ¬ ((pre ++ h ++ rest).length - pre.length < 60) := by
    simp only [List.length_append, hh]; omega
  have e3 : ((pre ++ h ++ rest).drop pre.length).take 60 = h := by
    rw [List.append_assoc, List.drop_left, ← hh, List.take_left]
  simp only [readFull, arHeaderSize, e1, e2, e3, if_false]

theorem parseInt_header (m : ArMember) (h : m.WellFormed) :
    parseInt (headerSizeText m.header) = .ok (m.body.length : Int) := by
  rw [headerSizeText_header m h]
  obtain ⟨_, _, _, h4, h5, h6, h7⟩ := h
  rw [parseInt_digits _ h4 h5 h6, h7]

theorem encode_eq (m : ArMember) :
    m.encode = m.header ++ (m.body ++ (if m.body.length % 2 = 1 then [m.pad] else [])) := by
  simp [ArMember.encode]

theorem findDataTarXz_step_match (m : ArMember) (h : m.WellFormed) (pre rest : Bytes)
    (fuel : Nat) (hn : headerName m.header = ascii "data.tar.xz") :
    findDataTarXz (fuel + 1) ⟨pre ++ m.encode ++ rest, pre.length⟩
      = some (.ok ⟨⟨pre ++ m.encode ++ rest, pre.length + 60⟩, (m.body.length : Int)⟩) := by
  have hr := readFull_at pre m.header
    ((m.body ++ (if m.body.length % 2 = 1 then [m.pad] else [])) ++ rest) (header_length m h)
  have ed : pre ++ m.encode ++ rest = pre ++ m.header
      ++ ((m.body ++ (if m.body.length % 2 = 1 then [m.pad] else [])) ++ rest) := by
    rw [encode_eq]; simp only [List.append_assoc]
  rw [ed, findDataTarXz, hr]
  simp only [parseInt_header m h, hn, if_true]

theorem findDataTarXz_step_skip (m : ArMember) (h : m.WellFormed) (pre rest : Bytes)
    (fuel : Nat) (hn : headerName m.header ≠ ascii "data.tar.xz") :
    findDataTarXz (fuel + 1) ⟨pre ++ m.encode ++ rest, pre.length⟩
      = findDataTarXz fuel ⟨pre ++ m.encode ++ rest, (pre ++ m.encode).length⟩ := by
  have hr := readFull_at pre m.header
    ((m.body ++ (if m.body.length % 2 = 1 then [m.pad] else [])) ++ rest) (header_length m h)
  have ed : pre ++ m.encode ++ rest = pre ++ m.header
      ++ ((m.body ++ (if m.body.length % 2 = 1 then [m.pad] else [])) ++ rest) := by
    rw [encode_eq]; simp only [List.append_assoc]
  have hlen : (pre ++ m.encode).length
      = pre.length + 60 + (m.body.length + if m.body.length % 2 = 1 then 1 else 0) := by
    rw [encode_eq]
    simp only [List.length_append, header_length m h]
    split <;> simp <;> omega
  rw [hlen, ed, findDataTarXz, hr]
  simp only [parseInt_header m h, hn, if_false]
  have ht : Int.tmod (m.body.length : Int) 2 = ((m.body.length % 2 : Nat) : Int) := by
    simp [Int.tmod]
  by_cases hodd : m.body.length % 2 = 1
  · have h1 : Int.tmod (m.body.length : Int) 2 ≠ 0 := by rw [ht, hodd]; decide
    have h2 : ¬ ((((pre.length + 60 : Nat) : Int) + ((m.body.length : Int) + 1)) < 0) := by omega
    have h3 : ((((pre.length + 60 : Nat) : Int) + ((m.body.length : Int) + 1))).toNat
        = pre.length + 60 + (m.body.length + 1) := by omega
    simp only [h1, ne_eq, not_false_eq_true, if_true, seekCurrent, h2, if_false, h3, hodd]
  · have h0 : m.body.length % 2 = 0 := by omega
    have h1 : ¬ (Int.tmod (m.body.length : Int) 2 ≠ 0) := by rw [ht, h0]; decide
    have h2 : ¬ ((((pre.length + 60 : Nat) : Int) + (m.body.length : Int)) < 0) := by omega
    have h3 : ((((pre.length + 60 : Nat) : Int) + (m.body.length : Int))).toNat
        = pre.length + 60 + (m.body.length + 0) := by omega
    simp only [h1, if_false, seekCurrent, h2, h3, hodd]

/-! ## The scan on a well-formed stream -/

theorem arStream_cons (m : ArMember) (ms : List ArMember) :
    arStream (m :: ms) = m.encode ++ arStream ms := by
  simp [arStream]

theorem findDataTarXz_scan (ms : List ArMember) :
    ∀ (pre rest : Bytes) (k fuel : Nat) (hk : k < ms.length),
      (∀ m ∈ ms, m.WellFormed) →
      headerName (ms.get ⟨k, hk⟩).header = ascii "data.tar.xz" →
      (∀ m ∈ ms.take k, headerName m.header ≠ ascii "data.tar.xz") →
      k < fuel →
      findDataTarXz fuel ⟨pre ++ arStream ms ++ rest, pre.length⟩
        = some (.ok ⟨⟨pre ++ arStream ms ++ rest, pre.length + bodyOffset ms k⟩,
            ((ms.get ⟨k, hk⟩).body.length : Int)⟩) := by
  induction ms with
  | nil => intro pre rest k fuel hk; simp at hk
  | cons m ms ih =>
    intro pre rest k fuel hk hwf hname hfirst hfuel
    have hm : m.WellFormed := hwf m (List.mem_cons_self _ _)
    obtain ⟨fuel, rfl⟩ : ∃ f, fuel = f + 1 := ⟨fuel - 1, by omega⟩
    have ed : pre ++ arStream (m :: ms) ++ rest = pre ++ m.encode ++ (arStream ms ++ rest) := by
      rw [arStream_cons]; simp only [List.append_assoc]
    cases k with
    | zero =>
      rw [ed, findDataTarXz_step_match m hm pre _ fuel hname]
      simp [bodyOffset, arStream, arHeaderSize]
    | succ k =>
      have hn : headerName m.header ≠ ascii "data.tar.xz" :=
        hfirst m (by simp)
      have hk' : k < ms.length := by simpa using hk
      rw [ed, findDataTarXz_step_skip m hm pre _ fuel hn]
      have ed2 : pre ++ m.encode ++ (arStream ms ++ rest)
          = (pre ++ m.encode) ++ arStream ms ++ rest := by simp only [List.append_assoc]
      rw [ed2, ih (pre ++ m.encode) rest k fuel hk'
        (fun x hx => hwf x (List.mem_cons_of_mem _ hx)) hname
        (fun x hx => hfirst x (by simp [hx])) (by omega)]
      have hpos : (pre ++ m.encode).length + bodyOffset ms k
          = pre.length + bodyOffset (m :: ms) (k + 1) := by
        simp only [bodyOffset, List.take_succ_cons, arStream_cons, List.length_append]
        omega
      rw [hpos]
      rfl

theorem arStream_split (ms : List ArMember) :
    ∀ (k : Nat) (hk : k < ms.length),
      arStream ms = arStream (ms.take k) ++ (ms.get ⟨k, hk⟩).header
        ++ ((ms.get ⟨k, hk⟩).body ++ ((if (ms.get ⟨k, hk⟩).body.length % 2 = 1
              then [(ms.get ⟨k, hk⟩).pad] else []) ++ arStream (ms.drop (k + 1)))) := by
  induction ms with
  | nil => intro k hk; simp at hk
  | cons m ms ih =>
    intro k hk
    cases k with
    | zero => simp [arStream, encode_eq]
    | succ k =>
      have hk' : k < ms.length := by simpa using hk
      have := ih k hk'
      simp only [arStream_cons, List.take_succ_cons, List.drop_succ_cons, List.get_cons_succ,
        List.append_assoc] at this ⊢
      rw [← this]

/-! ## Claims on `findDataTarXz` -/

/-- C1: on a stream of well-formed members (60-byte headers, unsigned decimal
size fields, one pad byte after every odd-sized body) that follows any prefix
`pre` (the 8-byte magic), if member `k` is the first whose header name is
`data.tar.xz`, then with enough fuel (`k < fuel`) `findDataTarXz` returns a
reader; the reader starts at the first body byte of member `k`, is limited to
the size of that body, and read to its end yields exactly that body. -/
theorem findDataTarXz_finds_member (ms : List ArMember) (pre rest : Bytes) (k fuel : Nat)
    (hk : k < ms.length)
    (hwf : ∀ m ∈ ms, m.WellFormed)
    (hname : headerName (ms.get ⟨k, hk⟩).header = ascii "data.tar.xz")
    (hfirst : ∀ m ∈ ms.take k, headerName m.header ≠ ascii "data.tar.xz")
    (hfuel : k < fuel) :
    ∃ rd : LimitedReader,
      findDataTarXz fuel ⟨pre ++ arStream ms ++ rest, pre.length⟩ = some (.ok rd) ∧
      rd.R.data = pre ++ arStream ms ++ rest ∧
      rd.R.pos = pre.length + bodyOffset ms k ∧
      rd.N = ((ms.get ⟨k, hk⟩).body.length : Int) ∧
      rd.readAll = (ms.get ⟨k, hk⟩).body := by
  refine ⟨_, findDataTarXz_scan ms pre rest k fuel hk hwf hname hfirst hfuel, rfl, rfl, rfl, ?_⟩
  have hh : (pre ++ arStream (ms.take k) ++ (ms.get ⟨k, hk⟩).header).length
      = pre.length + bodyOffset ms k := by
    simp only [List.length_append, bodyOffset,
      header_length _ (hwf _ (List.get_mem ms k hk)), arHeaderSize]
    omega
  have ed : pre ++ arStream ms ++ rest
      = (pre ++ arStream (ms.take k) ++ (ms.get ⟨k, hk⟩).header)
        ++ ((ms.get ⟨k, hk⟩).body ++ (((if (ms.get ⟨k, hk⟩).body.length % 2 = 1
              then [(ms.get ⟨k, hk⟩).pad] else []) ++ arStream (ms.drop (k + 1))) ++ rest)) := by
    conv_lhs => rw [arStream_split ms k hk]
    simp only [List.append_assoc]
  simp only [LimitedReader.readAll, Int.toNat_ofNat]
  rw [ed, ← hh, List.drop_left, List.take_left]

/-- C2: on a stream of well-formed members none of which is named
`data.tar.xz` (the stream may have no member at all), with enough fuel
`findDataTarXz` fails with the error of the exhausted source, the wrapped
`io.EOF` of the header read, and so returns no reader. -/
theorem findDataTarXz_member_absent (ms : List ArMember) (pre : Bytes) (fuel : Nat)
    (hwf : ∀ m ∈ ms, m.WellFormed)
    (hno : ∀ m ∈ ms, headerName m.header ≠ ascii "data.tar.xz")
    (hfuel : ms.length < fuel) :
    findDataTarXz fuel ⟨pre ++ arStream ms, pre.length⟩
      = some (.error (.readHeader .eof)) := by
  induction ms generalizing pre fuel with
  | nil =>
    obtain ⟨fuel, rfl⟩ : ∃ f, fuel = f + 1 := ⟨fuel - 1, by simp at hfuel; omega⟩
    simp [findDataTarXz, readFull, arStream]
  | cons m ms ih =>
    have hm : m.WellFormed := hwf m (List.mem_cons_self _ _)
    obtain ⟨fuel, rfl⟩ : ∃ f, fuel = f + 1 := ⟨fuel - 1, by simp at hfuel; omega⟩
    have ed : pre ++ arStream (m :: ms) = pre ++ m.encode ++ arStream ms := by
      rw [arStream_cons]; simp only [List.append_assoc]
    rw [ed, findDataTarXz_step_skip m hm pre _ fuel (hno m (List.mem_cons_self _ _))]
    exact ih (pre ++ m.encode) fuel (fun x hx => hwf x (List.mem_cons_of_mem _ hx))
      (fun x hx => hno x (List.mem_cons_of_mem _ hx)) (by simpa using hfuel)

theorem findDataTarXz_finds_member_witness :
    ∃ rd : LimitedReader,
      findDataTarXz 2
          ⟨arMagic ++ arStream [sampleOddMember, sampleDataMember] ++ [], arMagic.length⟩
        = some (.ok rd) ∧
      rd.R.data = arMagic ++ arStream [sampleOddMember, sampleDataMember] ++ [] ∧
      rd.R.pos = arMagic.length + bodyOffset [sampleOddMember, sampleDataMember] 1 ∧
      rd.N = 3 ∧
      rd.readAll = [253, 55, 122] :=
  findDataTarXz_finds_member [sampleOddMember, sampleDataMember] arMagic [] 1 2
    (by decide) (by decide) (by decide) (by decide) (by decide)

theorem findDataTarXz_member_absent_witness :
    findDataTarXz 3 ⟨arMagic ++ arStream [sampleOddMember, sampleOddMember], arMagic.length⟩
      = some (.error (.readHeader .eof)) :=
  findDataTarXz_member_absent [sampleOddMember, sampleOddMember] arMagic 3
    (by decide) (by decide) (by decide)

/-- C3 (the code at the failing inputs): a header named `data.tar.xz` whose
size field is `-60` or `+7` is not refused; `findDataTarXz` returns a reader,
limited to `-60` bytes (it yields nothing) or to 7 bytes. -/
theorem findDataTarXz_accepts_signed_size :
    findDataTarXz 1 ⟨negSizeDataHeader, 0⟩ = some (.ok ⟨⟨negSizeDataHeader, 60⟩, -60⟩) ∧
    findDataTarXz 1 ⟨plusSizeDataHeader, 0⟩ = some (.ok ⟨⟨plusSizeDataHeader, 60⟩, 7⟩) := by
  constructor <;> decide

theorem findDataTarXz_negSize_step (fuel : Nat) :
    findDataTarXz (fuel + 1) ⟨negSizeOtherHeader, 0⟩
      = findDataTarXz fuel ⟨negSizeOtherHeader, 0⟩ := by
  have h1 : readFull ⟨negSizeOtherHeader, 0⟩ arHeaderSize
      = .ok (negSizeOtherHeader, ⟨negSizeOtherHeader, 60⟩) := by decide
  have h2 : parseInt (headerSizeText negSizeOtherHeader) = .ok (-60) := by decide
  have h3 : headerName negSizeOtherHeader ≠ ascii "data.tar.xz" := by decide
  have h4 : seekCurrent ⟨negSizeOtherHeader, 60⟩ (if Int.tmod (-60) 2 ≠ 0 then -60 + 1 else -60)
      = some ⟨negSizeOtherHeader, 0⟩ := by decide
  rw [findDataTarXz, h1]
  simp only [h2, h3, if_false, h4]

/-- C4 (the code at the failing input): on the 60-byte source that is one
header, not named `data.tar.xz`, with size field `-60`, the scan seeks back to
offset 0 after the header and reads the same header again; it returns for no
amount of fuel. -/
theorem findDataTarXz_negSize_never_returns (fuel : Nat) :
    findDataTarXz fuel ⟨negSizeOtherHeader, 0⟩ = none := by
  induction fuel with
  | zero => rfl
  | succ n ih => rw [findDataTarXz_negSize_step, ih]

/-! ## Lemmas on path elements -/

theorem joinSep_nil : joinSep [] = [] := rfl

theorem joinSep_singleton (e : Bytes) : joinSep [e] = e := by
  simp [joinSep, List.intercalate]

theorem joinSep_cons_cons (e e' : Bytes) (es : List Bytes) :
    joinSep (e :: e' :: es) = e ++ 47 :: joinSep (e' :: es) := by
  simp [joinSep, List.intercalate]

theorem joinSep_cons (e : Bytes) (es : List Bytes) (hne : es ≠ []) :
    joinSep (e :: es) = e ++ 47 :: joinSep es := by
  obtain ⟨e', es', rfl⟩ := List.exists_cons_of_ne_nil hne
  exact joinSep_cons_cons e e' es'

theorem joinSep_append (xs ys : List Bytes) (hx : xs ≠ []) (hy : ys ≠ []) :
    joinSep (xs ++ ys) = joinSep xs ++ 47 :: joinSep ys := by
  induction xs with
  | nil => exact absurd rfl hx
  | cons x xs ih =>
    by_cases hxs : xs = []
    · subst hxs
      rw [List.singleton_append, joinSep_cons x ys hy, joinSep_singleton]
    · rw [List.cons_append, joinSep_cons x (xs ++ ys) (by simp [hxs]), ih hxs,
        joinSep_cons x xs hxs, List.append_assoc, List.cons_append]

theorem splitSep_ne_nil (s : Bytes) : splitSep s ≠ [] := by
  cases s with
  | nil => simp [splitSep]
  | cons c rest => simp only [splitSep]; split <;> simp

theorem splitSep_sepfree (x : Bytes) (h : 47 ∉ x) : splitSep x = [x] := by
  induction x with
  | nil => rfl
  | cons c rest ih =>
    have hc : c ≠ 47 := fun e => h (by simp [e])
    have hr : 47 ∉ rest := fun e => h (List.mem_cons_of_mem _ e)
    simp [splitSep, hc, ih hr]

theorem splitSep_append (x b : Bytes) (h : 47 ∉ x) :
    splitSep (x ++ 47 :: b) = x :: splitSep b := by
  induction x with
  | nil => simp [splitSep]
  | cons c rest ih =>
    have hc : c ≠ 47 := fun e => h (by simp [e])
    have hr : 47 ∉ rest := fun e => h (List.mem_cons_of_mem _ e)
    simp [splitSep, hc, ih hr]

theorem splitSep_joinSep (es : List Bytes) (hne : es ≠ []) (h : ∀ e ∈ es, 47 ∉ e) :
    splitSep (joinSep es) = es := by
  induction es with
  | nil => exact absurd rfl hne
  | cons e es ih =>
    by_cases hes : es = []
    · subst hes
      rw [joinSep_singleton, splitSep_sepfree e (h e (List.mem_cons_self _ _))]
    · rw [joinSep_cons e es hes, splitSep_append e _ (h e (List.mem_cons_self _ _)),
        ih hes (fun x hx => h x (List.mem_cons_of_mem _ hx))]

theorem splitSep_append_sep (a b : Bytes) :
    splitSep (a ++ 47 :: b) = splitSep a ++ splitSep b := by
  induction a with
  | nil => simp [splitSep]
  | cons c rest ih =>
    by_cases hc : c = 47
    · simp [splitSep, hc, ih]
    · obtain ⟨e, es, he⟩ := List.exists_cons_of_ne_nil (splitSep_ne_nil rest)
      simp [splitSep, hc, ih, he]

theorem splitSep_mem_sepfree (s : Bytes) : ∀ e ∈ splitSep s, 47 ∉ e := by
  induction s with
  | nil => simp [splitSep]
  | cons c rest ih =>
    obtain ⟨e, es, he⟩ := List.exists_cons_of_ne_nil (splitSep_ne_nil rest)
    rw [he] at ih
    by_cases hc : c = 47
    · simp only [splitSep, hc, if_true, he]
      intro x hx
      rcases List.mem_cons.mp hx with rfl | hx
      · simp
      · exact ih x hx
    · simp only [splitSep, hc, if_false, he, List.headD_cons, List.tail_cons]
      intro x hx
      rcases List.mem_cons.mp hx with rfl | hx
      · have := ih e (List.mem_cons_self _ _)
        simp only [List.mem_cons, not_or]
        exact ⟨fun h => hc h.symm, this⟩
      · exact ih x (List.mem_cons_of_mem _ hx)

/-! ## Lemmas on `Clean` and `Join` -/

theorem ascii_dot : ascii "." = [46] := rfl
theorem ascii_dotdot : ascii ".." = [46, 46] := rfl
theorem ascii_slash : ascii "/" = [47] := rfl
theorem ascii_dotdotslash : ascii "../" = [46, 46, 47] := rfl

theorem cleanStep_empty (r : Bool) (st : Nat × List Bytes) : cleanStep r st [] = st := by
  simp [cleanStep]

theorem cleanStep_normal (r : Bool) (st : Nat × List Bytes) (x : Bytes) (hx : NormalElem x) :
    cleanStep r st x = (st.1, x :: st.2) := by
  obtain ⟨h1, h2, h3, _⟩ := hx
  simp [cleanStep, h1, h2, h3]

theorem foldl_cleanStep_normal (r : Bool) (xs : List Bytes) (hxs : ∀ x ∈ xs, NormalElem x) :
    ∀ (n : Nat) (stk : List Bytes),
      xs.foldl (cleanStep r) (n, stk) = (n, xs.reverse ++ stk) := by
  induction xs with
  | nil => intro n stk; rfl
  | cons x xs ih =>
    intro n stk
    rw [List.foldl_cons, cleanStep_normal r _ x (hxs x (List.mem_cons_self _ _)),
      ih (fun y hy => hxs y (List.mem_cons_of_mem _ hy))]
    simp

theorem normal_sepfree (xs : List Bytes) (hxs : ∀ x ∈ xs, NormalElem x) :
    ∀ x ∈ xs, 47 ∉ x := fun x hx => (hxs x hx).2.2.2

theorem foldl_cleanStep_joinSep (r : Bool) (xs : List Bytes) (hxs : ∀ x ∈ xs, NormalElem x)
    (hne : xs ≠ []) (n : Nat) (stk : List Bytes) :
    (splitSep (joinSep xs)).foldl (cleanStep r) (n, stk) = (n, xs.reverse ++ stk) := by
  rw [splitSep_joinSep xs hne (normal_sepfree xs hxs), foldl_cleanStep_normal r xs hxs]

theorem splitSep_rooted (s : Bytes) : splitSep (47 :: s) = [] :: splitSep s := by
  simp [splitSep]

theorem foldl_cleanStep_rooted (r : Bool) (xs : List Bytes) (hxs : ∀ x ∈ xs, NormalElem x)
    (n : Nat) (stk : List Bytes) :
    (splitSep (47 :: joinSep xs)).foldl (cleanStep r) (n, stk) = (n, xs.reverse ++ stk) := by
  rw [splitSep_rooted, List.foldl_cons, cleanStep_empty]
  by_cases hne : xs = []
  · subst hne
    simp [joinSep_nil, splitSep, cleanStep_empty]
  · exact foldl_cleanStep_joinSep r xs hxs hne n stk

theorem Clean_rooted (p : Bytes) :
    Clean (47 :: p)
      = 47 :: joinSep (List.replicate ((splitSep (47 :: p)).foldl (cleanStep true) (0, [])).1
            (ascii "..")
          ++ ((splitSep (47 :: p)).foldl (cleanStep true) (0, [])).2.reverse) := by
  simp [Clean]

theorem Clean_abs (ys : List Bytes) (hys : ∀ y ∈ ys, NormalElem y) :
    Clean (47 :: joinSep ys) = 47 :: joinSep ys := by
  rw [Clean_rooted, foldl_cleanStep_rooted true ys hys]
  simp

theorem Join_abs_rooted (ds xs : List Bytes) (hds : ∀ y ∈ ds, NormalElem y)
    (hxs : ∀ y ∈ xs, NormalElem y) :
    Join (47 :: joinSep ds) (47 :: joinSep xs) = 47 :: joinSep (ds ++ xs) := by
  rw [Join, if_neg (List.cons_ne_nil _ _), List.cons_append, Clean_rooted,
    ← List.cons_append, splitSep_append_sep, List.foldl_append,
    foldl_cleanStep_rooted true ds hds, foldl_cleanStep_rooted true xs hxs]
  simp

theorem Join_abs_relative (ds xs : List Bytes) (hds : ∀ y ∈ ds, NormalElem y)
    (hxs : ∀ y ∈ xs, NormalElem y) (hne : xs ≠ []) :
    Join (47 :: joinSep ds) (joinSep xs) = 47 :: joinSep (ds ++ xs) := by
  rw [Join, if_neg (List.cons_ne_nil _ _), List.cons_append, Clean_rooted,
    ← List.cons_append, splitSep_append_sep, List.foldl_append,
    foldl_cleanStep_rooted true ds hds, foldl_cleanStep_joinSep true xs hxs hne]
  simp

theorem Join_abs_dotdot (ds : List Bytes) (hds : ∀ y ∈ ds, NormalElem y) :
    Join (47 :: joinSep ds) (ascii "..") = 47 :: joinSep ds.dropLast := by
  rw [Join, if_neg (List.cons_ne_nil _ _), List.cons_append, Clean_rooted,
    ← List.cons_append, splitSep_append_sep, List.foldl_append,
    foldl_cleanStep_rooted true ds hds]
  have hs : splitSep (ascii "..") = [ascii ".."] := by decide
  rw [hs, List.foldl_cons, List.foldl_nil, List.append_nil]
  rcases List.eq_nil_or_concat ds with rfl | ⟨l, d, rfl⟩
  · simp [cleanStep, ascii_dotdot, ascii_dot]
  · simp [cleanStep, ascii_dotdot, ascii_dot]

theorem cleanStep_inv (r : Bool) (st : Nat × List Bytes) (e : Bytes) (he : 47 ∉ e)
    (hst : ∀ x ∈ st.2, NormalElem x) :
    (∀ x ∈ (cleanStep r st e).2, NormalElem x) ∧
      (r = true → (cleanStep r st e).1 = st.1) := by
  unfold cleanStep
  by_cases h1 : e = [] ∨ e = ascii "."
  · simp only [h1, if_true]; exact ⟨hst, fun _ => by first | rfl | trivial⟩
  · simp only [h1, if_false]
    by_cases h2 : e = ascii ".."
    · simp only [h2, if_true]
      obtain ⟨n, stk⟩ := st
      cases stk with
      | nil =>
        cases r with
        | true => simp
        | false => simp
      | cons t below =>
        simp only
        exact ⟨fun x hx => hst x (List.mem_cons_of_mem _ hx), fun _ => by first | rfl | trivial⟩
    · simp only [h2, if_false]
      refine ⟨fun x hx => ?_, fun _ => by first | rfl | trivial⟩
      rcases List.mem_cons.mp hx with rfl | hx
      · exact ⟨fun h => h1 (Or.inl h), fun h => h1 (Or.inr h), h2, he⟩
      · exact hst x hx

theorem foldl_cleanStep_inv (r : Bool) (es : List Bytes) (hes : ∀ e ∈ es, 47 ∉ e) :
    ∀ st : Nat × List Bytes, (∀ x ∈ st.2, NormalElem x) →
      (∀ x ∈ (es.foldl (cleanStep r) st).2, NormalElem x) ∧
        (r = true → (es.foldl (cleanStep r) st).1 = st.1) := by
  induction es with
  | nil => intro st hst; exact ⟨hst, fun _ => rfl⟩
  | cons e es ih =>
    intro st hst
    have h1 := cleanStep_inv r st e (hes e (List.mem_cons_self _ _)) hst
    have h2 := ih (fun x hx => hes x (List.mem_cons_of_mem _ hx)) (cleanStep r st e) h1.1
    rw [List.foldl_cons]
    exact ⟨h2.1, fun hr => (h2.2 hr).trans (h1.2 hr)⟩

theorem Clean_shape_rooted (p : Bytes) (hp : p.head? = some 47) :
    ∃ xs : List Bytes, (∀ x ∈ xs, NormalElem x) ∧ Clean p = 47 :: joinSep xs := by
  obtain ⟨c, p', rfl⟩ : ∃ c p', p = c :: p' := by
    cases p with
    | nil => simp at hp
    | cons c p' => exact ⟨c, p', rfl⟩
  have hc : c = 47 := by simpa using hp
  subst hc
  have hinv := foldl_cleanStep_inv true (splitSep (47 :: p')) (splitSep_mem_sepfree _) (0, [])
    (by simp)
  refine ⟨((splitSep (47 :: p')).foldl (cleanStep true) (0, [])).2.reverse, ?_, ?_⟩
  · intro x hx
    exact hinv.1 x (List.mem_reverse.mp hx)
  · rw [Clean_rooted, hinv.2 rfl]
    simp

theorem joinSep_eq_nil (es : List Bytes) (hes : ∀ e ∈ es, e ≠ []) (h : joinSep es = []) :
    es = [] := by
  cases es with
  | nil => rfl
  | cons e es =>
    exfalso
    by_cases hne : es = []
    · subst hne
      rw [joinSep_singleton] at h
      exact hes e (List.mem_cons_self _ _) h
    · rw [joinSep_cons e es hne] at h
      simp at h

theorem Clean_shape_relative (p : Bytes) (hp : p.head? ≠ some 47) :
    Clean p = ascii "." ∨
      ∃ (n : Nat) (xs : List Bytes), (∀ x ∈ xs, NormalElem x) ∧ 1 ≤ n + xs.length ∧
        Clean p = joinSep (List.replicate n (ascii "..") ++ xs) := by
  by_cases hnil : p = []
  · left; simp [Clean, hnil]
  · have hinv := foldl_cleanStep_inv false (splitSep p) (splitSep_mem_sepfree _) (0, [])
      (by simp)
    generalize hst : (splitSep p).foldl (cleanStep false) (0, []) = st at hinv
    by_cases hout : joinSep (List.replicate st.1 (ascii "..") ++ st.2.reverse) = []
    · left
      simp only [Clean, hnil, if_false, hp, decide_False, hst, hout, if_true]
      simp
    · right
      refine ⟨st.1, st.2.reverse, fun x hx => hinv.1 x (List.mem_reverse.mp hx), ?_, ?_⟩
      · by_contra hlt
        have h0 : st.1 = 0 := by omega
        have h1 : st.2.reverse = [] := by
          apply List.eq_nil_of_length_eq_zero; omega
        apply hout
        rw [h0, h1]; rfl
      · simp only [Clean, hnil, if_false, hp, decide_False, hst, hout]
        simp

/-! ## Lemmas on `Rel` -/

theorem takeWhile_sepfree (e rest : Bytes) (he : 47 ∉ e) :
    (e ++ 47 :: rest).takeWhile (fun c => decide (c ≠ 47)) = e := by
  induction e with
  | nil => simp
  | cons c e ih =>
    have hc : c ≠ 47 := fun h => he (by simp [h])
    have hr : 47 ∉ e := fun h => he (List.mem_cons_of_mem _ h)
    have hd : decide (c ≠ 47) = true := by simp [hc]
    rw [List.cons_append, List.takeWhile_cons, hd, ih hr]; rfl

theorem takeWhile_sepfree_all (e : Bytes) (he : 47 ∉ e) :
    e.takeWhile (fun c => decide (c ≠ 47)) = e := by
  induction e with
  | nil => simp
  | cons c e ih =>
    have hc : c ≠ 47 := fun h => he (by simp [h])
    have hr : 47 ∉ e := fun h => he (List.mem_cons_of_mem _ h)
    have hd : decide (c ≠ 47) = true := by simp [hc]
    rw [List.takeWhile_cons, hd, ih hr]; rfl

theorem relLoop_nil_right (fuel : Nat) (b : Bytes) : relLoop fuel b [] = (b, [], []) := by
  cases fuel <;> simp [relLoop]

theorem relLoop_nil_left (fuel : Nat) (t : Bytes) : relLoop fuel [] t = ([], t, []) := by
  cases fuel <;> simp [relLoop]

theorem relLoop_step (fuel : Nat) (e b t : Bytes) (he : 47 ∉ e) :
    relLoop (fuel + 1) (e ++ 47 :: b) (e ++ 47 :: t) = relLoop fuel b t := by
  have h1 : ¬ (e ++ 47 :: b = [] ∨ e ++ 47 :: t = []) := by simp
  have hd : ∀ r : Bytes, (e ++ 47 :: r).drop (e.length + 1) = r := by
    intro r
    have : e ++ 47 :: r = (e ++ [47]) ++ r := by simp
    rw [this, ← List.length_singleton (47 : Nat), ← List.length_append, List.drop_left]
  rw [relLoop, if_neg h1]
  simp only [takeWhile_sepfree e _ he, ne_eq, not_true_eq_false, if_false, hd]

theorem relLoop_step_base_end (fuel : Nat) (e t : Bytes) (he : 47 ∉ e) (hne : e ≠ []) :
    relLoop (fuel + 1) e (e ++ 47 :: t) = ([], t, []) := by
  have h1 : ¬ (e = [] ∨ e ++ 47 :: t = []) := by simp [hne]
  have hd : (e ++ 47 :: t).drop (e.length + 1) = t := by
    have : e ++ 47 :: t = (e ++ [47]) ++ t := by simp
    rw [this, ← List.length_singleton (47 : Nat), ← List.length_append, List.drop_left]
  rw [relLoop, if_neg h1]
  simp only [takeWhile_sepfree e _ he, takeWhile_sepfree_all e he, ne_eq, not_true_eq_false,
    if_false, hd]
  rw [List.drop_of_length_le (by omega), relLoop_nil_left]

theorem relLoop_step_targ_end (fuel : Nat) (e b : Bytes) (he : 47 ∉ e) (hne : e ≠ []) :
    relLoop (fuel + 1) (e ++ 47 :: b) e = (b, [], []) := by
  have h1 : ¬ (e ++ 47 :: b = [] ∨ e = []) := by simp [hne]
  have hd : (e ++ 47 :: b).drop (e.length + 1) = b := by
    have : e ++ 47 :: b = (e ++ [47]) ++ b := by simp
    rw [this, ← List.length_singleton (47 : Nat), ← List.length_append, List.drop_left]
  rw [relLoop, if_neg h1]
  simp only [takeWhile_sepfree e _ he, takeWhile_sepfree_all e he, ne_eq, not_true_eq_false,
    if_false, hd]
  rw [List.drop_of_length_le (by omega), relLoop_nil_right]

theorem relLoop_common (es : List Bytes) (hes : ∀ e ∈ es, NormalElem e) (hne : es ≠ [])
    (xs : List Bytes) (hx : xs ≠ []) :
    ∀ fuel : Nat, es.length ≤ fuel →
      relLoop fuel (joinSep es) (joinSep (es ++ xs)) = ([], joinSep xs, []) := by
  induction es with
  | nil => exact absurd rfl hne
  | cons e es ih =>
    intro fuel hf
    have he := hes e (List.mem_cons_self _ _)
    obtain ⟨fuel, rfl⟩ : ∃ f, fuel = f + 1 := ⟨fuel - 1, by simp at hf; omega⟩
    by_cases h : es = []
    · subst h
      rw [joinSep_singleton, List.singleton_append, joinSep_cons e xs hx]
      exact relLoop_step_base_end fuel e _ he.2.2.2 he.1
    · rw [joinSep_cons e es h, List.cons_append, joinSep_cons e (es ++ xs) (by simp [h]),
        relLoop_step fuel e _ _ he.2.2.2]
      exact ih (fun y hy => hes y (List.mem_cons_of_mem _ hy)) h fuel (by simp at hf; omega)

theorem relLoop_parent (es : List Bytes) (hes : ∀ e ∈ es, NormalElem e) (hne : es ≠ [])
    (d : Bytes) :
    ∀ fuel : Nat, es.length ≤ fuel →
      relLoop fuel (joinSep (es ++ [d])) (joinSep es) = (d, [], []) := by
  induction es with
  | nil => exact absurd rfl hne
  | cons e es ih =>
    intro fuel hf
    have he := hes e (List.mem_cons_self _ _)
    obtain ⟨fuel, rfl⟩ : ∃ f, fuel = f + 1 := ⟨fuel - 1, by simp at hf; omega⟩
    by_cases h : es = []
    · subst h
      rw [joinSep_singleton, List.singleton_append, joinSep_cons e [d] (by simp),
        joinSep_singleton]
      exact relLoop_step_targ_end fuel e d he.2.2.2 he.1
    · rw [joinSep_cons e es h, List.cons_append, joinSep_cons e (es ++ [d]) (by simp),
        relLoop_step fuel e _ _ he.2.2.2]
      exact ih (fun y hy => hes y (List.mem_cons_of_mem _ hy)) h fuel (by simp at hf; omega)

theorem length_le_joinSep (es : List Bytes) (hes : ∀ e ∈ es, e ≠ []) :
    es.length ≤ (joinSep es).length := by
  induction es with
  | nil => simp
  | cons e es ih =>
    have he : 1 ≤ e.length := List.length_pos.mpr (hes e (List.mem_cons_self _ _))
    have := ih (fun y hy => hes y (List.mem_cons_of_mem _ hy))
    by_cases h : es = []
    · subst h; rw [joinSep_singleton]; simpa using he
    · rw [joinSep_cons e es h]
      simp only [List.length_cons, List.length_append]
      omega

theorem joinSep_append_ne (ds xs : List Bytes) (hds : ∀ y ∈ ds, NormalElem y)
    (hxs : ∀ y ∈ xs, NormalElem y) (hne : xs ≠ []) :
    joinSep (ds ++ xs) ≠ joinSep ds := by
  intro h
  by_cases hd : ds = []
  · subst hd
    rw [List.nil_append, joinSep_nil] at h
    exact hne (joinSep_eq_nil xs (fun e he => (hxs e he).1) h)
  · have h1 := splitSep_joinSep (ds ++ xs) (by simp [hd])
      (fun e he => by
        rcases List.mem_append.mp he with h' | h'
        · exact (hds e h').2.2.2
        · exact (hxs e h').2.2.2)
    rw [h, splitSep_joinSep ds hd (normal_sepfree ds hds)] at h1
    have : (ds ++ xs).length = ds.length := by rw [← h1]
    simp only [List.length_append] at this
    exact hne (List.eq_nil_of_length_eq_zero (by omega))

theorem relLoop_abs_inside (ds xs : List Bytes) (hds : ∀ y ∈ ds, NormalElem y)
    (hx : xs ≠ []) :
    relLoop ((47 :: joinSep ds).length + 1) (47 :: joinSep ds) (47 :: joinSep (ds ++ xs))
      = ([], joinSep xs, []) := by
  have h := relLoop_step (47 :: joinSep ds).length [] (joinSep ds) (joinSep (ds ++ xs))
    (by simp)
  simp only [List.nil_append] at h
  rw [h]
  by_cases hd : ds = []
  · subst hd
    simp [joinSep_nil, relLoop_nil_left]
  · exact relLoop_common ds hds hd xs hx _ (by
      have := length_le_joinSep ds (fun e he => (hds e he).1)
      simp only [List.length_cons]; omega)

theorem Rel_abs_inside (ds xs : List Bytes) (hds : ∀ y ∈ ds, NormalElem y)
    (hxs : ∀ y ∈ xs, NormalElem y) (hx : xs ≠ []) :
    Rel (47 :: joinSep ds) (47 :: joinSep (ds ++ xs)) = some (joinSep xs) := by
  have hall : ∀ y ∈ ds ++ xs, NormalElem y := by
    intro y hy
    rcases List.mem_append.mp hy with h | h
    · exact hds y h
    · exact hxs y h
  have hne : ¬ ((47 :: joinSep (ds ++ xs) : Bytes) = 47 :: joinSep ds) := by
    intro h
    exact joinSep_append_ne ds xs hds hxs hx (List.cons.inj h).2
  have hdot : ¬ ((47 :: joinSep ds : Bytes) = ascii ".") := by simp [ascii_dot]
  simp only [Rel, Clean_abs ds hds, Clean_abs (ds ++ xs) hall, hne, if_false, hdot,
    List.head?_cons, decide_True, ne_eq, not_true_eq_false, relLoop_abs_inside ds xs hds hx]
  simp [ascii_dotdot]

theorem Rel_abs_self (ds : List Bytes) (hds : ∀ y ∈ ds, NormalElem y) :
    Rel (47 :: joinSep ds) (47 :: joinSep ds) = some (ascii ".") := by
  simp [Rel, Clean_abs ds hds]

theorem relLoop_abs_parent (l : List Bytes) (d : Bytes) (hl : ∀ y ∈ l, NormalElem y) :
    relLoop ((47 :: joinSep (l ++ [d])).length + 1) (47 :: joinSep (l ++ [d]))
        (47 :: joinSep l)
      = (d, [], []) := by
  have h := relLoop_step (47 :: joinSep (l ++ [d])).length [] (joinSep (l ++ [d])) (joinSep l)
    (by simp)
  simp only [List.nil_append] at h
  rw [h]
  by_cases hd : l = []
  · subst hd
    simp [joinSep_nil, joinSep_singleton, relLoop_nil_right]
  · refine relLoop_parent l hl hd d _ ?_
    have h1 : l.length ≤ (joinSep l).length := length_le_joinSep l (fun e he => (hl e he).1)
    have h2 : (joinSep (l ++ [d])).length = (joinSep l).length + 1 + d.length := by
      rw [joinSep_append l [d] hd (by simp), joinSep_singleton]
      simp only [List.length_append, List.length_cons]
      omega
    simp only [List.length_cons, h2]
    omega

theorem Rel_abs_parent (l : List Bytes) (d : Bytes) (hl : ∀ y ∈ l, NormalElem y)
    (hd : NormalElem d) :
    Rel (47 :: joinSep (l ++ [d])) (47 :: joinSep l) = some (ascii "..") := by
  have hall : ∀ y ∈ l ++ [d], NormalElem y := by
    intro y hy
    rcases List.mem_append.mp hy with h | h
    · exact hl y h
    · rw [List.mem_singleton.mp h]; exact hd
  have hne : ¬ ((47 :: joinSep l : Bytes) = 47 :: joinSep (l ++ [d])) := by
    intro h
    exact joinSep_append_ne l [d] hl (by simpa using hd) (by simp) (List.cons.inj h).2.symm
  have hdot : ¬ ((47 :: joinSep (l ++ [d]) : Bytes) = ascii ".") := by simp [ascii_dot]
  have hd1 : d ≠ [] := hd.1
  have hd2 : d ≠ ascii ".." := hd.2.2.1
  have hcount : List.count 47 d = 0 := List.count_eq_zero.mpr hd.2.2.2
  simp only [Rel, Clean_abs l hl, Clean_abs (l ++ [d]) hall, hne, if_false, hdot,
    List.head?_cons, decide_True, ne_eq, not_true_eq_false, relLoop_abs_parent l d hl]
  simp [hd1, hcount, ascii_dotdot]

/-! ## Containment of the paths `writeEntry` computes -/

theorem AbsClean_shape (dest : Bytes) (h : AbsClean dest) :
    ∃ ds : List Bytes, (∀ y ∈ ds, NormalElem y) ∧ dest = 47 :: joinSep ds := by
  obtain ⟨xs, hxs, hc⟩ := Clean_shape_rooted dest h.1
  exact ⟨xs, hxs, h.2.symm.trans hc⟩

theorem normal_append (ds xs : List Bytes) (hds : ∀ y ∈ ds, NormalElem y)
    (hxs : ∀ y ∈ xs, NormalElem y) : ∀ y ∈ ds ++ xs, NormalElem y := by
  intro y hy
  rcases List.mem_append.mp hy with h | h
  · exact hds y h
  · exact hxs y h

theorem strictlyInside_abs (ds xs : List Bytes) (hds : ∀ y ∈ ds, NormalElem y)
    (hxs : ∀ y ∈ xs, NormalElem y) (hx : xs ≠ []) :
    StrictlyInside (47 :: joinSep ds) (47 :: joinSep (ds ++ xs)) := by
  refine ⟨Clean_abs _ (normal_append ds xs hds hxs), ?_, ?_⟩
  · intro h
    exact joinSep_append_ne ds xs hds hxs hx (List.cons.inj h).2
  · by_cases hd : ds = []
    · subst hd
      simp [joinSep_nil, ascii_slash]
    · have hne : joinSep ds ≠ [] := fun h => hd (joinSep_eq_nil ds (fun e he => (hds e he).1) h)
      have h1 : ¬ ((47 :: joinSep ds : Bytes) = ascii "/") := by simp [ascii_slash, hne]
      rw [if_neg h1, joinSep_append ds xs hd hx, ascii_slash]
      exact ⟨joinSep xs, by simp⟩

theorem dropWhile_last_sep (pre l : Bytes) (hl : 47 ∉ l) :
    ((pre ++ 47 :: l).reverse.dropWhile (fun c => decide (c ≠ 47))).reverse = pre ++ [47] := by
  have h1 : (pre ++ 47 :: l).reverse = l.reverse ++ 47 :: pre.reverse := by simp
  have h2 : ∀ (m : Bytes), 47 ∉ m → ∀ r : Bytes,
      (m ++ 47 :: r).dropWhile (fun c => decide (c ≠ 47)) = 47 :: r := by
    intro m
    induction m with
    | nil => intro _ r; simp [List.dropWhile_cons]
    | cons c m ih =>
      intro hm r
      have hc : c ≠ 47 := fun h => hm (by simp [h])
      have hd : decide (c ≠ 47) = true := by simp [hc]
      rw [List.cons_append, List.dropWhile_cons, hd]
      exact ih (fun h => hm (List.mem_cons_of_mem _ h)) r
  rw [h1, h2 l.reverse (by simpa using hl)]
  simp

theorem Dir_abs (ys : List Bytes) (l : Bytes) (hys : ∀ y ∈ ys, NormalElem y)
    (hl : NormalElem l) :
    Dir (47 :: joinSep (ys ++ [l])) = 47 :: joinSep ys := by
  by_cases hy : ys = []
  · subst hy
    have h := dropWhile_last_sep [] l hl.2.2.2
    simp only [List.nil_append] at h
    rw [List.nil_append, joinSep_singleton, Dir, h]
    decide
  · have h := dropWhile_last_sep (47 :: joinSep ys) l hl.2.2.2
    have e : (47 :: joinSep (ys ++ [l]) : Bytes) = (47 :: joinSep ys) ++ 47 :: l := by
      rw [joinSep_append ys [l] hy (by simp), joinSep_singleton]; rfl
    rw [Dir, e, h, List.cons_append, Clean_rooted, ← List.cons_append, splitSep_append_sep,
      List.foldl_append, foldl_cleanStep_rooted true ys hys]
    simp [splitSep, cleanStep_empty]

theorem hasPrefix_dotdot_cons (rest : List Bytes) (hne : rest ≠ []) :
    hasPrefix (joinSep (ascii ".." :: rest)) (ascii "../") = true := by
  rw [joinSep_cons _ rest hne]
  simp [hasPrefix, ascii_dotdot, ascii_dotdotslash]

/-- The outcome of the path checks of `writeEntry`, for an absolute, cleaned
`dest` and a name that is not skipped, not rejected, and does not clean to the
root itself. -/
theorem checked_path_inside (dest name rel : Bytes) (hdest : AbsClean dest)
    (h1 : Clean name ≠ ascii ".")
    (h2 : hasPrefix (Clean name) (ascii "../") = false)
    (h3 : Rel dest (Join dest (Clean name)) = some rel)
    (h4 : hasPrefix rel (ascii "..") = false)
    (h5 : Join dest (Clean name) ≠ dest) :
    StrictlyInside dest (Join dest (Clean name)) ∧
      (Dir (Join dest (Clean name)) = dest ∨
        StrictlyInside dest (Dir (Join dest (Clean name)))) := by
  obtain ⟨ds, hds, rfl⟩ := AbsClean_shape dest hdest
  -- every accepted name leads to `dest` extended by normal elements `xs`
  have key : ∀ xs : List Bytes, (∀ y ∈ xs, NormalElem y) →
      Join (47 :: joinSep ds) (Clean name) = 47 :: joinSep (ds ++ xs) →
      StrictlyInside (47 :: joinSep ds) (Join (47 :: joinSep ds) (Clean name)) ∧
      (Dir (Join (47 :: joinSep ds) (Clean name)) = 47 :: joinSep ds ∨
        StrictlyInside (47 :: joinSep ds) (Dir (Join (47 :: joinSep ds) (Clean name)))) := by
    intro xs hxs hj
    have hx : xs ≠ [] := by
      intro h
      apply h5
      rw [hj, h, List.append_nil]
    rw [hj]
    refine ⟨strictlyInside_abs ds xs hds hxs hx, ?_⟩
    rcases List.eq_nil_or_concat xs with h | ⟨xs', l, rfl⟩
    · exact absurd h hx
    · have hxs' : ∀ y ∈ xs', NormalElem y := fun y hy => hxs y (by simp [hy])
      have hl : NormalElem l := hxs l (by simp)
      rw [List.concat_eq_append, ← List.append_assoc,
        Dir_abs (ds ++ xs') l (normal_append ds xs' hds hxs') hl]
      by_cases hxe : xs' = []
      · left; rw [hxe, List.append_nil]
      · right; exact strictlyInside_abs ds xs' hds hxs' hxe
  by_cases hr : name.head? = some 47
  · obtain ⟨xs, hxs, hc⟩ := Clean_shape_rooted name hr
    exact key xs hxs (by rw [hc, Join_abs_rooted ds xs hds hxs])
  · rcases Clean_shape_relative name hr with hc | ⟨n, xs, hxs, hlen, hc⟩
    · exact absurd hc h1
    · cases n with
      | zero =>
        have hx : xs ≠ [] := by
          intro h; rw [h] at hlen; simp at hlen
        simp only [List.replicate, List.nil_append] at hc
        exact key xs hxs (by rw [hc, Join_abs_relative ds xs hds hxs hx])
      | succ n =>
        exfalso
        rw [List.replicate_succ, List.cons_append] at hc
        by_cases hrest : List.replicate n (ascii "..") ++ xs = []
        · rw [hrest, joinSep_singleton] at hc
          rw [hc, Join_abs_dotdot ds hds] at h3 h5
          rcases List.eq_nil_or_concat ds with hd | ⟨l, d, hd⟩
          · apply h5; rw [hd]; rfl
          · subst hd
            have hl : ∀ y ∈ l, NormalElem y := fun y hy => hds y (by simp [hy])
            have hd' : NormalElem d := hds d (by simp)
            rw [List.concat_eq_append, List.dropLast_concat, Rel_abs_parent l d hl hd'] at h3
            have : rel = ascii ".." := (Option.some.inj h3).symm
            rw [this] at h4
            exact absurd h4 (by decide)
        · rw [hc, hasPrefix_dotdot_cons _ hrest] at h2
          exact absurd h2 (by decide)

/-! ## The filesystem calls of `writeEntry` -/

/-- Every filesystem call of `writeEntry` is made after the path checks have
passed, and acts on the path of the entry, `fullPath`, or is the `MkdirAll` of
its parent directory for an entry that is not a directory. -/
theorem writeEntry_op_mem (fails : FsOp → Bool) (hdr : Header) (body dest : Bytes) (op : FsOp)
    (hop : op ∈ (writeEntry fails hdr body dest).1) :
    Clean hdr.Name ≠ ascii "." ∧
    hasPrefix (Clean hdr.Name) (ascii "../") = false ∧
    (∃ rel, Rel dest (Join dest (Clean hdr.Name)) = some rel ∧
      hasPrefix rel (ascii "..") = false) ∧
    (op.path = Join dest (Clean hdr.Name) ∨
      (op = FsOp.mkdirAll (Dir (Join dest (Clean hdr.Name))) defaultDirPerm ∧
        hdr.Typeflag ≠ TypeDir)) := by
  by_cases h1 : Clean hdr.Name = ascii "."
  · simp [writeEntry, h1] at hop
  by_cases h2 : hasPrefix (Clean hdr.Name) (ascii "../") = true
  · simp [writeEntry, h1, h2] at hop
  cases h3 : Rel dest (Join dest (Clean hdr.Name)) with
  | none => simp [writeEntry, h1, h2, h3] at hop
  | some rel =>
    by_cases h4 : hasPrefix rel (ascii "..") = true
    · simp [writeEntry, h1, h2, h3, h4] at hop
    have h2f : hasPrefix (Clean hdr.Name) (ascii "../") = false := by simpa using h2
    have h4f : hasPrefix rel (ascii "..") = false := by simpa using h4
    refine ⟨h1, h2f, ⟨rel, rfl, h4f⟩, ?_⟩
    simp only [writeEntry, h1, h2f, h3, h4f, if_false, Bool.false_eq_true] at hop
    by_cases hd : hdr.Typeflag = TypeDir
    · simp only [hd, if_true, List.mem_singleton] at hop
      left; rw [hop]; rfl
    simp only [hd, if_false] at hop
    by_cases hs : hdr.Typeflag = TypeSymlink
    · simp only [hs, if_true] at hop
      by_cases hc : contains hdr.Linkname (ascii "../") = true
      · simp [hc] at hop
      · simp only [hc, if_false, Bool.false_eq_true] at hop
        by_cases hf : fails (FsOp.mkdirAll (Dir (Join dest (Clean hdr.Name))) defaultDirPerm) = true
        · simp only [hf, if_true, List.mem_singleton] at hop
          right; exact ⟨hop, hd⟩
        · simp only [hf, if_false, List.mem_cons, List.mem_singleton, List.not_mem_nil,
            or_false, Bool.false_eq_true] at hop
          rcases hop with rfl | rfl
          · right; exact ⟨rfl, hd⟩
          · left; rfl
    simp only [hs, if_false] at hop
    by_cases hk : hdr.Typeflag = TypeReg ∨ hdr.Typeflag = TypeLink ∨ hdr.Typeflag = TypeChar
        ∨ hdr.Typeflag = TypeBlock ∨ hdr.Typeflag = TypeFifo
    · simp only [hk, if_true] at hop
      by_cases hf : fails (FsOp.mkdirAll (Dir (Join dest (Clean hdr.Name))) defaultDirPerm) = true
      · simp only [hf, if_true, List.mem_singleton] at hop
        right; exact ⟨hop, hd⟩
      simp only [hf, if_false, Bool.false_eq_true] at hop
      by_cases hf2 : fails (FsOp.openFile (Join dest (Clean hdr.Name)) (fileMode hdr)) = true
      · simp only [hf2, if_true, List.mem_cons, List.mem_singleton, List.not_mem_nil,
          or_false] at hop
        rcases hop with rfl | rfl
        · right; exact ⟨rfl, hd⟩
        · left; rfl
      simp only [hf2, if_false, Bool.false_eq_true] at hop
      by_cases hreg : hdr.Typeflag = TypeReg
      · simp only [hreg, if_true] at hop
        by_cases hf3 : fails (FsOp.copy (Join dest (Clean hdr.Name)) body) = true
        · simp only [hf3, if_true, List.mem_cons, List.mem_singleton, List.not_mem_nil,
            or_false] at hop
          rcases hop with rfl | rfl | rfl | rfl
          · right; exact ⟨rfl, hd⟩
          · left; rfl
          · left; rfl
          · left; rfl
        · simp only [hf3, if_false, List.mem_cons, List.mem_singleton, List.not_mem_nil,
            or_false, Bool.false_eq_true] at hop
          rcases hop with rfl | rfl | rfl | rfl
          · right; exact ⟨rfl, hd⟩
          · left; rfl
          · left; rfl
          · left; rfl
      · simp only [hreg, if_false, List.mem_cons, List.mem_singleton, List.not_mem_nil,
          or_false] at hop
        rcases hop with rfl | rfl | rfl
        · right; exact ⟨rfl, hd⟩
        · left; rfl
        · left; rfl
    · simp [hk] at hop

theorem writeEntry_rejected_first (fails : FsOp → Bool) (hdr : Header) (body dest : Bytes)
    (h2 : hasPrefix (Clean hdr.Name) (ascii "../") = true) :
    writeEntry fails hdr body dest = ([], .error (.pathOutside hdr.Name)) := by
  have h1 : Clean hdr.Name ≠ ascii "." := by
    intro h; rw [h] at h2; exact absurd h2 (by decide)
  simp only [writeEntry, h1, h2, if_false, if_true]

theorem writeEntry_rejected_second (fails : FsOp → Bool) (hdr : Header) (body dest rel : Bytes)
    (h1 : Clean hdr.Name ≠ ascii ".")
    (h2 : hasPrefix (Clean hdr.Name) (ascii "../") = false)
    (h3 : Rel dest (Join dest (Clean hdr.Name)) = some rel)
    (h4 : hasPrefix rel (ascii "..") = true) :
    writeEntry fails hdr body dest = ([], .error (.pathOutside hdr.Name)) := by
  simp only [writeEntry, h1, h2, h3, h4, if_false, if_true, Bool.false_eq_true]

/-! ## Claims on `writeEntry` and `extractAll` -/

/-- C5 (as stated, refuted): for the regular file `a` and the destination
`/d`, `writeEntry` calls `MkdirAll` on `/d`, the destination itself, which is
not strictly inside the destination. -/
theorem writeEntry_acts_on_dest_itself :
    AbsClean (ascii "/d") ∧
    FsOp.mkdirAll (ascii "/d") defaultDirPerm
      ∈ (writeEntry noFail sampleTopFile [] (ascii "/d")).1 ∧
    ¬ StrictlyInside (ascii "/d") (FsOp.mkdirAll (ascii "/d") defaultDirPerm).path := by
  decide

/-- C5 (amended): for every tar header and every absolute, cleaned `dest`, a
name that cleans to `.` makes no filesystem call; and when the path of the
entry, `Join dest (Clean name)`, is not `dest` itself, every filesystem call of
`writeEntry` acts on a path strictly inside `dest`, except the `MkdirAll` of the
parent directory of an entry that is not a directory, which may act on `dest`
itself. -/
theorem writeEntry_confined (fails : FsOp → Bool) (hdr : Header) (body dest : Bytes)
    (hdest : AbsClean dest) :
    (Clean hdr.Name = ascii "." → writeEntry fails hdr body dest = ([], .ok ())) ∧
    (Join dest (Clean hdr.Name) ≠ dest →
      ∀ op ∈ (writeEntry fails hdr body dest).1,
        StrictlyInside dest op.path ∨
          (op = FsOp.mkdirAll dest defaultDirPerm ∧ hdr.Typeflag ≠ TypeDir)) := by
  refine ⟨fun h => by simp [writeEntry, h], fun hroot op hop => ?_⟩
  obtain ⟨h1, h2, ⟨rel, h3, h4⟩, hpath⟩ := writeEntry_op_mem fails hdr body dest op hop
  obtain ⟨hin, hdir⟩ := checked_path_inside dest hdr.Name rel hdest h1 h2 h3 h4 hroot
  rcases hpath with hp | ⟨rfl, hd⟩
  · left; rw [hp]; exact hin
  · rcases hdir with he | hs
    · right; rw [he]; exact ⟨rfl, hd⟩
    · left; exact hs

theorem writeEntry_confined_witness :
    AbsClean (ascii "/tmp/ex") ∧
    ∀ op ∈ (writeEntry noFail sampleFile [1, 2, 3] (ascii "/tmp/ex")).1,
      StrictlyInside (ascii "/tmp/ex") op.path ∨
        (op = FsOp.mkdirAll (ascii "/tmp/ex") defaultDirPerm ∧
          sampleFile.Typeflag ≠ TypeDir) :=
  ⟨by decide,
    (writeEntry_confined noFail sampleFile [1, 2, 3] (ascii "/tmp/ex") (by decide)).2
      (by decide)⟩

/-- C6 (as stated, refuted): with the filesystem root `/` as destination, the
directory entry named `..` (its cleaned name is `..`) is not rejected;
`writeEntry` calls `MkdirAll` on `/` and returns `nil`. -/
theorem writeEntry_dotdot_at_root_accepted :
    Clean sampleDotDotDir.Name = ascii ".." ∧ AbsClean (ascii "/") ∧
    writeEntry noFail sampleDotDotDir [] (ascii "/")
      = ([FsOp.mkdirAll (ascii "/") (fileInfoMode sampleDotDotDir)], .ok ()) := by
  decide

/-- C6 (amended): for every tar entry, of any kind, whose cleaned name begins
with `../`, and for every entry whose cleaned name is `..` when the absolute,
cleaned `dest` is not the filesystem root `/`, `writeEntry` returns the error
that wraps `ErrPathOutside` without any filesystem call, and `extractAll`,
reaching that entry, returns this error and goes on to no later entry. -/
theorem writeEntry_rejects_parent_traversal (fails : FsOp → Bool) (hdr : Header)
    (body dest : Bytes) (hdest : AbsClean dest)
    (hname : hasPrefix (Clean hdr.Name) (ascii "../") = true ∨
      (Clean hdr.Name = ascii ".." ∧ dest ≠ ascii "/")) :
    writeEntry fails hdr body dest = ([], .error (.pathOutside hdr.Name)) ∧
    ∀ (failsAt : Nat → FsOp → Bool) (i : Nat) (rest : List (Option (Header × Bytes))),
      failsAt i = fails →
      extractAll failsAt dest i (some (hdr, body) :: rest)
        = ([], .error (.pathOutside hdr.Name)) := by
  have hw : writeEntry fails hdr body dest = ([], .error (.pathOutside hdr.Name)) := by
    rcases hname with hp | ⟨hc, hroot⟩
    · exact writeEntry_rejected_first fails hdr body dest hp
    · obtain ⟨ds, hds, rfl⟩ := AbsClean_shape dest hdest
      rcases List.eq_nil_or_concat ds with hd | ⟨l, d, hd⟩
      · exact absurd (by rw [hd]; rfl) hroot
      · subst hd
        have hl : ∀ y ∈ l, NormalElem y := fun y hy => hds y (by simp [hy])
        have hd' : NormalElem d := hds d (by simp)
        refine writeEntry_rejected_second fails hdr body _ (ascii "..") ?_ ?_ ?_ ?_
        · rw [hc]; decide
        · rw [hc]; decide
        · rw [hc, Join_abs_dotdot _ hds, List.concat_eq_append, List.dropLast_concat,
            Rel_abs_parent l d hl hd']
        · decide
  refine ⟨hw, fun failsAt i rest hf => ?_⟩
  rw [extractAll, hf, hw]

theorem writeEntry_rejects_parent_traversal_witness :
    writeEntry noFail sampleEvilFile [1] (ascii "/tmp/ex")
      = ([], .error (.pathOutside sampleEvilFile.Name)) ∧
    ∀ (failsAt : Nat → FsOp → Bool) (i : Nat) (rest : List (Option (Header × Bytes))),
      failsAt i = noFail →
      extractAll failsAt (ascii "/tmp/ex") i (some (sampleEvilFile, [1]) :: rest)
        = ([], .error (.pathOutside sampleEvilFile.Name)) :=
  writeEntry_rejects_parent_traversal noFail sampleEvilFile [1] (ascii "/tmp/ex")
    (by decide) (Or.inl (by decide))

/-- C7 (the code at the failing input): into the destination `/d`, the
symlink entry `x` with target `..` followed by the regular file `x/evil` is
extracted without error: the symlink `/d/x` to `..` is made, and then the file
is created at `/d/x/evil`, a path through that symlink, which the operating
system looks up at `/evil`, outside `/d`. -/
theorem extractAll_escapes_through_symlink :
    extractAll (fun _ => noFail) (ascii "/d") 0
        [some (sampleParentLink, []), some (sampleThroughLink, [1, 2, 3])]
      = ([FsOp.mkdirAll (ascii "/d") defaultDirPerm,
          FsOp.symlink (ascii "..") (ascii "/d/x"),
          FsOp.mkdirAll (ascii "/d/x") defaultDirPerm,
          FsOp.openFile (ascii "/d/x/evil") 0o644,
          FsOp.copy (ascii "/d/x/evil") [1, 2, 3],
          FsOp.close (ascii "/d/x/evil")], .ok ()) ∧
    resolveThrough (ascii "/d/x") (ascii "..") (ascii "/d/x/evil") = ascii "/evil" ∧
    ¬ StrictlyInside (ascii "/d") (ascii "/evil") := by
  decide

/-- C8 (the code at the failing inputs): the symlink entries with target `..`
and with target `a/..`, both with a `..` path element, are not rejected: the
symlink is made with that target and `writeEntry` returns `nil`. -/
theorem writeEntry_accepts_trailing_dotdot_target :
    writeEntry noFail sampleParentLink [] (ascii "/d")
      = ([FsOp.mkdirAll (ascii "/d") defaultDirPerm,
          FsOp.symlink (ascii "..") (ascii "/d/x")], .ok ()) ∧
    writeEntry noFail sampleInnerParentLink [] (ascii "/d")
      = ([FsOp.mkdirAll (ascii "/d") defaultDirPerm,
          FsOp.symlink (ascii "a/..") (ascii "/d/x")], .ok ()) := by
  decide

/-- C9 (the code at the failing input): for the symlink entry `x` with the
absolute target `/..` and the destination `/d`, the target written is
`Join dest ".."`, which is `/`, the parent of the destination. -/
theorem writeEntry_abs_target_above_dest :
    writeEntry noFail sampleAbsParentLink [] (ascii "/d")
      = ([FsOp.mkdirAll (ascii "/d") defaultDirPerm,
          FsOp.symlink (ascii "/") (ascii "/d/x")], .ok ()) ∧
    Join (ascii "/d") (trimPrefix sampleAbsParentLink.Linkname (ascii "/")) = ascii "/" ∧
    ¬ StrictlyInside (ascii "/d") (ascii "/") ∧ ascii "/" ≠ ascii "/d" := by
  decide

/-- C10: for every entry of a file-like kind (regular, hard link, character
device, block device, fifo) that passes the path checks of `writeEntry` (the
cleaned name is not `.` and does not begin with `../`, and the path relative
to `dest` does not begin with `..`), when no filesystem call fails,
`writeEntry` returns `nil` after exactly these calls: `MkdirAll` of the parent
directory with permission `0o755`, `OpenFile` with create and truncate at
`Join dest (Clean name)` with the mode of the entry, which is the header field
`Mode` converted to 32 bits, for a regular file the copy of exactly the body
bytes of the entry (no write at all for the other kinds, and no link or device
call), and `Close`. -/
theorem writeEntry_file_like (fails : FsOp → Bool) (hdr : Header) (body dest rel : Bytes)
    (hkind : hdr.Typeflag = TypeReg ∨ hdr.Typeflag = TypeLink ∨ hdr.Typeflag = TypeChar
      ∨ hdr.Typeflag = TypeBlock ∨ hdr.Typeflag = TypeFifo)
    (h1 : Clean hdr.Name ≠ ascii ".")
    (h2 : hasPrefix (Clean hdr.Name) (ascii "../") = false)
    (h3 : Rel dest (Join dest (Clean hdr.Name)) = some rel)
    (h4 : hasPrefix rel (ascii "..") = false)
    (hio : ∀ op, fails op = false) :
    writeEntry fails hdr body dest
      = ([FsOp.mkdirAll (Dir (Join dest (Clean hdr.Name))) 0o755,
          FsOp.openFile (Join dest (Clean hdr.Name)) (hdr.Mode % 2 ^ 32).toNat]
          ++ (if hdr.Typeflag = TypeReg then [FsOp.copy (Join dest (Clean hdr.Name)) body]
              else [])
          ++ [FsOp.close (Join dest (Clean hdr.Name))], .ok ()) := by
  have hd : hdr.Typeflag ≠ TypeDir := by
    rcases hkind with h | h | h | h | h <;> rw [h] <;> decide
  have hs : hdr.Typeflag ≠ TypeSymlink := by
    rcases hkind with h | h | h | h | h <;> rw [h] <;> decide
  simp only [writeEntry, h1, h2, h3, h4, hd, hs, hkind, hio, if_false, if_true,
    Bool.false_eq_true, fileMode, defaultDirPerm]
  by_cases hreg : hdr.Typeflag = TypeReg
  · simp [hreg]
  · simp [hreg]

theorem writeEntry_file_like_witness :
    writeEntry noFail sampleModeFile [1, 2, 3] (ascii "/tmp/ex")
        = ([FsOp.mkdirAll (ascii "/tmp/ex/opt/app") 493,
            FsOp.openFile (ascii "/tmp/ex/opt/app/conf") 416,
            FsOp.copy (ascii "/tmp/ex/opt/app/conf") [1, 2, 3],
            FsOp.close (ascii "/tmp/ex/opt/app/conf")], .ok ())
      ∧ writeEntry noFail sampleSetuidFifo [1, 2, 3] (ascii "/tmp/ex")
        = ([FsOp.mkdirAll (ascii "/tmp/ex/run") 493,
            FsOp.openFile (ascii "/tmp/ex/run/pipe") 2496,
            FsOp.close (ascii "/tmp/ex/run/pipe")], .ok ()) :=
  ⟨(writeEntry_file_like noFail sampleModeFile [1, 2, 3] (ascii "/tmp/ex")
      (ascii "opt/app/conf") (Or.inl (by decide)) (by decide) (by decide) (by decide)
      (by decide) (fun _ => rfl)).trans (by decide),
   (writeEntry_file_like noFail sampleSetuidFifo [1, 2, 3] (ascii "/tmp/ex")
      (ascii "run/pipe") (Or.inr (Or.inr (Or.inr (Or.inr (by decide))))) (by decide)
      (by decide) (by decide) (by decide) (fun _ => rfl)).trans (by decide)⟩

/-! ## Further properties of the code -/

/-- A header whose size text `strconv.ParseInt` refuses makes `findDataTarXz`
fail with the parse error, whether or not the name of the header is
`data.tar.xz`. -/
theorem findDataTarXz_parse_error (fuel : Nat) (r r1 : File) (buf : Bytes) (e : NumError)
    (hr : readFull r arHeaderSize = .ok (buf, r1))
    (hp : parseInt (headerSizeText buf) = .error e) :
    findDataTarXz (fuel + 1) r = some (.error (.parseSize e)) := by
  rw [findDataTarXz, hr]
  simp only [hp]

theorem findDataTarXz_parse_error_witness :
    findDataTarXz (0 + 1) ⟨badSizeHeader, 0⟩ = some (.error (.parseSize .errSyntax)) :=
  findDataTarXz_parse_error 0 ⟨badSizeHeader, 0⟩ ⟨badSizeHeader, 60⟩ badSizeHeader .errSyntax
    (by decide) (by decide)

/-- A header that is not named `data.tar.xz` and whose size is not negative
moves the scan forward: the next iteration starts at least 60 bytes further
on in the same data. -/
theorem findDataTarXz_step_forward (fuel : Nat) (r r1 : File) (buf : Bytes) (sz : Int)
    (hr : readFull r arHeaderSize = .ok (buf, r1))
    (hp : parseInt (headerSizeText buf) = .ok sz)
    (hsz : 0 ≤ sz)
    (hn : headerName buf ≠ ascii "data.tar.xz") :
    ∃ r2 : File, findDataTarXz (fuel + 1) r = findDataTarXz fuel r2 ∧
      r2.data = r.data ∧ r.pos + 60 ≤ r2.pos := by
  have hr1 : r1 = { r with pos := r.pos + 60 } := by
    simp only [readFull, arHeaderSize] at hr
    split_ifs at hr
    simp only [Except.ok.injEq, Prod.mk.injEq] at hr
    exact hr.2.symm
  have hskip : 0 ≤ (if Int.tmod sz 2 ≠ 0 then sz + 1 else sz) := by
    split <;> omega
  have hnn : ¬ ((r1.pos : Int) + (if Int.tmod sz 2 ≠ 0 then sz + 1 else sz) < 0) := by omega
  refine ⟨{ r1 with pos := ((r1.pos : Int) + (if Int.tmod sz 2 ≠ 0 then sz + 1 else sz)).toNat },
    ?_, ?_, ?_⟩
  · rw [findDataTarXz, hr]
    simp only [hp, hn, if_false, seekCurrent, hnn]
  · rw [hr1]
  · rw [hr1]
    simp only
    omega

theorem findDataTarXz_step_forward_witness :
    ∃ r2 : File,
      findDataTarXz (1 + 1) ⟨arStream [sampleOddMember, sampleDataMember], 0⟩
        = findDataTarXz 1 r2 ∧
      r2.data = arStream [sampleOddMember, sampleDataMember] ∧ 0 + 60 ≤ r2.pos :=
  findDataTarXz_step_forward 1 ⟨arStream [sampleOddMember, sampleDataMember], 0⟩
    ⟨arStream [sampleOddMember, sampleDataMember], 60⟩ sampleOddMember.header 5
    (by decide) (by decide) (by decide) (by decide)

/-- A regular file named `/` is not skipped: with the destination `/d`,
`writeEntry` calls `MkdirAll` on `/`, the parent of the destination, and opens
the destination itself as a file. -/
theorem writeEntry_root_name_not_skipped :
    writeEntry noFail sampleRootFile [1] (ascii "/d")
      = ([FsOp.mkdirAll (ascii "/") defaultDirPerm,
          FsOp.openFile (ascii "/d") 0o644,
          FsOp.copy (ascii "/d") [1],
          FsOp.close (ascii "/d")], .ok ()) := by
  decide

/-- A symlink entry that passes the path checks and whose link target has
`../` in it is rejected with the error that wraps `ErrBadLink`, without any
filesystem call. -/
theorem writeEntry_symlink_rejected (fails : FsOp → Bool) (hdr : Header)
    (body dest rel : Bytes)
    (hkind : hdr.Typeflag = TypeSymlink)
    (h1 : Clean hdr.Name ≠ ascii ".")
    (h2 : hasPrefix (Clean hdr.Name) (ascii "../") = false)
    (h3 : Rel dest (Join dest (Clean hdr.Name)) = some rel)
    (h4 : hasPrefix rel (ascii "..") = false)
    (hc : contains hdr.Linkname (ascii "../") = true) :
    writeEntry fails hdr body dest = ([], .error (.badLink hdr.Name hdr.Linkname)) := by
  have hd : ¬ (TypeSymlink = TypeDir) := by decide
  simp only [writeEntry, h1, h2, h3, h4, hkind, hd, hc, if_false, if_true, Bool.false_eq_true]

theorem writeEntry_symlink_rejected_witness :
    writeEntry noFail sampleTraversalLink [] (ascii "/tmp/ex")
      = ([], .error (.badLink sampleTraversalLink.Name sampleTraversalLink.Linkname)) :=
  writeEntry_symlink_rejected noFail sampleTraversalLink [] (ascii "/tmp/ex") (ascii "x")
    (by decide) (by decide) (by decide) (by decide) (by decide) (by decide)

/-- A symlink entry that passes the path checks and whose link target is
relative and has no `../` in it is made at `Join dest (Clean name)`, after the
`MkdirAll` of its parent directory, with the target text unchanged. -/
theorem writeEntry_symlink_relative (fails : FsOp → Bool) (hdr : Header)
    (body dest rel : Bytes)
    (hkind : hdr.Typeflag = TypeSymlink)
    (h1 : Clean hdr.Name ≠ ascii ".")
    (h2 : hasPrefix (Clean hdr.Name) (ascii "../") = false)
    (h3 : Rel dest (Join dest (Clean hdr.Name)) = some rel)
    (h4 : hasPrefix rel (ascii "..") = false)
    (hc : contains hdr.Linkname (ascii "../") = false)
    (habs : isAbs hdr.Linkname = false)
    (hio : ∀ op, fails op = false) :
    writeEntry fails hdr body dest
      = ([FsOp.mkdirAll (Dir (Join dest (Clean hdr.Name))) defaultDirPerm,
          FsOp.symlink hdr.Linkname (Join dest (Clean hdr.Name))], .ok ()) := by
  have hd : ¬ (TypeSymlink = TypeDir) := by decide
  simp only [writeEntry, h1, h2, h3, h4, hkind, hd, hc, habs, hio, if_false, if_true,
    Bool.false_eq_true]

theorem writeEntry_symlink_relative_witness :
    writeEntry noFail sampleRelativeLink [] (ascii "/tmp/ex")
      = ([FsOp.mkdirAll (Dir (Join (ascii "/tmp/ex") (Clean sampleRelativeLink.Name)))
            defaultDirPerm,
          FsOp.symlink sampleRelativeLink.Linkname
            (Join (ascii "/tmp/ex") (Clean sampleRelativeLink.Name))], .ok ()) :=
  writeEntry_symlink_relative noFail sampleRelativeLink [] (ascii "/tmp/ex")
    (ascii "usr/bin/tool")
    (by decide) (by decide) (by decide) (by decide) (by decide) (by decide) (by decide)
    (fun _ => rfl)

/-- A symlink entry that passes the path checks and whose link target is
absolute and has no `../` in it is made with the target
`Join dest (target without its leading separator)`. -/
theorem writeEntry_symlink_absolute (fails : FsOp → Bool) (hdr : Header)
    (body dest rel : Bytes)
    (hkind : hdr.Typeflag = TypeSymlink)
    (h1 : Clean hdr.Name ≠ ascii ".")
    (h2 : hasPrefix (Clean hdr.Name) (ascii "../") = false)
    (h3 : Rel dest (Join dest (Clean hdr.Name)) = some rel)
    (h4 : hasPrefix rel (ascii "..") = false)
    (hc : contains hdr.Linkname (ascii "../") = false)
    (habs : isAbs hdr.Linkname = true)
    (hio : ∀ op, fails op = false) :
    writeEntry fails hdr body dest
      = ([FsOp.mkdirAll (Dir (Join dest (Clean hdr.Name))) defaultDirPerm,
          FsOp.symlink (Join dest (trimPrefix hdr.Linkname (ascii "/")))
            (Join dest (Clean hdr.Name))], .ok ()) := by
  have hd : ¬ (TypeSymlink = TypeDir) := by decide
  simp only [writeEntry, h1, h2, h3, h4, hkind, hd, hc, habs, hio, if_false, if_true,
    Bool.false_eq_true]

theorem writeEntry_symlink_absolute_witness :
    writeEntry noFail sampleAbsoluteLink [] (ascii "/tmp/ex")
      = ([FsOp.mkdirAll (Dir (Join (ascii "/tmp/ex") (Clean sampleAbsoluteLink.Name)))
            defaultDirPerm,
          FsOp.symlink (Join (ascii "/tmp/ex") (trimPrefix sampleAbsoluteLink.Linkname (ascii "/")))
            (Join (ascii "/tmp/ex") (Clean sampleAbsoluteLink.Name))], .ok ()) :=
  writeEntry_symlink_absolute noFail sampleAbsoluteLink [] (ascii "/tmp/ex")
    (ascii "usr/bin/tool")
    (by decide) (by decide) (by decide) (by decide) (by decide) (by decide) (by decide)
    (fun _ => rfl)

/-! ## Silent skips and fail-fast extraction -/

/-- C11: `writeEntry` returns `nil` without any filesystem call if and only if
the cleaned name of the entry is `.`, or the entry passes the path checks (its
cleaned name does not begin with `../`, and its path relative to `dest` exists
and does not begin with `..`) and its kind is none of directory, symlink,
regular, hard link, character device, block device, fifo. -/
theorem writeEntry_silent_skip_iff (fails : FsOp → Bool) (hdr : Header) (body dest : Bytes) :
    writeEntry fails hdr body dest = ([], .ok ()) ↔
      (Clean hdr.Name = ascii "." ∨
        (hasPrefix (Clean hdr.Name) (ascii "../") = false ∧
          (∃ rel, Rel dest (Join dest (Clean hdr.Name)) = some rel ∧
            hasPrefix rel (ascii "..") = false) ∧
          hdr.Typeflag ≠ TypeDir ∧ hdr.Typeflag ≠ TypeSymlink ∧ hdr.Typeflag ≠ TypeReg ∧
          hdr.Typeflag ≠ TypeLink ∧ hdr.Typeflag ≠ TypeChar ∧ hdr.Typeflag ≠ TypeBlock ∧
          hdr.Typeflag ≠ TypeFifo)) := by
  by_cases h1 : Clean hdr.Name = ascii "."
  · simp [writeEntry, h1]
  by_cases h2 : hasPrefix (Clean hdr.Name) (ascii "../") = true
  · simp [writeEntry, h1, h2]
  have h2f : hasPrefix (Clean hdr.Name) (ascii "../") = false := by simpa using h2
  cases h3 : Rel dest (Join dest (Clean hdr.Name)) with
  | none => simp [writeEntry, h1, h2f, h3]
  | some rel =>
    by_cases h4 : hasPrefix rel (ascii "..") = true
    · simp [writeEntry, h1, h2f, h3, h4]
    have h4f : hasPrefix rel (ascii "..") = false := by simpa using h4
    simp only [writeEntry, h1, h2f, h3, h4f, if_false, Bool.false_eq_true, false_or, true_and,
      Option.some.injEq, exists_eq_left']
    by_cases hd : hdr.Typeflag = TypeDir
    · simp [hd]
    by_cases hs : hdr.Typeflag = TypeSymlink
    · have hsd : ¬ (TypeSymlink = TypeDir) := by decide
      simp only [hs, hsd, if_false, if_true]
      by_cases hc : contains hdr.Linkname (ascii "../") = true
      · simp [hc]
      · simp only [hc, if_false, Bool.false_eq_true]
        split_ifs <;> simp
    by_cases hk : hdr.Typeflag = TypeReg ∨ hdr.Typeflag = TypeLink ∨ hdr.Typeflag = TypeChar
        ∨ hdr.Typeflag = TypeBlock ∨ hdr.Typeflag = TypeFifo
    · simp only [hd, hs, hk, if_false, if_true]
      constructor
      · intro h
        exfalso
        split_ifs at h <;> simp at h
      · intro h
        exfalso
        rcases hk with k | k | k | k | k
        · exact h.2.2.1 k
        · exact h.2.2.2.1 k
        · exact h.2.2.2.2.1 k
        · exact h.2.2.2.2.2.1 k
        · exact h.2.2.2.2.2.2 k
    · simp only [hd, hs, hk, if_false]
      simp only [not_or] at hk
      simp [hd, hs, hk]

theorem writeEntry_silent_skip_iff_witness :
    writeEntry noFail samplePaxHeader [1, 2] (ascii "/tmp/ex") = ([], .ok ()) :=
  (writeEntry_silent_skip_iff noFail samplePaxHeader [1, 2] (ascii "/tmp/ex")).mpr
    (Or.inr ⟨by decide, ⟨ascii "pax_global_header", by decide, by decide⟩,
      by decide, by decide, by decide, by decide, by decide, by decide, by decide⟩)

/-- After entries that are all written without error, `extractAll` goes on
with the rest of the results. -/
theorem extractAll_append_ok (fails : Nat → FsOp → Bool) (dest : Bytes)
    (pre rest : List (Option (Header × Bytes))) :
    ∀ i : Nat, (extractAll fails dest i pre).2 = .ok () →
      extractAll fails dest i (pre ++ rest)
        = ((extractAll fails dest i pre).1 ++ (extractAll fails dest (i + pre.length) rest).1,
            (extractAll fails dest (i + pre.length) rest).2) := by
  induction pre with
  | nil => intro i _; simp [extractAll]
  | cons x pre ih =>
    intro i h
    cases x with
    | none => simp [extractAll] at h
    | some p =>
      obtain ⟨hdr, body⟩ := p
      rcases hw : writeEntry (fails i) hdr body dest with ⟨ops, r⟩
      cases r with
      | error e => simp [extractAll, hw] at h
      | ok u =>
        simp only [extractAll, hw] at h
        have e : i + 1 + pre.length = i + (pre.length + 1) := by omega
        have h2 := ih (i + 1) h
        rw [e] at h2
        show extractAll fails dest i (some (hdr, body) :: (pre ++ rest)) = _
        simp only [extractAll, hw, h2, List.length_cons, List.append_assoc]

theorem extractAll_ok_iff (fails : Nat → FsOp → Bool) (dest : Bytes)
    (entries : List (Option (Header × Bytes))) :
    ∀ i : Nat, (extractAll fails dest i entries).2 = .ok () ↔
      ∀ (j : Nat) (hj : j < entries.length), ∃ hdr body,
        entries.get ⟨j, hj⟩ = some (hdr, body) ∧
        (writeEntry (fails (i + j)) hdr body dest).2 = .ok () := by
  induction entries with
  | nil => intro i; simp [extractAll]
  | cons x entries ih =>
    intro i
    cases x with
    | none =>
      simp only [extractAll]
      constructor
      · intro h; cases h
      · intro h
        obtain ⟨h', b', hg, _⟩ := h 0 (by simp)
        simp at hg
    | some p =>
      obtain ⟨hdr, body⟩ := p
      rcases hw : writeEntry (fails i) hdr body dest with ⟨ops, r⟩
      cases r with
      | error e =>
        simp only [extractAll, hw]
        constructor
        · intro h; cases h
        · intro h
          obtain ⟨h', b', hg, hr⟩ := h 0 (by simp)
          have hg2 : some (hdr, body) = some (h', b') := hg
          simp only [Option.some.injEq, Prod.mk.injEq] at hg2
          obtain ⟨rfl, rfl⟩ := hg2
          rw [Nat.add_zero, hw] at hr
          cases hr
      | ok u =>
        simp only [extractAll, hw]
        rw [ih (i + 1)]
        constructor
        · intro h j hj
          cases j with
          | zero => exact ⟨hdr, body, rfl, by rw [Nat.add_zero, hw]⟩
          | succ j =>
            obtain ⟨h', b', hg, hr⟩ := h j (by simpa using hj)
            refine ⟨h', b', by simpa using hg, ?_⟩
            have e : i + (j + 1) = i + 1 + j := by omega
            rw [e]; exact hr
        · intro h j hj
          obtain ⟨h', b', hg, hr⟩ := h (j + 1) (by simpa using hj)
          refine ⟨h', b', by simpa using hg, ?_⟩
          have e : i + 1 + j = i + (j + 1) := by omega
          rw [e]; exact hr

/-- C12: `extractAll` is fail-fast.  It returns `nil` if and only if every
result of the tar reader before the end of the stream is a header whose entry
`writeEntry` accepts.  When the results `pre` are all accepted and the next
header fails to parse, it returns the `tar next` error, and when the next
entry is rejected by `writeEntry` with the error `e`, it returns `e`; in both
cases the filesystem calls made are those of `pre` (and of the rejected entry)
only, whatever results `rest` follow. -/
theorem extractAll_fail_fast (fails : Nat → FsOp → Bool) (dest : Bytes) (i : Nat)
    (entries : List (Option (Header × Bytes))) :
    ((extractAll fails dest i entries).2 = .ok () ↔
      ∀ (j : Nat) (hj : j < entries.length), ∃ hdr body,
        entries.get ⟨j, hj⟩ = some (hdr, body) ∧
        (writeEntry (fails (i + j)) hdr body dest).2 = .ok ()) ∧
    (∀ pre rest, entries = pre ++ none :: rest →
      (extractAll fails dest i pre).2 = .ok () →
      extractAll fails dest i entries = ((extractAll fails dest i pre).1, .error .tarNext)) ∧
    (∀ pre hdr body rest e, entries = pre ++ some (hdr, body) :: rest →
      (extractAll fails dest i pre).2 = .ok () →
      (writeEntry (fails (i + pre.length)) hdr body dest).2 = .error e →
      extractAll fails dest i entries
        = ((extractAll fails dest i pre).1
            ++ (writeEntry (fails (i + pre.length)) hdr body dest).1, .error e)) := by
  refine ⟨extractAll_ok_iff fails dest entries i, ?_, ?_⟩
  · intro pre rest he hpre
    rw [he, extractAll_append_ok fails dest pre _ i hpre]
    simp [extractAll]
  · intro pre hdr body rest e he hpre hw
    rw [he, extractAll_append_ok fails dest pre _ i hpre]
    rcases hw' : writeEntry (fails (i + pre.length)) hdr body dest with ⟨ops, r⟩
    rw [hw'] at hw
    simp only at hw
    subst hw
    simp only [extractAll, hw']

theorem extractAll_fail_fast_witness :
    extractAll (fun _ => noFail) (ascii "/tmp/ex") 0
        ([some (sampleTopFile, [7])] ++ some (sampleEvilFile, [1]) :: [some (sampleFile, [2])])
      = ((extractAll (fun _ => noFail) (ascii "/tmp/ex") 0 [some (sampleTopFile, [7])]).1
          ++ (writeEntry noFail sampleEvilFile [1] (ascii "/tmp/ex")).1,
          .error (.pathOutside sampleEvilFile.Name)) :=
  (extractAll_fail_fast (fun _ => noFail) (ascii "/tmp/ex") 0
      ([some (sampleTopFile, [7])] ++ some (sampleEvilFile, [1]) :: [some (sampleFile, [2])])).2.2
    [some (sampleTopFile, [7])] sampleEvilFile [1] [some (sampleFile, [2])]
    (.pathOutside sampleEvilFile.Name) rfl (by decide) (by decide)

/-- C18 (the code at the failing inputs): the regular files named `..foo` and
`...`, whose cleaned names are relative, are not `..`, and have a first
element other than `..`, are rejected by `writeEntry` with the error that wraps
`ErrPathOutside`. -/
theorem writeEntry_rejects_dotdot_names :
    Clean sampleDotDotFoo.Name = ascii "..foo" ∧
    writeEntry noFail sampleDotDotFoo [1] (ascii "/d")
      = ([], .error (.pathOutside (ascii "..foo"))) ∧
    Clean sampleThreeDots.Name = ascii "..." ∧
    writeEntry noFail sampleThreeDots [1] (ascii "/d")
      = ([], .error (.pathOutside (ascii "..."))) := by
  decide

/-! ## The external-process backend -/

/-- C17 (as stated, refuted): with the external-process backend, when `xz`
exits with status 1 without output, `ExtractDeb` returns `nil`; and when it
exits with status 1 after a diagnostic on standard error, that diagnostic is
what the stream delivers to the tar reader. -/
theorem ExtractDeb_ignores_exit_status :
    (sampleSilentXZFailure.xz [253, 55, 122, 88, 90, 0]).exitStatus = 1 ∧
    ExtractDeb sampleSilentXZFailure 0 (ascii "/tmp/m/package.deb") (ascii "/tmp/m/ex") true
      = some ([], .ok ()) ∧
    (sampleLoudXZFailure.xz [253, 55, 122, 88, 90, 0]).exitStatus = 1 ∧
    newSystemXZReader sampleLoudXZFailure ⟨[253, 55, 122, 88, 90, 0], true⟩
      = some ⟨ascii "xz: (stdin): File format not recognized\n", true⟩ := by
  decide

/-- C17 (amended): with the external-process backend, for non-blank paths and
a destination that `filepath.Abs` resolves, `ExtractDeb` fails with the error
that wraps `ErrArNotFound` when `ar` cannot be started and with the error that
wraps `ErrXZNotFound` when `xz` cannot be started; once both have started, the
exit statuses are not looked at: each stream delivers all the utility writes,
standard output and standard error alike, and ends normally, and `ExtractDeb`
returns what `extractAll` returns on the tar reader over the stream of `xz`. -/
theorem ExtractDeb_system_backend (w : DebWorld) (fuel : Nat) (debPath dest absDest : Bytes)
    (hdeb : trimSpace debPath ≠ []) (hdest : trimSpace dest ≠ [])
    (habs : w.abs dest = some absDest) :
    (w.arStart = false →
      ExtractDeb w fuel debPath dest true = some ([], .error .arNotFound)) ∧
    (w.arStart = true → w.xzStart = false →
      ExtractDeb w fuel debPath dest true = some ([], .error (.xzReader true))) ∧
    (w.arStart = true → w.xzStart = true →
      ExtractDeb w fuel debPath dest true
        = some
          ((extractAll w.fails absDest 0
              (w.tar ⟨(((w.xz (((w.ar debPath (ascii "data.tar.xz")).writes.map
                Prod.snd).flatten)).writes.map Prod.snd).flatten), true⟩)).1,
            (extractAll w.fails absDest 0
              (w.tar ⟨(((w.xz (((w.ar debPath (ascii "data.tar.xz")).writes.map
                Prod.snd).flatten)).writes.map Prod.snd).flatten), true⟩)).2.mapError
              .extract)) := by
  have hin : ¬ (trimSpace debPath = [] ∨ trimSpace dest = []) := by
    intro h; rcases h with h | h
    · exact hdeb h
    · exact hdest h
  refine ⟨?_, ?_, ?_⟩
  · intro h1
    simp [ExtractDeb, hin, habs, newSystemArStream, h1]
  · intro h1 h2
    simp [ExtractDeb, hin, habs, newSystemArStream, newSystemXZReader, h1, h2]
  · intro h1 h2
    simp [ExtractDeb, hin, habs, newSystemArStream, newSystemXZReader, pipeStream, h1, h2]

theorem ExtractDeb_system_backend_witness :
    (sampleLoudXZFailure.arStart = false →
      ExtractDeb sampleLoudXZFailure 0 (ascii "/tmp/m/package.deb") (ascii "/tmp/m/ex") true
        = some ([], .error .arNotFound)) ∧
    (sampleLoudXZFailure.arStart = true → sampleLoudXZFailure.xzStart = false →
      ExtractDeb sampleLoudXZFailure 0 (ascii "/tmp/m/package.deb") (ascii "/tmp/m/ex") true
        = some ([], .error (.xzReader true))) ∧
    (sampleLoudXZFailure.arStart = true → sampleLoudXZFailure.xzStart = true →
      ExtractDeb sampleLoudXZFailure 0 (ascii "/tmp/m/package.deb") (ascii "/tmp/m/ex") true
        = some
          ((extractAll sampleLoudXZFailure.fails (ascii "/tmp/m/ex") 0
              (sampleLoudXZFailure.tar ⟨(((sampleLoudXZFailure.xz
                (((sampleLoudXZFailure.ar (ascii "/tmp/m/package.deb")
                  (ascii "data.tar.xz")).writes.map Prod.snd).flatten)).writes.map
                Prod.snd).flatten), true⟩)).1,
            (extractAll sampleLoudXZFailure.fails (ascii "/tmp/m/ex") 0
              (sampleLoudXZFailure.tar ⟨(((sampleLoudXZFailure.xz
                (((sampleLoudXZFailure.ar (ascii "/tmp/m/package.deb")
                  (ascii "data.tar.xz")).writes.map Prod.snd).flatten)).writes.map
                Prod.snd).flatten), true⟩)).2.mapError .extract)) :=
  ExtractDeb_system_backend sampleLoudXZFailure 0 (ascii "/tmp/m/package.deb")
    (ascii "/tmp/m/ex") (ascii "/tmp/m/ex") (by decide) (by decide) (by decide)

/-! ## Paths under a root that `Join` returns -/

theorem normal_singleton (D : Bytes) (hD : NormalElem D) : ∀ y ∈ [D], NormalElem y := by
  intro y hy; rw [List.mem_singleton.mp hy]; exact hD

theorem dotdot_plain : (ascii ".." : Bytes) ≠ [] ∧ 47 ∉ (ascii ".." : Bytes) := by decide

/-- The elements of a cleaned relative path: `..` elements, then normal ones;
none is empty and none has a separator. -/
theorem dotdots_plain (n : Nat) (es : List Bytes) (hes : ∀ e ∈ es, NormalElem e) :
    ∀ e ∈ List.replicate n (ascii "..") ++ es, e ≠ [] ∧ 47 ∉ e := by
  intro e he
  rcases List.mem_append.mp he with h | h
  · rw [(List.mem_replicate.mp h).2]; exact dotdot_plain
  · exact ⟨(hes e h).1, (hes e h).2.2.2⟩

theorem foldl_cleanStep_dotdots (n : Nat) :
    ∀ k : Nat, (List.replicate n (ascii "..")).foldl (cleanStep false) (k, []) = (k + n, []) := by
  induction n with
  | zero => intro k; rfl
  | succ n ih =>
    intro k
    have h : cleanStep false (k, []) (ascii "..") = (k + 1, []) := by
      simp [cleanStep, ascii_dotdot, ascii_dot]
    rw [List.replicate_succ, List.foldl_cons, h, ih (k + 1)]
    congr 1
    omega

theorem joinSep_plain_ne_nil (l : List Bytes) (hl : ∀ e ∈ l, e ≠ [] ∧ 47 ∉ e) (hne : l ≠ []) :
    joinSep l ≠ [] := fun h => hne (joinSep_eq_nil l (fun e he => (hl e he).1) h)

theorem joinSep_plain_head (l : List Bytes) (hl : ∀ e ∈ l, e ≠ [] ∧ 47 ∉ e) :
    (joinSep l).head? ≠ some 47 := by
  cases l with
  | nil => simp [joinSep_nil]
  | cons e es =>
    obtain ⟨h1, h2⟩ := hl e (List.mem_cons_self _ _)
    obtain ⟨c, e', rfl⟩ := List.exists_cons_of_ne_nil h1
    have hc : c ≠ 47 := fun h => h2 (by simp [h])
    by_cases hes : es = []
    · subst hes
      rw [joinSep_singleton]
      simpa using hc
    · rw [joinSep_cons _ es hes]
      simpa using hc

/-- A relative path of `..` elements followed by normal elements is cleaned. -/
theorem Clean_rel (n : Nat) (es : List Bytes) (hes : ∀ e ∈ es, NormalElem e)
    (hne : List.replicate n (ascii "..") ++ es ≠ []) :
    Clean (joinSep (List.replicate n (ascii "..") ++ es))
      = joinSep (List.replicate n (ascii "..") ++ es) := by
  have hpl := dotdots_plain n es hes
  have h0 := joinSep_plain_ne_nil _ hpl hne
  have hh := joinSep_plain_head _ hpl
  have hs := splitSep_joinSep _ hne (fun e he => (hpl e he).2)
  simp only [Clean, h0, if_false, hh, decide_False, hs, List.foldl_append,
    foldl_cleanStep_dotdots, foldl_cleanStep_normal false es hes, Nat.zero_add,
    List.append_nil, List.reverse_reverse, Bool.false_eq_true]

theorem relLoop_common_plain (es : List Bytes) (hes : ∀ e ∈ es, e ≠ [] ∧ 47 ∉ e)
    (hne : es ≠ []) (xs : List Bytes) (hx : xs ≠ []) :
    ∀ fuel : Nat, es.length ≤ fuel →
      relLoop fuel (joinSep es) (joinSep (es ++ xs)) = ([], joinSep xs, []) := by
  induction es with
  | nil => exact absurd rfl hne
  | cons e es ih =>
    intro fuel hf
    have he := hes e (List.mem_cons_self _ _)
    obtain ⟨fuel, rfl⟩ : ∃ f, fuel = f + 1 := ⟨fuel - 1, by simp at hf; omega⟩
    by_cases h : es = []
    · subst h
      rw [joinSep_singleton, List.singleton_append, joinSep_cons e xs hx]
      exact relLoop_step_base_end fuel e _ he.2 he.1
    · rw [joinSep_cons e es h, List.cons_append, joinSep_cons e (es ++ xs) (by simp [h]),
        relLoop_step fuel e _ _ he.2]
      exact ih (fun y hy => hes y (List.mem_cons_of_mem _ hy)) h fuel (by simp at hf; omega)

/-- From a cleaned relative path to a path below it, `Rel` gives the elements
that were added. -/
theorem Rel_rel_inside (n : Nat) (es xs : List Bytes) (hes : ∀ e ∈ es, NormalElem e)
    (hxs : ∀ x ∈ xs, NormalElem x) (hne : es ≠ []) (hx : xs ≠ []) :
    Rel (joinSep (List.replicate n (ascii "..") ++ es))
        (joinSep (List.replicate n (ascii "..") ++ es ++ xs))
      = some (joinSep xs) := by
  have hl : List.replicate n (ascii "..") ++ es ≠ [] := by simp [hne]
  have hexs : ∀ e ∈ es ++ xs, NormalElem e := normal_append es xs hes hxs
  have hl2 : List.replicate n (ascii "..") ++ (es ++ xs) ≠ [] := by simp [hne]
  have hpl := dotdots_plain n es hes
  have hpl2 := dotdots_plain n (es ++ xs) hexs
  have hc1 := Clean_rel n es hes hl
  have hc2 := Clean_rel n (es ++ xs) hexs hl2
  rw [← List.append_assoc] at hc2
  have hs1 := splitSep_joinSep _ hl (fun e he => (hpl e he).2)
  have hs2 := splitSep_joinSep _ hl2 (fun e he => (hpl2 e he).2)
  rw [← List.append_assoc] at hs2
  have hne2 : ¬ (joinSep (List.replicate n (ascii "..") ++ es ++ xs)
      = joinSep (List.replicate n (ascii "..") ++ es)) := by
    intro h
    have h1 := hs2
    rw [h, hs1] at h1
    have : (List.replicate n (ascii "..") ++ es).length
        = (List.replicate n (ascii "..") ++ es ++ xs).length := by rw [← h1]
    simp only [List.length_append] at this
    exact hx (List.eq_nil_of_length_eq_zero (by omega))
  have hdot : ¬ (joinSep (List.replicate n (ascii "..") ++ es) = ascii ".") := by
    intro h
    have h1 := hs1
    rw [h] at h1
    have h2 : splitSep (ascii ".") = [ascii "."] := by decide
    rw [h2] at h1
    have hmem : ascii "." ∈ List.replicate n (ascii "..") ++ es := by rw [← h1]; simp
    rcases List.mem_append.mp hmem with h' | h'
    · exact absurd (List.mem_replicate.mp h').2 (by decide)
    · exact (hes _ h').2.1 rfl
  have hh1 := joinSep_plain_head _ hpl
  have hh2 := joinSep_plain_head _ hpl2
  rw [← List.append_assoc] at hh2
  have hloop := relLoop_common_plain _ hpl hl xs hx
    ((joinSep (List.replicate n (ascii "..") ++ es)).length + 1)
    (by
      have := length_le_joinSep _ (fun e he => (hpl e he).1)
      omega)
  simp only [Rel, hc1, hc2, hne2, if_false, hdot, hh1, hh2, decide_False, ne_eq,
    not_true_eq_false, hloop]
  simp [ascii_dotdot]

/-- What `Join a D` is for a normal element `D`: a cleaned path whose last
element is `D`, rooted or relative. -/
theorem Join_normal_shape (a D : Bytes) (hD : NormalElem D) :
    (∃ ds : List Bytes, (∀ y ∈ ds, NormalElem y) ∧ Join a D = 47 :: joinSep (ds ++ [D])) ∨
    (∃ (n : Nat) (ds : List Bytes), (∀ y ∈ ds, NormalElem y) ∧
      Join a D = joinSep (List.replicate n (ascii "..") ++ (ds ++ [D]))) := by
  have hDne : D ≠ [] := hD.1
  have hsD : splitSep D = [D] := splitSep_sepfree D hD.2.2.2
  by_cases ha : a = []
  · right
    refine ⟨0, [], by simp, ?_⟩
    have := Clean_rel 0 [D] (normal_singleton D hD) (by simp)
    simp only [List.replicate_zero, List.nil_append, joinSep_singleton] at this ⊢
    rw [Join, if_pos ha, if_neg hDne, this]
  · have hq : a ++ 47 :: D ≠ [] := by simp
    have hsplit : splitSep (a ++ 47 :: D) = splitSep a ++ [D] := by
      rw [splitSep_append_sep, hsD]
    by_cases hr : a.head? = some 47
    · left
      have hr2 : (a ++ 47 :: D).head? = some 47 := by
        cases a with
        | nil => exact absurd rfl ha
        | cons c a' => simpa using hr
      have hinv := foldl_cleanStep_inv true (splitSep a) (splitSep_mem_sepfree _) (0, [])
        (by simp)
      generalize hst : (splitSep a).foldl (cleanStep true) (0, []) = st at hinv
      have h1 : st.1 = 0 := hinv.2 rfl
      refine ⟨st.2.reverse, fun y hy => hinv.1 y (List.mem_reverse.mp hy), ?_⟩
      rw [Join, if_neg ha]
      simp only [Clean, hq, if_false, hr2, decide_True, if_true, hsplit, List.foldl_append,
        hst, List.foldl_cons, List.foldl_nil, cleanStep_normal true st D hD, h1,
        List.replicate_zero, List.nil_append, List.reverse_cons]
    · right
      have hr2 : (a ++ 47 :: D).head? ≠ some 47 := by
        cases a with
        | nil => exact absurd rfl ha
        | cons c a' => simpa using hr
      have hinv := foldl_cleanStep_inv false (splitSep a) (splitSep_mem_sepfree _) (0, [])
        (by simp)
      generalize hst : (splitSep a).foldl (cleanStep false) (0, []) = st at hinv
      have hn : ∀ y ∈ st.2.reverse, NormalElem y := fun y hy => hinv.1 y (List.mem_reverse.mp hy)
      have hout : joinSep (List.replicate st.1 (ascii "..") ++ (st.2.reverse ++ [D])) ≠ [] :=
        joinSep_plain_ne_nil _
          (dotdots_plain st.1 _ (normal_append _ _ hn (normal_singleton D hD))) (by simp)
      refine ⟨st.1, st.2.reverse, hn, ?_⟩
      rw [Join, if_neg ha]
      simp only [Clean, hq, if_false, hr2, decide_False, hsplit, List.foldl_append,
        hst, List.foldl_cons, List.foldl_nil, cleanStep_normal false st D hD,
        List.reverse_cons, hout, Bool.false_eq_true]

theorem joinSep_root_cons (root : Bytes) (l xs : List Bytes) (hl : l ≠ [])
    (hroot : root = joinSep l) : joinSep (root :: xs) = joinSep (l ++ xs) := by
  by_cases hx : xs = []
  · subst hx; rw [joinSep_singleton, List.append_nil, hroot]
  · rw [joinSep_cons root xs hx, joinSep_append l xs hl hx, hroot]

theorem joinSep_rooted_cons (l xs : List Bytes) (hl : l ≠ []) :
    joinSep ((47 :: joinSep l) :: xs) = 47 :: joinSep (l ++ xs) := by
  by_cases hx : xs = []
  · subst hx; rw [joinSep_singleton, List.append_nil]
  · rw [joinSep_cons _ xs hx, joinSep_append l xs hl hx, List.cons_append]

theorem Join_abs_dot (ds : List Bytes) (hds : ∀ y ∈ ds, NormalElem y) :
    Join (47 :: joinSep ds) (ascii ".") = 47 :: joinSep ds := by
  rw [Join, if_neg (List.cons_ne_nil _ _), List.cons_append, Clean_rooted,
    ← List.cons_append, splitSep_append_sep, List.foldl_append,
    foldl_cleanStep_rooted true ds hds]
  have hs : splitSep (ascii ".") = [ascii "."] := by decide
  rw [hs, List.foldl_cons, List.foldl_nil]
  simp [cleanStep, ascii_dot]

/-- The target `installTree` computes: for the root `Join a D` of a walk and a
path under it, the root followed by the names `xs`, joining `/D` with the path
relative to the root gives `/D` followed by the same names. -/
theorem Join_Rel_under (a D : Bytes) (xs : List Bytes) (hD : NormalElem D)
    (hxs : ∀ x ∈ xs, NormalElem x) :
    Join (47 :: D) ((Rel (Join a D) (joinSep (Join a D :: xs))).getD [])
      = joinSep ((47 :: D) :: xs) := by
  have hDl := normal_singleton D hD
  have h5 : (47 :: D : Bytes) = 47 :: joinSep [D] := by rw [joinSep_singleton]
  by_cases hx : xs = []
  · subst hx
    have hself : Rel (Join a D) (Join a D) = some (ascii ".") := by simp [Rel]
    rw [joinSep_singleton, joinSep_singleton, hself, Option.getD_some, h5,
      Join_abs_dot [D] hDl]
  · have htarget : Join (47 :: D) (joinSep xs) = joinSep ((47 :: D) :: xs) := by
      rw [h5, Join_abs_relative [D] xs hDl hxs hx, joinSep_rooted_cons [D] xs (by simp)]
    rcases Join_normal_shape a D hD with ⟨ds, hds, hj⟩ | ⟨n, ds, hds, hj⟩
    · have hall := normal_append ds [D] hds hDl
      rw [hj, joinSep_rooted_cons (ds ++ [D]) xs (by simp),
        Rel_abs_inside (ds ++ [D]) xs hall hxs hx, Option.getD_some, htarget]
    · have hall := normal_append ds [D] hds hDl
      rw [hj, joinSep_root_cons _ (List.replicate n (ascii "..") ++ (ds ++ [D])) xs
          (by simp) rfl,
        Rel_rel_inside n (ds ++ [D]) xs hall hxs (by simp) hx, Option.getD_some, htarget]

end Debpkg

namespace Installer

open Debpkg

/-! ## Lemmas on `installTree` and the steps of `Install` -/

theorem copyFileWithMode_promotes (fails : Event → Bool) (src dst : Bytes) (mode : Nat) :
    ∀ ev ∈ (copyFileWithMode fails src dst mode).1, ev.promotes = true := by
  intro ev hev
  simp only [copyFileWithMode] at hev
  split_ifs at hev <;>
    simp only [List.mem_cons, List.mem_singleton, List.not_mem_nil, or_false] at hev <;>
    rcases hev with rfl | rfl | rfl | rfl | rfl <;> rfl

theorem installTree_promotes (fails : Event → Bool) (src dst : Bytes) (dryRun : Bool)
    (walk : List WalkItem) :
    ∀ ev ∈ (installTree fails src dst dryRun walk).1, ev.promotes = true := by
  induction walk with
  | nil => simp [installTree]
  | cons it rest ih =>
    intro ev hev
    simp only [installTree] at hev
    by_cases h1 : it.err = true
    · simp [h1] at hev
    simp only [h1, if_false] at hev
    by_cases h2 : it.infoFails = true
    · simp [h2] at hev
    simp only [h2, if_false] at hev
    cases dryRun with
    | true =>
      simp only [if_true, ite_self] at hev
      exact ih ev hev
    | false =>
      simp only [Bool.false_eq_true, if_false] at hev
      by_cases hd : it.isDir = true
      · simp only [hd, if_true] at hev
        by_cases hf : fails (Event.mkdirAll (Join dst ((Rel src it.path).getD [])) it.mode)
            = true
        · simp only [hf, if_true, List.mem_singleton] at hev
          subst hev; rfl
        · simp only [hf, if_false] at hev
          rcases List.mem_cons.mp hev with rfl | hev
          · rfl
          · exact ih ev hev
      · simp only [hd, if_false] at hev
        have hc := copyFileWithMode_promotes fails it.path
          (Join dst ((Rel src it.path).getD [])) it.mode
        rcases hcf : copyFileWithMode fails it.path (Join dst ((Rel src it.path).getD []))
          it.mode with ⟨evs, r⟩
        rw [hcf] at hev hc
        cases r with
        | error e =>
          rcases List.mem_cons.mp hev with rfl | hev
          · rfl
          · exact hc ev hev
        | ok u =>
          have hev2 : ev ∈ Event.copyFileWithMode it.path
              (Join dst ((Rel src it.path).getD [])) it.mode
              :: (evs ++ (installTree fails src dst false rest).1) := hev
          simp only [List.mem_cons, List.mem_append] at hev2
          rcases hev2 with rfl | hev | hev
          · rfl
          · exact hc ev hev
          · exact ih ev hev

theorem installPairs_promotes (w : World) (dryRun : Bool) (pairs : List (Bytes × Bytes)) :
    ∀ ev ∈ (installPairs w dryRun pairs).1, ev.promotes = true := by
  induction pairs with
  | nil => simp [installPairs]
  | cons p rest ih =>
    obtain ⟨src, dst⟩ := p
    intro ev hev
    cases dryRun with
    | true =>
      simp only [installPairs, if_true] at hev ih
      exact ih ev hev
    | false =>
      simp only [installPairs, Bool.false_eq_true, if_false] at hev ih
      rcases ht : installTree w.fails src dst false (w.walk src) with ⟨evs, r⟩
      have hp := installTree_promotes w.fails src dst false (w.walk src)
      rw [ht] at hev hp
      cases r with
      | error e =>
        simp only [List.mem_cons] at hev
        rcases hev with rfl | hev
        · rfl
        · exact hp ev hev
      | ok u =>
        simp only [List.mem_cons, List.mem_append] at hev
        rcases hev with (rfl | hev) | hev
        · rfl
        · exact hp ev hev
        · exact ih ev hev

theorem installPairs_dryRun (w : World) (pairs : List (Bytes × Bytes)) :
    installPairs w true pairs = ([], .ok ()) := by
  induction pairs with
  | nil => rfl
  | cons p rest ih =>
    obtain ⟨src, dst⟩ := p
    simp only [installPairs, if_true, ih]

theorem installSteps_dryRun (w : World) (rel : Release) (assetURL tmpDir : Bytes)
    (us : Bool) :
    installSteps w rel assetURL tmpDir true us = ([], .ok ()) := by
  simp [installSteps, installPairs_dryRun]

theorem installSteps_fetch_fails (w : World) (rel : Release) (assetURL tmpDir : Bytes)
    (us : Bool)
    (h : w.fetchFile assetURL (Join tmpDir (ascii "package.deb")) = false) :
    installSteps w rel assetURL tmpDir false us
      = ([Event.fetchFile assetURL (Join tmpDir (ascii "package.deb"))], .error .fetch) := by
  simp [installSteps, h]

theorem installSteps_verify_fails (w : World) (rel : Release) (assetURL tmpDir : Bytes)
    (us : Bool)
    (h1 : w.fetchFile assetURL (Join tmpDir (ascii "package.deb")) = true)
    (h2 : w.verifyPGP (Join tmpDir (ascii "package.deb")) (sigURL rel assetURL) = false) :
    installSteps w rel assetURL tmpDir false us
      = ([Event.fetchFile assetURL (Join tmpDir (ascii "package.deb")),
          Event.verifyPGP (Join tmpDir (ascii "package.deb")) (sigURL rel assetURL)],
          .error .verify) := by
  simp [installSteps, h1, h2]

theorem installSteps_extract_fails (w : World) (rel : Release) (assetURL tmpDir : Bytes)
    (us : Bool)
    (h1 : w.fetchFile assetURL (Join tmpDir (ascii "package.deb")) = true)
    (h2 : w.verifyPGP (Join tmpDir (ascii "package.deb")) (sigURL rel assetURL) = true)
    (h3 : w.extractDeb (Join tmpDir (ascii "package.deb")) (Join tmpDir (ascii "ex")) us
      = false) :
    installSteps w rel assetURL tmpDir false us
      = ([Event.fetchFile assetURL (Join tmpDir (ascii "package.deb")),
          Event.verifyPGP (Join tmpDir (ascii "package.deb")) (sigURL rel assetURL),
          Event.extractDeb (Join tmpDir (ascii "package.deb")) (Join tmpDir (ascii "ex")) us],
          .error .extract) := by
  simp [installSteps, h1, h2, h3]

theorem installSteps_extracted (w : World) (rel : Release) (assetURL tmpDir : Bytes)
    (us : Bool)
    (h1 : w.fetchFile assetURL (Join tmpDir (ascii "package.deb")) = true)
    (h2 : w.verifyPGP (Join tmpDir (ascii "package.deb")) (sigURL rel assetURL) = true)
    (h3 : w.extractDeb (Join tmpDir (ascii "package.deb")) (Join tmpDir (ascii "ex")) us
      = true) :
    installSteps w rel assetURL tmpDir false us
      = ([Event.fetchFile assetURL (Join tmpDir (ascii "package.deb")),
          Event.verifyPGP (Join tmpDir (ascii "package.deb")) (sigURL rel assetURL),
          Event.extractDeb (Join tmpDir (ascii "package.deb")) (Join tmpDir (ascii "ex")) us]
          ++ (installPairs w false
              [(Join (Join tmpDir (ascii "ex")) (ascii "opt"), ascii "/opt"),
               (Join (Join tmpDir (ascii "ex")) (ascii "usr"), ascii "/usr")]).1,
          (installPairs w false
              [(Join (Join tmpDir (ascii "ex")) (ascii "opt"), ascii "/opt"),
               (Join (Join tmpDir (ascii "ex")) (ascii "usr"), ascii "/usr")]).2) := by
  simp [installSteps, h1, h2, h3]

theorem Install_staged (w : World) (rel : Release) (arch : Bytes) (dryRun us : Bool)
    (tmpDirs : List Bytes) (url tmp : Bytes)
    (hsel : selectDebAsset rel arch = some url) (htmp : w.mkdirTemp = some tmp) :
    Install w rel arch dryRun us tmpDirs
      = ⟨[Event.mkdirTemp, Event.registerTmpDir tmp] ++ (installSteps w rel url tmp dryRun us).1
          ++ [Event.removeAll tmp, Event.unregisterTmpDir tmp],
        (installSteps w rel url tmp dryRun us).2,
        UnregisterTmpDir (RegisterTmpDir tmpDirs tmp) tmp,
        if w.removeAll tmp then [] else [tmp]⟩ := by
  simp only [Install, hsel, htmp]

theorem extractDeb_not_in_promotes (l : List Event) (hl : ∀ ev ∈ l, ev.promotes = true)
    (d e : Bytes) (u : Bool) : Event.extractDeb d e u ∉ l := by
  intro h
  have := hl _ h
  simp [Event.promotes] at this

theorem verifyPGP_not_in_promotes (l : List Event) (hl : ∀ ev ∈ l, ev.promotes = true)
    (f s : Bytes) : Event.verifyPGP f s ∉ l := by
  intro h
  have := hl _ h
  simp [Event.promotes] at this

theorem extractDeb_mem_trace (tmp : Bytes) (body : List Event) (d e : Bytes) (u : Bool) :
    Event.extractDeb d e u ∈ [Event.mkdirTemp, Event.registerTmpDir tmp] ++ body
        ++ [Event.removeAll tmp, Event.unregisterTmpDir tmp]
      ↔ Event.extractDeb d e u ∈ body := by
  simp

theorem verifyPGP_mem_trace (tmp : Bytes) (body : List Event) (f s : Bytes) :
    Event.verifyPGP f s ∈ [Event.mkdirTemp, Event.registerTmpDir tmp] ++ body
        ++ [Event.removeAll tmp, Event.unregisterTmpDir tmp]
      ↔ Event.verifyPGP f s ∈ body := by
  simp

theorem extractsOrPromotes_trace (tmp : Bytes) (body : List Event)
    (hb : ∀ ev ∈ body, ev.extractsOrPromotes = false) :
    ∀ ev ∈ [Event.mkdirTemp, Event.registerTmpDir tmp] ++ body
        ++ [Event.removeAll tmp, Event.unregisterTmpDir tmp], ev.extractsOrPromotes = false := by
  intro ev hev
  simp only [List.cons_append, List.nil_append, List.mem_cons, List.mem_append,
    List.mem_singleton, List.not_mem_nil, or_false] at hev
  rcases hev with rfl | rfl | hev | rfl | rfl
  · rfl
  · rfl
  · exact hb ev hev
  · rfl
  · rfl

theorem promotes_trace (tmp : Bytes) (body : List Event)
    (hb : ∀ ev ∈ body, ev.promotes = false) :
    ∀ ev ∈ [Event.mkdirTemp, Event.registerTmpDir tmp] ++ body
        ++ [Event.removeAll tmp, Event.unregisterTmpDir tmp], ev.promotes = false := by
  intro ev hev
  simp only [List.cons_append, List.nil_append, List.mem_cons, List.mem_append,
    List.mem_singleton, List.not_mem_nil, or_false] at hev
  rcases hev with rfl | rfl | hev | rfl | rfl
  · rfl
  · rfl
  · exact hb ev hev
  · rfl
  · rfl

/-! ## Claims on `Install` -/

/-- C13: in every run of `Install`, a call of `ExtractDeb` on an archive path
comes after a call of `verifyPGP` on the same path that returned success; and
when a call of `verifyPGP` fails, `Install` returns the verification error and
the run has no call of `ExtractDeb` or `installTree` and no write of the
promotion step. -/
theorem Install_verify_before_extract (w : World) (rel : Release) (arch : Bytes)
    (dryRun us : Bool) (tmpDirs : List Bytes) :
    (∀ debPath dest u,
      Event.extractDeb debPath dest u ∈ (Install w rel arch dryRun us tmpDirs).trace →
      ∃ sig l1 l2,
        (Install w rel arch dryRun us tmpDirs).trace = l1 ++ Event.verifyPGP debPath sig :: l2 ∧
        Event.extractDeb debPath dest u ∈ l2 ∧ w.verifyPGP debPath sig = true) ∧
    (∀ file sig,
      Event.verifyPGP file sig ∈ (Install w rel arch dryRun us tmpDirs).trace →
      w.verifyPGP file sig = false →
      (Install w rel arch dryRun us tmpDirs).result = .error .verify ∧
      ∀ ev ∈ (Install w rel arch dryRun us tmpDirs).trace, ev.extractsOrPromotes = false) := by
  cases hsel : selectDebAsset rel arch with
  | none => simp [Install, hsel]
  | some url =>
    cases htmp : w.mkdirTemp with
    | none => simp [Install, hsel, htmp]
    | some tmp =>
      rw [Install_staged w rel arch dryRun us tmpDirs url tmp hsel htmp]
      simp only [extractDeb_mem_trace, verifyPGP_mem_trace]
      cases dryRun with
      | true => simp [installSteps_dryRun]
      | false =>
        cases h1 : w.fetchFile url (Join tmp (ascii "package.deb")) with
        | false => simp [installSteps_fetch_fails w rel url tmp us h1]
        | true =>
          cases h2 : w.verifyPGP (Join tmp (ascii "package.deb")) (sigURL rel url) with
          | false =>
            rw [installSteps_verify_fails w rel url tmp us h1 h2]
            refine ⟨by simp, ?_⟩
            intro file sig _ _
            refine ⟨rfl, extractsOrPromotes_trace tmp _ ?_⟩
            intro ev hev
            simp only [List.mem_cons, List.mem_singleton, List.not_mem_nil, or_false] at hev
            rcases hev with rfl | rfl <;> rfl
          | true =>
            have hP := installPairs_promotes w false
              [(Join (Join tmp (ascii "ex")) (ascii "opt"), ascii "/opt"),
               (Join (Join tmp (ascii "ex")) (ascii "usr"), ascii "/usr")]
            have hbody : ∃ P : List Event × Except InstallError Unit,
                (∀ ev ∈ P.1, ev.promotes = true) ∧
                installSteps w rel url tmp false us
                  = ([Event.fetchFile url (Join tmp (ascii "package.deb")),
                      Event.verifyPGP (Join tmp (ascii "package.deb")) (sigURL rel url),
                      Event.extractDeb (Join tmp (ascii "package.deb"))
                        (Join tmp (ascii "ex")) us] ++ P.1, P.2) := by
              cases h3 : w.extractDeb (Join tmp (ascii "package.deb"))
                  (Join tmp (ascii "ex")) us with
              | false =>
                exact ⟨([], .error .extract), by simp,
                  by rw [installSteps_extract_fails w rel url tmp us h1 h2 h3]; rfl⟩
              | true =>
                exact ⟨_, hP, installSteps_extracted w rel url tmp us h1 h2 h3⟩
            obtain ⟨P, hPp, hb⟩ := hbody
            rw [hb]
            constructor
            · intro debPath dest u hmem
              simp only [List.cons_append, List.nil_append, List.mem_cons,
                Event.extractDeb.injEq, reduceCtorEq, false_or] at hmem
              rcases hmem with ⟨hd, he, hu⟩ | hmem
              · refine ⟨sigURL rel url,
                  [Event.mkdirTemp, Event.registerTmpDir tmp,
                    Event.fetchFile url (Join tmp (ascii "package.deb"))],
                  Event.extractDeb (Join tmp (ascii "package.deb")) (Join tmp (ascii "ex")) us
                    :: (P.1 ++ [Event.removeAll tmp, Event.unregisterTmpDir tmp]),
                  by simp [hd], ?_, ?_⟩
                · rw [hd, he, hu]; simp
                · rw [hd]; exact h2
              · exact absurd hmem (extractDeb_not_in_promotes _ hPp _ _ _)
            · intro file sig hmem hf
              simp only [List.cons_append, List.nil_append, List.mem_cons,
                Event.verifyPGP.injEq, reduceCtorEq, false_or] at hmem
              rcases hmem with ⟨hd, he⟩ | hmem
              · rw [hd, he, h2] at hf; cases hf
              · exact absurd hmem (verifyPGP_not_in_promotes _ hPp _ _)

theorem Install_verify_before_extract_witness :
    (Install sampleWorldBadSig sampleRelease (ascii "amd64") false false []).result
        = .error .verify ∧
    ∀ ev ∈ (Install sampleWorldBadSig sampleRelease (ascii "amd64") false false []).trace,
      ev.extractsOrPromotes = false :=
  (Install_verify_before_extract sampleWorldBadSig sampleRelease (ascii "amd64") false false []).2
    (ascii "/tmp/m/package.deb") (sigURL sampleRelease (ascii "https://h/a.deb"))
    (by decide) (by decide)

/-- C14 (the code at the failing input): the archive whose `data.tar` holds
the symlinks `x`, `x/y` and `x/y/z`, each with the target `..`, then the
regular file `x/y/z/opt/evil`, then the entry `../boom`.  `ExtractDeb` into
`/tmp/m/ex` makes the three symlinks, creates and writes the file at
`/tmp/m/ex/x/y/z/opt/evil`, and only then fails on `../boom`.  The three links
are looked up at `/tmp/m/ex/x`, `/tmp/m/y` and `/tmp/z`, so the file written is
`/opt/evil`.  `Install` on that archive returns the extraction error without
calling `installTree`: a step failed and a write to `/opt` has been made. -/
theorem Install_extract_failure_after_write_to_opt :
    ExtractDeb sampleEscapeDeb 1 (ascii "/tmp/m/package.deb") (ascii "/tmp/m/ex") true
      = some ([FsOp.mkdirAll (ascii "/tmp/m/ex") 0o755,
               FsOp.symlink (ascii "..") (ascii "/tmp/m/ex/x"),
               FsOp.mkdirAll (ascii "/tmp/m/ex/x") 0o755,
               FsOp.symlink (ascii "..") (ascii "/tmp/m/ex/x/y"),
               FsOp.mkdirAll (ascii "/tmp/m/ex/x/y") 0o755,
               FsOp.symlink (ascii "..") (ascii "/tmp/m/ex/x/y/z"),
               FsOp.mkdirAll (ascii "/tmp/m/ex/x/y/z/opt") 0o755,
               FsOp.openFile (ascii "/tmp/m/ex/x/y/z/opt/evil") 0o755,
               FsOp.copy (ascii "/tmp/m/ex/x/y/z/opt/evil") [1, 2, 3],
               FsOp.close (ascii "/tmp/m/ex/x/y/z/opt/evil")],
              .error (.extract (.pathOutside (ascii "../boom")))) ∧
    resolveThrough (ascii "/tmp/m/ex/x") (ascii "..") (ascii "/tmp/m/ex/x/y")
      = ascii "/tmp/m/y" ∧
    resolveThrough (ascii "/tmp/m/y") (ascii "..")
        (resolveThrough (ascii "/tmp/m/ex/x") (ascii "..") (ascii "/tmp/m/ex/x/y/z"))
      = ascii "/tmp/z" ∧
    resolveThrough (ascii "/tmp/z") (ascii "..")
        (resolveThrough (ascii "/tmp/m/y") (ascii "..")
          (resolveThrough (ascii "/tmp/m/ex/x") (ascii "..")
            (ascii "/tmp/m/ex/x/y/z/opt/evil")))
      = ascii "/opt/evil" ∧
    Install sampleWorldEscape sampleRelease (ascii "amd64") false true []
      = ⟨[Event.mkdirTemp, Event.registerTmpDir (ascii "/tmp/m"),
          Event.fetchFile (ascii "https://h/a.deb") (ascii "/tmp/m/package.deb"),
          Event.verifyPGP (ascii "/tmp/m/package.deb")
            (ascii "https://cdn.mullvad.net/app/desktop/releases/2025.1/a.deb.asc"),
          Event.extractDeb (ascii "/tmp/m/package.deb") (ascii "/tmp/m/ex") true,
          Event.removeAll (ascii "/tmp/m"), Event.unregisterTmpDir (ascii "/tmp/m")],
        .error .extract, [], []⟩ := by
  refine ⟨by decide, by decide, by decide, by decide, by decide⟩

/-- The calls of `installTree`: in every run of `Install`, a call of
`installTree` or one of the calls it makes happens only in a run that is not a
dry run and in which asset selection, the creation of the staging directory, the
download, the signature verification and `ExtractDeb` all succeeded; and when
asset selection, the download, the verification or the extraction fails,
`Install` returns the error of that step and the run has no call of
`installTree` and none of its writes. -/
theorem Install_promotes_after_extraction (w : World) (rel : Release) (arch : Bytes)
    (dryRun us : Bool) (tmpDirs : List Bytes) :
    (∀ ev ∈ (Install w rel arch dryRun us tmpDirs).trace, ev.promotes = true →
      dryRun = false ∧ ∃ url tmp,
        selectDebAsset rel arch = some url ∧ w.mkdirTemp = some tmp ∧
        w.fetchFile url (Join tmp (ascii "package.deb")) = true ∧
        w.verifyPGP (Join tmp (ascii "package.deb")) (sigURL rel url) = true ∧
        w.extractDeb (Join tmp (ascii "package.deb")) (Join tmp (ascii "ex")) us = true) ∧
    (selectDebAsset rel arch = none →
      (Install w rel arch dryRun us tmpDirs).result = .error (.noAsset arch) ∧
      (Install w rel arch dryRun us tmpDirs).trace = []) ∧
    (∀ url tmp, selectDebAsset rel arch = some url → w.mkdirTemp = some tmp →
      dryRun = false →
      (w.fetchFile url (Join tmp (ascii "package.deb")) = false →
        (Install w rel arch dryRun us tmpDirs).result = .error .fetch ∧
        ∀ ev ∈ (Install w rel arch dryRun us tmpDirs).trace, ev.promotes = false) ∧
      (w.fetchFile url (Join tmp (ascii "package.deb")) = true →
        w.verifyPGP (Join tmp (ascii "package.deb")) (sigURL rel url) = false →
        (Install w rel arch dryRun us tmpDirs).result = .error .verify ∧
        ∀ ev ∈ (Install w rel arch dryRun us tmpDirs).trace, ev.promotes = false) ∧
      (w.fetchFile url (Join tmp (ascii "package.deb")) = true →
        w.verifyPGP (Join tmp (ascii "package.deb")) (sigURL rel url) = true →
        w.extractDeb (Join tmp (ascii "package.deb")) (Join tmp (ascii "ex")) us = false →
        (Install w rel arch dryRun us tmpDirs).result = .error .extract ∧
        ∀ ev ∈ (Install w rel arch dryRun us tmpDirs).trace, ev.promotes = false)) := by
  refine ⟨?_, ?_, ?_⟩
  · cases hsel : selectDebAsset rel arch with
    | none => simp [Install, hsel]
    | some url =>
      cases htmp : w.mkdirTemp with
      | none => simp [Install, hsel, htmp, Event.promotes]
      | some tmp =>
        rw [Install_staged w rel arch dryRun us tmpDirs url tmp hsel htmp]
        intro ev hev hp
        have hbody : ev ∈ (installSteps w rel url tmp dryRun us).1 := by
          simp only [List.cons_append, List.nil_append, List.mem_cons, List.mem_append,
            List.mem_singleton, List.not_mem_nil, or_false] at hev
          rcases hev with rfl | rfl | hev | rfl | rfl
          · cases hp
          · cases hp
          · exact hev
          · cases hp
          · cases hp
        cases dryRun with
        | true => simp [installSteps_dryRun] at hbody
        | false =>
          refine ⟨rfl, url, tmp, rfl, rfl, ?_⟩
          cases h1 : w.fetchFile url (Join tmp (ascii "package.deb")) with
          | false =>
            rw [installSteps_fetch_fails w rel url tmp us h1] at hbody
            simp only [List.mem_singleton] at hbody
            subst hbody; cases hp
          | true =>
            cases h2 : w.verifyPGP (Join tmp (ascii "package.deb")) (sigURL rel url) with
            | false =>
              rw [installSteps_verify_fails w rel url tmp us h1 h2] at hbody
              simp only [List.mem_cons, List.mem_singleton, List.not_mem_nil, or_false] at hbody
              rcases hbody with rfl | rfl <;> cases hp
            | true =>
              cases h3 : w.extractDeb (Join tmp (ascii "package.deb"))
                  (Join tmp (ascii "ex")) us with
              | false =>
                rw [installSteps_extract_fails w rel url tmp us h1 h2 h3] at hbody
                simp only [List.mem_cons, List.mem_singleton, List.not_mem_nil,
                  or_false] at hbody
                rcases hbody with rfl | rfl | rfl <;> cases hp
              | true => exact ⟨rfl, rfl, rfl⟩
  · intro hsel
    simp [Install, hsel]
  · intro url tmp hsel htmp hdry
    subst hdry
    rw [Install_staged w rel arch false us tmpDirs url tmp hsel htmp]
    refine ⟨?_, ?_, ?_⟩
    · intro h1
      rw [installSteps_fetch_fails w rel url tmp us h1]
      refine ⟨rfl, promotes_trace tmp _ ?_⟩
      intro ev hev
      simp only [List.mem_singleton] at hev
      subst hev; rfl
    · intro h1 h2
      rw [installSteps_verify_fails w rel url tmp us h1 h2]
      refine ⟨rfl, promotes_trace tmp _ ?_⟩
      intro ev hev
      simp only [List.mem_cons, List.mem_singleton, List.not_mem_nil, or_false] at hev
      rcases hev with rfl | rfl <;> rfl
    · intro h1 h2 h3
      rw [installSteps_extract_fails w rel url tmp us h1 h2 h3]
      refine ⟨rfl, promotes_trace tmp _ ?_⟩
      intro ev hev
      simp only [List.mem_cons, List.mem_singleton, List.not_mem_nil, or_false] at hev
      rcases hev with rfl | rfl | rfl <;> rfl

theorem Install_promotes_after_extraction_witness :
    (Install sampleWorldBadExtract sampleRelease (ascii "amd64") false false []).result
        = .error .extract ∧
    ∀ ev ∈ (Install sampleWorldBadExtract sampleRelease (ascii "amd64") false false []).trace,
      ev.promotes = false :=
  ((Install_promotes_after_extraction sampleWorldBadExtract sampleRelease (ascii "amd64")
      false false []).2.2
    (ascii "https://h/a.deb") (ascii "/tmp/m") (by decide) (by decide) rfl).2.2
    (by decide) (by decide) (by decide)

theorem UnregisterTmpDir_register_perm (tmpDirs : List Bytes) (dir : Bytes) :
    List.Perm (UnregisterTmpDir (RegisterTmpDir tmpDirs dir) dir) tmpDirs := by
  induction tmpDirs with
  | nil => simp [RegisterTmpDir, UnregisterTmpDir]
  | cons d rest ih =>
    by_cases h : d = dir
    · subst h
      simp only [RegisterTmpDir, List.cons_append, UnregisterTmpDir, if_true]
      exact List.perm_append_singleton d rest
    · simp only [RegisterTmpDir, List.cons_append, UnregisterTmpDir, h, if_false]
      exact List.Perm.cons d ih

theorem UnregisterTmpDir_register_eq (tmpDirs : List Bytes) (dir : Bytes)
    (hn : dir ∉ tmpDirs) :
    UnregisterTmpDir (RegisterTmpDir tmpDirs dir) dir = tmpDirs := by
  induction tmpDirs with
  | nil => simp [RegisterTmpDir, UnregisterTmpDir]
  | cons d rest ih =>
    have h : d ≠ dir := fun e => hn (by simp [e])
    have hr : dir ∉ rest := fun e => hn (List.mem_cons_of_mem _ e)
    have := ih hr
    simp only [RegisterTmpDir] at this
    show UnregisterTmpDir (d :: (rest ++ [dir])) dir = d :: rest
    simp only [UnregisterTmpDir, h, if_false, this]

/-- C16: in every run of `Install` that creates a staging directory `tmp`,
whatever the later steps return, the run ends with the calls
`os.RemoveAll(tmp)` and `UnregisterTmpDir(tmp)`, made after everything else;
the staging directory is gone when that `RemoveAll` succeeds, and the registry
holds exactly the entries it held before the call (the same list when `tmp` was
not already in it). -/
theorem Install_cleans_staging (w : World) (rel : Release) (arch : Bytes)
    (dryRun us : Bool) (tmpDirs : List Bytes) (url tmp : Bytes)
    (hsel : selectDebAsset rel arch = some url) (htmp : w.mkdirTemp = some tmp) :
    (∃ body : List Event,
      (Install w rel arch dryRun us tmpDirs).trace
        = [Event.mkdirTemp, Event.registerTmpDir tmp] ++ body
          ++ [Event.removeAll tmp, Event.unregisterTmpDir tmp]) ∧
    (w.removeAll tmp = true → (Install w rel arch dryRun us tmpDirs).leftover = []) ∧
    List.Perm (Install w rel arch dryRun us tmpDirs).registry tmpDirs ∧
    (tmp ∉ tmpDirs → (Install w rel arch dryRun us tmpDirs).registry = tmpDirs) := by
  rw [Install_staged w rel arch dryRun us tmpDirs url tmp hsel htmp]
  refine ⟨⟨_, rfl⟩, ?_, UnregisterTmpDir_register_perm tmpDirs tmp,
    UnregisterTmpDir_register_eq tmpDirs tmp⟩
  intro h
  simp [h]

theorem Install_cleans_staging_witness :
    (∃ body : List Event,
      (Install sampleWorldBadSig sampleRelease (ascii "amd64") false false [ascii "/tmp/k"]).trace
        = [Event.mkdirTemp, Event.registerTmpDir (ascii "/tmp/m")] ++ body
          ++ [Event.removeAll (ascii "/tmp/m"), Event.unregisterTmpDir (ascii "/tmp/m")]) ∧
    (sampleWorldBadSig.removeAll (ascii "/tmp/m") = true →
      (Install sampleWorldBadSig sampleRelease (ascii "amd64") false false
        [ascii "/tmp/k"]).leftover = []) ∧
    List.Perm
      (Install sampleWorldBadSig sampleRelease (ascii "amd64") false false
        [ascii "/tmp/k"]).registry [ascii "/tmp/k"] ∧
    (ascii "/tmp/m" ∉ [ascii "/tmp/k"] →
      (Install sampleWorldBadSig sampleRelease (ascii "amd64") false false
        [ascii "/tmp/k"]).registry = [ascii "/tmp/k"]) :=
  Install_cleans_staging sampleWorldBadSig sampleRelease (ascii "amd64") false false
    [ascii "/tmp/k"] (ascii "https://h/a.deb") (ascii "/tmp/m") (by decide) (by decide)

/-- C19 (the code at the failing inputs): for the architecture `amd64`, in a
release that lists `MullvadVPN-2025.1_amd64.deb.asc` before the package,
`selectDebAsset` returns the URL of that signature file, whose name does not
end with `amd64.deb`; and in a release that has the signature file only it
returns that URL instead of failing. -/
theorem selectDebAsset_returns_signature_file :
    selectDebAsset sampleReleaseAscFirst (ascii "amd64") = some (ascii "https://h/a.deb.asc") ∧
    hasSuffix (ascii "MullvadVPN-2025.1_amd64.deb.asc") (ascii "amd64" ++ ascii ".deb") = false ∧
    selectDebAsset sampleReleaseAscOnly (ascii "amd64") = some (ascii "https://h/a.deb.asc") ∧
    (∀ a ∈ sampleReleaseAscOnly.Assets,
      hasSuffix a.Name (ascii "amd64" ++ ascii ".deb") = false) := by
  decide

/-! ## The promotion step -/

theorem copyFileWithMode_ok (fails : Event → Bool) (src dst : Bytes) (mode : Nat)
    (h : (copyFileWithMode fails src dst mode).2 = .ok ()) :
    (copyFileWithMode fails src dst mode).1
      = [Event.openSrc src, Event.openFile dst mode, Event.copy src dst,
         Event.close dst, Event.close src] := by
  simp only [copyFileWithMode] at h ⊢
  by_cases h1 : fails (Event.openSrc src) = true
  · simp [h1] at h
  simp only [h1, if_false] at h ⊢
  by_cases h2 : fails (Event.openFile dst mode) = true
  · simp [h2] at h
  simp only [h2, if_false, Bool.false_eq_true] at h ⊢

theorem installTree_ok_trace (fails : Event → Bool) (src dst : Bytes) (walk : List WalkItem) :
    (installTree fails src dst false walk).2 = .ok () →
    (installTree fails src dst false walk).1
      = (walk.map (fun it =>
          if it.isDir then
            [Event.mkdirAll (Join dst ((Rel src it.path).getD [])) it.mode]
          else
            [Event.copyFileWithMode it.path (Join dst ((Rel src it.path).getD [])) it.mode,
             Event.openSrc it.path,
             Event.openFile (Join dst ((Rel src it.path).getD [])) it.mode,
             Event.copy it.path (Join dst ((Rel src it.path).getD [])),
             Event.close (Join dst ((Rel src it.path).getD [])),
             Event.close it.path])).flatten := by
  induction walk with
  | nil => intro _; rfl
  | cons x rest ih =>
    intro hok
    simp only [installTree, Bool.false_eq_true, if_false] at hok ⊢
    by_cases h1 : x.err = true
    · simp [h1] at hok
    simp only [h1, if_false] at hok ⊢
    by_cases h2 : x.infoFails = true
    · simp [h2] at hok
    simp only [h2, if_false] at hok ⊢
    by_cases hd : x.isDir = true
    · simp only [hd, if_true] at hok ⊢
      by_cases hf : fails (Event.mkdirAll (Join dst ((Rel src x.path).getD [])) x.mode) = true
      · simp [hf] at hok
      simp only [hf, if_false] at hok ⊢
      rw [List.map_cons, List.flatten_cons, ← ih hok]
      simp [hd]
    · simp only [hd, if_false] at hok ⊢
      have hc := copyFileWithMode_ok fails x.path (Join dst ((Rel src x.path).getD [])) x.mode
      rcases hcf : copyFileWithMode fails x.path (Join dst ((Rel src x.path).getD []))
        x.mode with ⟨evs, r⟩
      rw [hcf] at hok hc
      cases r with
      | error e => simp at hok
      | ok u =>
        have hevs := hc rfl
        simp only at hevs hok ⊢
        rw [List.map_cons, List.flatten_cons, ← ih hok, hevs]
        simp [hd]

theorem installPairs_ok_trace (w : World) (pairs : List (Bytes × Bytes)) :
    (installPairs w false pairs).2 = .ok () →
    (installPairs w false pairs).1
        = (pairs.map (fun p =>
            Event.installTree p.1 p.2
              :: (installTree w.fails p.1 p.2 false (w.walk p.1)).1)).flatten ∧
      ∀ p ∈ pairs, (installTree w.fails p.1 p.2 false (w.walk p.1)).2 = .ok () := by
  induction pairs with
  | nil => intro _; exact ⟨rfl, fun p hp => absurd hp (List.not_mem_nil _)⟩
  | cons q rest ih =>
    obtain ⟨src, dst⟩ := q
    intro hok
    simp only [installPairs, Bool.false_eq_true, if_false] at hok ⊢
    rcases ht : installTree w.fails src dst false (w.walk src) with ⟨evs, r⟩
    rw [ht] at hok
    cases r with
    | error e => simp at hok
    | ok u =>
      simp only at hok ⊢
      obtain ⟨h1, h2⟩ := ih hok
      refine ⟨?_, ?_⟩
      · rw [List.map_cons, List.flatten_cons, ← h1, ht]
      · intro p hp
        rcases List.mem_cons.mp hp with rfl | hp
        · rw [ht]
        · exact h2 p hp

theorem normal_opt : NormalElem (ascii "opt") := by unfold NormalElem; decide
theorem normal_usr : NormalElem (ascii "usr") := by unfold NormalElem; decide

theorem joinSep_cons_drop (r r2 : Bytes) (xs : List Bytes) :
    r2 ++ (joinSep (r :: xs)).drop r.length = joinSep (r2 :: xs) := by
  by_cases hx : xs = []
  · subst hx
    simp [joinSep_singleton]
  · rw [joinSep_cons r xs hx, joinSep_cons r2 xs hx, List.drop_left]

/-- The target `installTree` computes for an entry under the staged root
`ex/D`: `/D` followed by what follows the root in the path of the entry. -/
theorem promoted_target (a D p : Bytes) (hD : NormalElem D)
    (hp : ∃ xs : List Bytes, (∀ x ∈ xs, NormalElem x) ∧ p = joinSep (Join a D :: xs)) :
    Join (47 :: D) ((Rel (Join a D) p).getD []) = (47 :: D) ++ p.drop (Join a D).length := by
  obtain ⟨xs, hxs, rfl⟩ := hp
  rw [Join_Rel_under a D xs hD hxs, joinSep_cons_drop]

/-- The calls of `installTree` in a run that returns `nil`, for the staged
root `ex/D` whose entries are paths under it. -/
theorem installTree_under (fails : Event → Bool) (a D : Bytes) (walk : List WalkItem)
    (hD : NormalElem D)
    (hwalk : ∀ it ∈ walk, ∃ xs : List Bytes, (∀ x ∈ xs, NormalElem x) ∧
      it.path = joinSep (Join a D :: xs))
    (hok : (installTree fails (Join a D) (47 :: D) false walk).2 = .ok ()) :
    (installTree fails (Join a D) (47 :: D) false walk).1
      = (walk.map (fun it =>
          let target := (47 :: D) ++ it.path.drop (Join a D).length
          if it.isDir then [Event.mkdirAll target it.mode]
          else
            [Event.copyFileWithMode it.path target it.mode,
             Event.openSrc it.path,
             Event.openFile target it.mode,
             Event.copy it.path target,
             Event.close target,
             Event.close it.path])).flatten := by
  rw [installTree_ok_trace fails (Join a D) (47 :: D) walk hok]
  congr 1
  apply List.map_congr_left
  intro it hit
  simp only [promoted_target a D it.path hD (hwalk it hit)]

/-- C15 (as stated, refuted): in the sample world the staged tree has the
top-level directory `etc` with the file `etc/conf`, every step succeeds and
`Install` returns `nil`, but the promotion step walks `ex/opt` and `ex/usr`
only: no call opens or copies `etc/conf` and no call acts on `/etc`. -/
theorem Install_skips_other_top_level_dirs :
    sampleWorld.walk (ascii "/tmp/m/ex/etc")
      = [⟨ascii "/tmp/m/ex/etc", false, false, true, 0o755⟩,
         ⟨ascii "/tmp/m/ex/etc/conf", false, false, false, 0o644⟩] ∧
    Install sampleWorld sampleRelease (ascii "amd64") false false []
      = ⟨[Event.mkdirTemp, Event.registerTmpDir (ascii "/tmp/m"),
          Event.fetchFile (ascii "https://h/a.deb") (ascii "/tmp/m/package.deb"),
          Event.verifyPGP (ascii "/tmp/m/package.deb")
            (ascii "https://cdn.mullvad.net/app/desktop/releases/2025.1/a.deb.asc"),
          Event.extractDeb (ascii "/tmp/m/package.deb") (ascii "/tmp/m/ex") false,
          Event.installTree (ascii "/tmp/m/ex/opt") (ascii "/opt"),
          Event.mkdirAll (ascii "/opt") 0o755,
          Event.copyFileWithMode (ascii "/tmp/m/ex/opt/app") (ascii "/opt/app") 0o755,
          Event.openSrc (ascii "/tmp/m/ex/opt/app"),
          Event.openFile (ascii "/opt/app") 0o755,
          Event.copy (ascii "/tmp/m/ex/opt/app") (ascii "/opt/app"),
          Event.close (ascii "/opt/app"),
          Event.close (ascii "/tmp/m/ex/opt/app"),
          Event.installTree (ascii "/tmp/m/ex/usr") (ascii "/usr"),
          Event.mkdirAll (ascii "/usr") 0o755,
          Event.copyFileWithMode (ascii "/tmp/m/ex/usr/icon") (ascii "/usr/icon") 0o644,
          Event.openSrc (ascii "/tmp/m/ex/usr/icon"),
          Event.openFile (ascii "/usr/icon") 0o644,
          Event.copy (ascii "/tmp/m/ex/usr/icon") (ascii "/usr/icon"),
          Event.close (ascii "/usr/icon"),
          Event.close (ascii "/tmp/m/ex/usr/icon"),
          Event.removeAll (ascii "/tmp/m"), Event.unregisterTmpDir (ascii "/tmp/m")],
        .ok (), [], []⟩ := by
  constructor
  · decide
  · decide

/-- C15 (amended): after a successful extraction `Install` promotes the two
staged subtrees `opt` and `usr` only.  In a run that is not a dry run and
returns `nil`, where every entry the walk of `ex/D` visits is staged under
`ex/D` (its path is `ex/D` followed by file names), the calls of the run are
exactly: the steps up to `ExtractDeb`; then for `D = opt` and then for
`D = usr` the call `installTree(ex/D, /D)` and, for every entry the walk of
`ex/D` visits, in order, with the target `/D` followed by what follows `ex/D`
in its path, `os.MkdirAll(target, mode)` for a directory and, for a file,
`copyFileWithMode(path, target, mode)`, which opens the staged file, opens the
target with create, write-only and truncate and the mode of the staged file,
copies the contents and closes both; then the removal of the staging
directory.  No other call is made, so no other top-level directory of the
staging extraction directory is copied. -/
theorem Install_promotes_opt_and_usr (w : World) (rel : Release) (arch : Bytes) (us : Bool)
    (tmpDirs : List Bytes) (url tmp : Bytes)
    (hsel : selectDebAsset rel arch = some url) (htmp : w.mkdirTemp = some tmp)
    (hok : (Install w rel arch false us tmpDirs).result = .ok ())
    (hstaged : ∀ D ∈ [ascii "opt", ascii "usr"],
      ∀ it ∈ w.walk (Join (Join tmp (ascii "ex")) D),
        ∃ xs : List Bytes, (∀ x ∈ xs, NormalElem x) ∧
          it.path = joinSep (Join (Join tmp (ascii "ex")) D :: xs)) :
    (Install w rel arch false us tmpDirs).trace
      = [Event.mkdirTemp, Event.registerTmpDir tmp,
          Event.fetchFile url (Join tmp (ascii "package.deb")),
          Event.verifyPGP (Join tmp (ascii "package.deb")) (sigURL rel url),
          Event.extractDeb (Join tmp (ascii "package.deb")) (Join tmp (ascii "ex")) us]
        ++ ([ascii "opt", ascii "usr"].map (fun D =>
            Event.installTree (Join (Join tmp (ascii "ex")) D) (47 :: D)
              :: ((w.walk (Join (Join tmp (ascii "ex")) D)).map (fun it =>
                  let target := (47 :: D) ++ it.path.drop (Join (Join tmp (ascii "ex")) D).length
                  if it.isDir then [Event.mkdirAll target it.mode]
                  else
                    [Event.copyFileWithMode it.path target it.mode,
                     Event.openSrc it.path,
                     Event.openFile target it.mode,
                     Event.copy it.path target,
                     Event.close target,
                     Event.close it.path])).flatten)).flatten
        ++ [Event.removeAll tmp, Event.unregisterTmpDir tmp] := by
  rw [Install_staged w rel arch false us tmpDirs url tmp hsel htmp] at hok ⊢
  simp only at hok
  cases h1 : w.fetchFile url (Join tmp (ascii "package.deb")) with
  | false => rw [installSteps_fetch_fails w rel url tmp us h1] at hok; cases hok
  | true =>
    cases h2 : w.verifyPGP (Join tmp (ascii "package.deb")) (sigURL rel url) with
    | false => rw [installSteps_verify_fails w rel url tmp us h1 h2] at hok; cases hok
    | true =>
      cases h3 : w.extractDeb (Join tmp (ascii "package.deb")) (Join tmp (ascii "ex")) us with
      | false => rw [installSteps_extract_fails w rel url tmp us h1 h2 h3] at hok; cases hok
      | true =>
        rw [installSteps_extracted w rel url tmp us h1 h2 h3] at hok ⊢
        simp only at hok
        obtain ⟨htrace, htrees⟩ := installPairs_ok_trace w _ hok
        have hopt := htrees (Join (Join tmp (ascii "ex")) (ascii "opt"), ascii "/opt")
          (List.mem_cons_self _ _)
        have husr := htrees (Join (Join tmp (ascii "ex")) (ascii "usr"), ascii "/usr")
          (List.mem_cons_of_mem _ (List.mem_cons_self _ _))
        have e1 : (ascii "/opt" : Bytes) = 47 :: ascii "opt" := rfl
        have e2 : (ascii "/usr" : Bytes) = 47 :: ascii "usr" := rfl
        simp only [e1, e2] at hopt husr htrace
        have t1 := installTree_under w.fails (Join tmp (ascii "ex")) (ascii "opt") _ normal_opt
          (hstaged (ascii "opt") (List.mem_cons_self _ _)) hopt
        have t2 := installTree_under w.fails (Join tmp (ascii "ex")) (ascii "usr") _ normal_usr
          (hstaged (ascii "usr") (List.mem_cons_of_mem _ (List.mem_cons_self _ _))) husr
        simp only [htrace, e1, e2, List.map_cons, List.map_nil, t1, t2]
        simp

theorem Install_promotes_opt_and_usr_witness :
    (Install sampleWorld sampleRelease (ascii "amd64") false false []).trace
      = [Event.mkdirTemp, Event.registerTmpDir (ascii "/tmp/m"),
          Event.fetchFile (ascii "https://h/a.deb") (ascii "/tmp/m/package.deb"),
          Event.verifyPGP (ascii "/tmp/m/package.deb")
            (ascii "https://cdn.mullvad.net/app/desktop/releases/2025.1/a.deb.asc"),
          Event.extractDeb (ascii "/tmp/m/package.deb") (ascii "/tmp/m/ex") false,
          Event.installTree (ascii "/tmp/m/ex/opt") (ascii "/opt"),
          Event.mkdirAll (ascii "/opt") 493,
          Event.copyFileWithMode (ascii "/tmp/m/ex/opt/app") (ascii "/opt/app") 493,
          Event.openSrc (ascii "/tmp/m/ex/opt/app"),
          Event.openFile (ascii "/opt/app") 493,
          Event.copy (ascii "/tmp/m/ex/opt/app") (ascii "/opt/app"),
          Event.close (ascii "/opt/app"),
          Event.close (ascii "/tmp/m/ex/opt/app"),
          Event.installTree (ascii "/tmp/m/ex/usr") (ascii "/usr"),
          Event.mkdirAll (ascii "/usr") 493,
          Event.copyFileWithMode (ascii "/tmp/m/ex/usr/icon") (ascii "/usr/icon") 420,
          Event.openSrc (ascii "/tmp/m/ex/usr/icon"),
          Event.openFile (ascii "/usr/icon") 420,
          Event.copy (ascii "/tmp/m/ex/usr/icon") (ascii "/usr/icon"),
          Event.close (ascii "/usr/icon"),
          Event.close (ascii "/tmp/m/ex/usr/icon"),
          Event.removeAll (ascii "/tmp/m"), Event.unregisterTmpDir (ascii "/tmp/m")] :=
  (Install_promotes_opt_and_usr sampleWorld sampleRelease (ascii "amd64") false []
    (ascii "https://h/a.deb") (ascii "/tmp/m") (by decide) (by decide) (by decide)
    (by
      intro D hD it hit
      simp only [List.mem_cons, List.mem_singleton, List.not_mem_nil, or_false] at hD
      rcases hD with rfl | rfl
      · have hw : sampleWorld.walk (Join (Join (ascii "/tmp/m") (ascii "ex")) (ascii "opt"))
            = [⟨ascii "/tmp/m/ex/opt", false, false, true, 0o755⟩,
               ⟨ascii "/tmp/m/ex/opt/app", false, false, false, 0o755⟩] := by decide
        rw [hw] at hit
        simp only [List.mem_cons, List.mem_singleton, List.not_mem_nil, or_false] at hit
        rcases hit with rfl | rfl
        · exact ⟨[], by simp, by decide⟩
        · exact ⟨[ascii "app"], by unfold NormalElem; decide, by decide⟩
      · have hw : sampleWorld.walk (Join (Join (ascii "/tmp/m") (ascii "ex")) (ascii "usr"))
            = [⟨ascii "/tmp/m/ex/usr", false, false, true, 0o755⟩,
               ⟨ascii "/tmp/m/ex/usr/icon", false, false, false, 0o644⟩] := by decide
        rw [hw] at hit
        simp only [List.mem_cons, List.mem_singleton, List.not_mem_nil, or_false] at hit
        rcases hit with rfl | rfl
        · exact ⟨[], by simp, by decide⟩
        · exact ⟨[ascii "icon"], by unfold NormalElem; decide, by decide⟩)).trans
    (by decide)

/-! ## Further properties of `selectDebAsset` -/

/-- The function `selectDebAsset` fails exactly when no asset name contains
`arch + ".deb"`, and a URL it returns is that of the first asset whose name
contains it. -/
theorem selectDebAsset_first_match (rel : Release) (arch : Bytes) :
    (selectDebAsset rel arch = none ↔
      ∀ a ∈ rel.Assets, contains a.Name (arch ++ ascii ".deb") = false) ∧
    (∀ url, selectDebAsset rel arch = some url →
      ∃ pre a post, rel.Assets = pre ++ a :: post ∧
        (∀ b ∈ pre, contains b.Name (arch ++ ascii ".deb") = false) ∧
        contains a.Name (arch ++ ascii ".deb") = true ∧ a.URL = url) := by
  unfold selectDebAsset
  generalize rel.Assets = assets
  induction assets with
  | nil => simp [selectDebAssetLoop]
  | cons a rest ih =>
    by_cases h : contains a.Name (arch ++ ascii ".deb") = true
    · simp only [selectDebAssetLoop, h, if_true]
      refine ⟨by simp [h], ?_⟩
      intro url hu
      exact ⟨[], a, rest, rfl, by simp, h, Option.some.inj hu⟩
    · have hf : contains a.Name (arch ++ ascii ".deb") = false := by simpa using h
      simp only [selectDebAssetLoop, hf, Bool.false_eq_true, if_false]
      refine ⟨by simp [hf, ih.1], ?_⟩
      intro url hu
      obtain ⟨pre, b, post, he, hpre, hb, hurl⟩ := ih.2 url hu
      refine ⟨a :: pre, b, post, by simp [he], ?_, hb, hurl⟩
      intro c hc
      rcases List.mem_cons.mp hc with rfl | hc
      · exact hf
      · exact hpre c hc

end Installer
